import Mathlib

/-!
Shallow embedding of the contact identity-reconciliation service
(`src/services/identityService.ts`, model `src/models/Contact.ts`).

Modelling decisions:
* A `Contact` row mirrors the Sequelize model: `id`, `phoneNumber`, `email`,
  `linkedId`, `linkPrecedence`, `createdAt` (a natural-number timestamp) and
  `deletedAt` (soft-delete marker; the model is `paranoid`, so every query and
  bulk update only touches rows with `deletedAt = none`).  `updatedAt` carries
  no information used by any resolver decision and is omitted.
* The `Store` carries the list of rows in table order, the auto-increment
  counter `nextId`, a monotone clock `now` used for `createdAt`, and a log of
  the mutating operations that were issued (insert / per-row update / bulk
  linked-id update), so that side-effect claims are expressible.
* JavaScript truthiness on optional strings (`if (email)`) is `truthy`:
  `null`/`undefined`/`""` are falsy.  Truthiness on the numeric `linkedId`
  treats `null` and `0` as falsy.
* `ORDER BY createdAt ASC` and `Array.prototype.sort` with the
  `createdAt` comparator are both stable sorts; they are modelled by the
  stable `List.insertionSort` on the `createdAt` key.
* Sequelize instance updates mutate the loaded JS object in place; the
  in-memory closure list is therefore threaded through
  `mergePrimaryContacts` explicitly and updated by row id.
-/

namespace Reconciliation

/-- Link precedence enum of the `Contact` model. -/
inductive LinkPrecedence where
  | primary
  | secondary
deriving DecidableEq, Repr

/-- One row of the `contacts` table (`src/models/Contact.ts`). -/
structure Contact where
  id : Nat
  phoneNumber : Option String
  email : Option String
  linkedId : Option Nat
  linkPrecedence : LinkPrecedence
  createdAt : Nat
  deletedAt : Option Nat
deriving DecidableEq, Repr

/-- Record of one mutating store operation, used to state side-effect claims. -/
inductive StoreOp where
  | insert (c : Contact)
  | update (id : Nat) (newLinkedId : Option Nat) (newPrecedence : LinkPrecedence)
  | bulkUpdateLinkedId (oldLinkedId newLinkedId : Nat)
deriving DecidableEq, Repr

/-- The contact store: table rows in table order, auto-increment counter,
monotone creation clock, and the log of issued mutations. -/
structure Store where
  contacts : List Contact
  nextId : Nat
  now : Nat
  log : List StoreOp
deriving DecidableEq, Repr

/-- JavaScript truthiness of an optional string: `null`/`undefined` and `""`
are falsy (`if (email)`). -/
def truthy : Option String → Bool
  | none => false
  | some s => !(s = "")

/-- JavaScript truthiness of the numeric `linkedId`: `null` and `0` are falsy
(`else if (contact.linkedId)`). -/
def truthyNat : Option Nat → Bool
  | none => false
  | some n => !(n = 0)

/-- Rows visible to paranoid queries: soft-deleted rows are excluded. -/
def Store.live (s : Store) : List Contact :=
  s.contacts.filter (fun c => c.deletedAt = none)

/-- Atomic insert: assigns `nextId` and the current clock value as
`createdAt`, appends the row, bumps counter and clock, records the operation. -/
def Store.insert (s : Store) (email phoneNumber : Option String)
    (linkedId : Option Nat) (precedence : LinkPrecedence) : Contact × Store :=
  let c : Contact :=
    { id := s.nextId, phoneNumber := phoneNumber, email := email,
      linkedId := linkedId, linkPrecedence := precedence,
      createdAt := s.now, deletedAt := none }
  (c, { contacts := s.contacts ++ [c], nextId := s.nextId + 1,
        now := s.now + 1, log := s.log ++ [StoreOp.insert c] })

/-- Instance-level `contact.update({linkedId, linkPrecedence})`: updates the
row with the given primary key. -/
def Store.updateLinks (s : Store) (cid : Nat) (newLinkedId : Option Nat)
    (newPrecedence : LinkPrecedence) : Store :=
  { s with
    contacts := s.contacts.map (fun c =>
      if c.id = cid then
        { c with linkedId := newLinkedId, linkPrecedence := newPrecedence }
      else c),
    log := s.log ++ [StoreOp.update cid newLinkedId newPrecedence] }

/-- Bulk `Contact.update({linkedId: new}, {where: {linkedId: old}})`; the
paranoid default restricts the update to non-deleted rows. -/
def Store.bulkUpdateLinkedId (s : Store) (oldLinked newLinked : Nat) : Store :=
  { s with
    contacts := s.contacts.map (fun c =>
      if c.deletedAt = none ∧ c.linkedId = some oldLinked then
        { c with linkedId := some newLinked }
      else c),
    log := s.log ++ [StoreOp.bulkUpdateLinkedId oldLinked newLinked] }

/-- Ordering relation used by `ORDER BY createdAt ASC` and the merge sort. -/
def createdLE (a b : Contact) : Prop := a.createdAt ≤ b.createdAt

instance : DecidableRel createdLE :=
  fun a b => inferInstanceAs (Decidable (a.createdAt ≤ b.createdAt))

instance : IsTotal Contact createdLE :=
  ⟨fun a b => Nat.le_total a.createdAt b.createdAt⟩

instance : IsTrans Contact createdLE :=
  ⟨fun _ _ _ h h' => Nat.le_trans h h'⟩

/-- Stable sort by `createdAt` ascending (models both the SQL `ORDER BY` and
the stable JavaScript `Array.prototype.sort` with the `createdAt` comparator). -/
def sortByCreatedAt (l : List Contact) : List Contact :=
  List.insertionSort createdLE l

/-- Whether a row matches the exact-field lookup of `findMatchingContacts`:
`email = :email OR phoneNumber = :phone`, with a condition only added for a
truthy input. -/
def matchesRequest (email phoneNumber : Option String) (c : Contact) : Bool :=
  (truthy email && decide (c.email = email)) ||
    (truthy phoneNumber && decide (c.phoneNumber = phoneNumber))

/-- `IdentityService.findMatchingContacts`. -/
def findMatchingContacts (s : Store) (email phoneNumber : Option String) :
    List Contact :=
  s.live.filter (matchesRequest email phoneNumber)

/-- One step of building the `primaryIds` set (a JS `Set` keeps first-insertion
order; membership is what matters downstream). -/
def addAnchor (acc : List Nat) (c : Contact) : List Nat :=
  if c.linkPrecedence = LinkPrecedence.primary then
    if c.id ∈ acc then acc else acc ++ [c.id]
  else if truthyNat c.linkedId then
    match c.linkedId with
    | some l => if l ∈ acc then acc else acc ++ [l]
    | none => acc
  else acc

/-- The `primaryIds` anchor set of `getAllLinkedContacts`. -/
def anchorIds (contacts : List Contact) : List Nat :=
  contacts.foldl addAnchor []

/-- The closure query condition: `id IN anchors OR linkedId IN anchors`. -/
def closureFilter (anchors : List Nat) (c : Contact) : Bool :=
  decide (c.id ∈ anchors) ||
    (match c.linkedId with
     | some l => decide (l ∈ anchors)
     | none => false)

/-- `IdentityService.getAllLinkedContacts`: anchor derivation followed by the
closure query ordered by `createdAt` ascending. -/
def getAllLinkedContacts (s : Store) (contacts : List Contact) : List Contact :=
  if contacts.length = 0 then []
  else
    sortByCreatedAt (s.live.filter (closureFilter (anchorIds contacts)))

/-- One step of the `reduce` in `findPrimaryContact`. -/
def findPrimaryStep (oldest current : Contact) : Contact :=
  if current.linkPrecedence = LinkPrecedence.primary then
    if oldest.createdAt < current.createdAt then oldest else current
  else oldest

/-- `IdentityService.findPrimaryContact`: `contacts.reduce(...)`; `none` models
the TypeError a reduce of an empty array would throw. -/
def findPrimaryContact : List Contact → Option Contact
  | [] => none
  | c :: cs => some (cs.foldl findPrimaryStep c)

/-- `IdentityService.shouldCreateNewContact`. -/
def shouldCreateNewContact (contacts : List Contact)
    (email phoneNumber : Option String) : Bool :=
  if truthy email && truthy phoneNumber then
    if contacts.any (fun c =>
        decide (c.email = email) && decide (c.phoneNumber = phoneNumber)) then
      false
    else
      contacts.any (fun c => decide (c.email = email)) ||
        contacts.any (fun c => decide (c.phoneNumber = phoneNumber))
  else false

/-- One demotion round of `mergePrimaryContacts`: the instance update of the
younger primary followed by the bulk re-point of its dependents. -/
def demoteOne (oldestId : Nat) (s : Store) (p : Contact) : Store :=
  (s.updateLinks p.id (some oldestId) LinkPrecedence.secondary).bulkUpdateLinkedId
    p.id oldestId

/-- `IdentityService.mergePrimaryContacts`.  Returns the mutated store together
with the in-memory closure list as the JS caller observes it afterwards: the
demoted primary instances were mutated in place (tracked by row id), while the
bulk update does not touch already-loaded instances. -/
def mergePrimaryContacts (s : Store) (contacts : List Contact) :
    Store × List Contact :=
  let primaries :=
    contacts.filter (fun c => c.linkPrecedence = LinkPrecedence.primary)
  if primaries.length ≤ 1 then (s, contacts)
  else
    match sortByCreatedAt primaries with
    | [] => (s, contacts)
    | oldest :: rest =>
      let s' := rest.foldl (demoteOne oldest.id) s
      let contacts' := contacts.map (fun c =>
        if rest.any (fun p => p.id = c.id) then
          { c with linkedId := some oldest.id,
                   linkPrecedence := LinkPrecedence.secondary }
        else c)
      (s', contacts')

/-- `IdentityService.createPrimaryContact`: `email || null` and
`phoneNumber || null` normalise falsy inputs (including `""`) to `null`. -/
def createPrimaryContact (s : Store) (email phoneNumber : Option String) :
    Contact × Store :=
  s.insert (if truthy email then email else none)
    (if truthy phoneNumber then phoneNumber else none)
    none LinkPrecedence.primary

/-- The consolidated response body; the field name `primaryContatctId`
reproduces the required misspelling. -/
structure ConsolidatedContact where
  primaryContatctId : Nat
  emails : List String
  phoneNumbers : List String
  secondaryContactIds : List Nat
deriving DecidableEq, Repr

/-- Wrapper matching the `IdentifyResponse` interface. -/
structure IdentifyResponse where
  contact : ConsolidatedContact
deriving DecidableEq, Repr

/-- Processing of one secondary contact in `buildResponse`: push its id, and
push each truthy email/phone not already listed. -/
def buildStep (acc : List String × List String × List Nat) (c : Contact) :
    List String × List String × List Nat :=
  let es :=
    match c.email with
    | some e => if !(e = "") && !(e ∈ acc.1) then acc.1 ++ [e] else acc.1
    | none => acc.1
  let ps :=
    match c.phoneNumber with
    | some p => if !(p = "") && !(p ∈ acc.2.1) then acc.2.1 ++ [p] else acc.2.1
    | none => acc.2.1
  (es, ps, acc.2.2 ++ [c.id])

/-- List of zero or one truthy value of an optional string (the primary's
email/phone listed first when truthy). -/
def truthyVals : Option String → List String
  | some v => if v = "" then [] else [v]
  | none => []

/-- `IdentityService.buildResponse`; `none` models the thrown
`No primary contact found` error. -/
def buildResponse (contacts : List Contact) : Option IdentifyResponse :=
  match contacts.find? (fun c =>
      c.linkPrecedence = LinkPrecedence.primary) with
  | none => none
  | some primary =>
    let acc :=
      (contacts.filter (fun c =>
          c.linkPrecedence = LinkPrecedence.secondary)).foldl buildStep
        (truthyVals primary.email, truthyVals primary.phoneNumber, [])
    some ⟨⟨primary.id, acc.1, acc.2.1, acc.2.2⟩⟩

/-- Failure modes of `identify`: the validation throw, the TypeError of a
reduce over an empty array, and the `No primary contact found` throw. -/
inductive IdentifyError where
  | validationError
  | emptyReduceError
  | noPrimaryFound
deriving DecidableEq, Repr

/-- Tail of `identify` shared by both branches after the optional creation of
a new secondary: merge the primaries, re-fetch the closure, build the
response. -/
def identifyCore (s : Store) (allLinked : List Contact) :
    Except IdentifyError IdentifyResponse × Store :=
  let ms := mergePrimaryContacts s allLinked
  let finalContacts := getAllLinkedContacts ms.1 ms.2
  match buildResponse finalContacts with
  | none => (Except.error IdentifyError.noPrimaryFound, ms.1)
  | some r => (Except.ok r, ms.1)

/-- `IdentityService.identify`, returning the response (or error) together
with the resulting store state. -/
def identify (s : Store) (email phoneNumber : Option String) :
    Except IdentifyError IdentifyResponse × Store :=
  if !truthy email && !truthy phoneNumber then
    (Except.error IdentifyError.validationError, s)
  else
    let existingContacts := findMatchingContacts s email phoneNumber
    if existingContacts.length = 0 then
      let cs := createPrimaryContact s email phoneNumber
      match buildResponse [cs.1] with
      | none => (Except.error IdentifyError.noPrimaryFound, cs.2)
      | some r => (Except.ok r, cs.2)
    else
      let allLinked := getAllLinkedContacts s existingContacts
      if shouldCreateNewContact allLinked email phoneNumber then
        match findPrimaryContact allLinked with
        | none => (Except.error IdentifyError.emptyReduceError, s)
        | some primaryContact =>
          let ns := s.insert email phoneNumber (some primaryContact.id)
            LinkPrecedence.secondary
          identifyCore ns.2 (allLinked ++ [ns.1])
      else identifyCore s allLinked

/-- The contact list handed to `buildResponse` on each control path of
`identify` (empty on the validation-error path), used to state claims about
the final closure. -/
def identifyFinalContacts (s : Store) (email phoneNumber : Option String) :
    List Contact :=
  if !truthy email && !truthy phoneNumber then []
  else
    let existingContacts := findMatchingContacts s email phoneNumber
    if existingContacts.length = 0 then
      [(createPrimaryContact s email phoneNumber).1]
    else
      let allLinked := getAllLinkedContacts s existingContacts
      if shouldCreateNewContact allLinked email phoneNumber then
        match findPrimaryContact allLinked with
        | none => []
        | some primaryContact =>
          let ns := s.insert email phoneNumber (some primaryContact.id)
            LinkPrecedence.secondary
          let ms := mergePrimaryContacts ns.2 (allLinked ++ [ns.1])
          getAllLinkedContacts ms.1 ms.2
      else
        let ms := mergePrimaryContacts s allLinked
        getAllLinkedContacts ms.1 ms.2

/-- The in-memory contact list handed to `mergePrimaryContacts` by `identify`
(empty on paths that never reach the merge step). -/
def identifyMergeInput (s : Store) (email phoneNumber : Option String) :
    List Contact :=
  if !truthy email && !truthy phoneNumber then []
  else
    let existingContacts := findMatchingContacts s email phoneNumber
    if existingContacts.length = 0 then []
    else
      let allLinked := getAllLinkedContacts s existingContacts
      if shouldCreateNewContact allLinked email phoneNumber then
        match findPrimaryContact allLinked with
        | none => []
        | some primaryContact =>
          allLinked ++ [(s.insert email phoneNumber (some primaryContact.id)
            LinkPrecedence.secondary).1]
      else allLinked

instance {ε α : Type} [DecidableEq ε] [DecidableEq α] : DecidableEq (Except ε α) :=
  fun x y =>
    match x, y with
    | Except.ok a, Except.ok b =>
      if h : a = b then isTrue (by rw [h])
      else isFalse (fun hh => h (Except.ok.inj hh))
    | Except.error e, Except.error f =>
      if h : e = f then isTrue (by rw [h])
      else isFalse (fun hh => h (Except.error.inj hh))
    | Except.ok _, Except.error _ => isFalse (fun hh => Except.noConfusion hh)
    | Except.error _, Except.ok _ => isFalse (fun hh => Except.noConfusion hh)

/-! ### Basic characterisations of the embedded queries -/

/-- Ids of a list of contacts. -/
def idsOf (l : List Contact) : List Nat := l.map Contact.id

/-- The anchor contributed by one contact when the `primaryIds` set is built:
its own id for a primary, its truthy `linkedId` for a secondary. -/
def anchorOf (c : Contact) : Option Nat :=
  if c.linkPrecedence = LinkPrecedence.primary then some c.id
  else if truthyNat c.linkedId then c.linkedId
  else none

theorem mem_live {s : Store} {c : Contact} :
    c ∈ s.live ↔ c ∈ s.contacts ∧ c.deletedAt = none := by
  simp [Store.live]

theorem matchesRequest_iff {e p : Option String} {c : Contact} :
    matchesRequest e p c = true ↔
      (truthy e = true ∧ c.email = e) ∨
        (truthy p = true ∧ c.phoneNumber = p) := by
  simp [matchesRequest]

theorem mem_findMatchingContacts {s : Store} {e p : Option String}
    {c : Contact} :
    c ∈ findMatchingContacts s e p ↔
      c ∈ s.live ∧ matchesRequest e p c = true := by
  simp [findMatchingContacts]

theorem mem_addAnchor {acc : List Nat} {c : Contact} {a : Nat} :
    a ∈ addAnchor acc c ↔ a ∈ acc ∨ anchorOf c = some a := by
  unfold addAnchor anchorOf
  by_cases hp : c.linkPrecedence = LinkPrecedence.primary
  · simp only [if_pos hp]
    by_cases hm : c.id ∈ acc
    · simp only [if_pos hm]
      constructor
      · exact fun h => Or.inl h
      · rintro (h | h)
        · exact h
        · cases h; exact hm
    · simp only [if_neg hm, List.mem_append, List.mem_singleton]
      constructor
      · rintro (h | h)
        · exact Or.inl h
        · exact Or.inr (by rw [h])
      · rintro (h | h)
        · exact Or.inl h
        · cases h; exact Or.inr rfl
  · simp only [if_neg hp]
    cases hl : c.linkedId with
    | none => simp [truthyNat]
    | some l =>
      by_cases h0 : l = 0
      · subst h0
        simp [truthyNat]
      · have ht : truthyNat (some l) = true := by simp [truthyNat, h0]
        simp only [ht, if_true]
        by_cases hm : l ∈ acc
        · simp only [if_pos hm]
          constructor
          · exact fun h => Or.inl h
          · rintro (h | h)
            · exact h
            · cases h; exact hm
        · simp only [if_neg hm, List.mem_append, List.mem_singleton]
          constructor
          · rintro (h | h)
            · exact Or.inl h
            · exact Or.inr (by rw [h])
          · rintro (h | h)
            · exact Or.inl h
            · cases h; exact Or.inr rfl

theorem mem_foldl_addAnchor {l : List Contact} :
    ∀ {acc : List Nat} {a : Nat},
      a ∈ l.foldl addAnchor acc ↔ a ∈ acc ∨ ∃ c ∈ l, anchorOf c = some a := by
  induction l with
  | nil => simp
  | cons x xs ih =>
    intro acc a
    simp only [List.foldl_cons]
    rw [ih, mem_addAnchor]
    constructor
    · rintro ((h | h) | ⟨c, hc, hcc⟩)
      · exact Or.inl h
      · exact Or.inr ⟨x, List.mem_cons_self x xs, h⟩
      · exact Or.inr ⟨c, List.mem_cons_of_mem x hc, hcc⟩
    · rintro (h | ⟨c, hc, hcc⟩)
      · exact Or.inl (Or.inl h)
      · rcases List.mem_cons.mp hc with h | h
        · subst h; exact Or.inl (Or.inr hcc)
        · exact Or.inr ⟨c, h, hcc⟩

theorem mem_anchorIds {l : List Contact} {a : Nat} :
    a ∈ anchorIds l ↔ ∃ c ∈ l, anchorOf c = some a := by
  unfold anchorIds
  rw [mem_foldl_addAnchor]
  simp

theorem closureFilter_iff {A : List Nat} {c : Contact} :
    closureFilter A c = true ↔
      c.id ∈ A ∨ ∃ l, c.linkedId = some l ∧ l ∈ A := by
  cases h : c.linkedId with
  | none => simp [closureFilter, h]
  | some l => simp [closureFilter, h]

theorem mem_sortByCreatedAt {l : List Contact} {c : Contact} :
    c ∈ sortByCreatedAt l ↔ c ∈ l :=
  (List.perm_insertionSort createdLE l).mem_iff

theorem sortByCreatedAt_sorted (l : List Contact) :
    List.Sorted createdLE (sortByCreatedAt l) :=
  List.sorted_insertionSort createdLE l

theorem sortByCreatedAt_perm (l : List Contact) :
    (sortByCreatedAt l).Perm l :=
  List.perm_insertionSort createdLE l

theorem mem_getAllLinkedContacts {s : Store} {l : List Contact} {c : Contact}
    (hl : l ≠ []) :
    c ∈ getAllLinkedContacts s l ↔
      c ∈ s.live ∧ closureFilter (anchorIds l) c = true := by
  unfold getAllLinkedContacts
  rw [if_neg (by simpa [List.length_eq_zero] using hl)]
  rw [mem_sortByCreatedAt]
  simp

/-! ### Data-model invariants -/

/-- The id of the primary a contact currently belongs to: itself when
primary, its `linkedId` when secondary. -/
def pidOf (c : Contact) : Option Nat :=
  if c.linkPrecedence = LinkPrecedence.primary then some c.id else c.linkedId

/-- Two contacts share a matching key: equal non-null emails or equal
non-null phone numbers. -/
def sharesKey (c d : Contact) : Prop :=
  (c.email ≠ none ∧ c.email = d.email) ∨
    (c.phoneNumber ≠ none ∧ c.phoneNumber = d.phoneNumber)

instance (c d : Contact) : Decidable (sharesKey c d) := by
  unfold sharesKey
  infer_instance

theorem sharesKey_symm {c d : Contact} (h : sharesKey c d) : sharesKey d c := by
  rcases h with ⟨hn, he⟩ | ⟨hn, hp⟩
  · exact Or.inl ⟨by rw [← he]; exact hn, he.symm⟩
  · exact Or.inr ⟨by rw [← hp]; exact hn, hp.symm⟩

/-- Contract of the Store collaborator: distinct positive ids below the
auto-increment counter, creation stamps below the clock. -/
structure StoreWf (s : Store) : Prop where
  nodupIds : (idsOf s.contacts).Nodup
  idPos : ∀ c ∈ s.contacts, 0 < c.id
  idLt : ∀ c ∈ s.contacts, c.id < s.nextId
  createdLt : ∀ c ∈ s.contacts, c.createdAt < s.now
  nextIdPos : 0 < s.nextId

/-- Flat form of the data-model invariants over live rows. -/
structure DataInv (s : Store) : Prop where
  primaryNoLink : ∀ c ∈ s.live,
    c.linkPrecedence = LinkPrecedence.primary → c.linkedId = none
  secondaryLink : ∀ c ∈ s.live,
    c.linkPrecedence = LinkPrecedence.secondary →
      ∃ p ∈ s.live, p.linkPrecedence = LinkPrecedence.primary ∧
        c.linkedId = some p.id
  keyCoherent : ∀ c ∈ s.live, ∀ d ∈ s.live, sharesKey c d → pidOf c = pidOf d
  primaryOldest : ∀ c ∈ s.live, ∀ p ∈ s.live,
    p.linkPrecedence = LinkPrecedence.primary → c.linkedId = some p.id →
      p.createdAt ≤ c.createdAt

/-- One step of connectivity between live contacts: a shared email/phone key
or a `linkedId` edge. -/
inductive LinkStep (s : Store) : Contact → Contact → Prop where
  | shareKey {c d : Contact} : c ∈ s.live → d ∈ s.live → sharesKey c d →
      LinkStep s c d
  | linked {c d : Contact} : c ∈ s.live → d ∈ s.live →
      c.linkedId = some d.id → LinkStep s c d

/-- Contacts linked transitively through shared email/phone or through
`linkedId` (the connected groups of the data model). -/
inductive Connected (s : Store) : Contact → Contact → Prop where
  | refl (c : Contact) : Connected s c c
  | step {c d : Contact} : LinkStep s c d → Connected s c d
  | symm {c d : Contact} : Connected s c d → Connected s d c
  | trans {c d e : Contact} : Connected s c d → Connected s d e →
      Connected s c e

/-- The data-model invariants as the specification phrases them: a secondary
always points at a primary, and within any connected group exactly one
contact is primary, namely one with the earliest `createdAt` of the group. -/
structure ClaimInv (s : Store) : Prop where
  primaryNoLink : ∀ c ∈ s.live,
    c.linkPrecedence = LinkPrecedence.primary → c.linkedId = none
  secondaryLink : ∀ c ∈ s.live,
    c.linkPrecedence = LinkPrecedence.secondary →
      ∃ p ∈ s.live, p.linkPrecedence = LinkPrecedence.primary ∧
        c.linkedId = some p.id
  groupHasPrimary : ∀ c ∈ s.live, ∃ p ∈ s.live,
    p.linkPrecedence = LinkPrecedence.primary ∧ Connected s c p
  groupUniquePrimary : ∀ p ∈ s.live, ∀ q ∈ s.live,
    p.linkPrecedence = LinkPrecedence.primary →
      q.linkPrecedence = LinkPrecedence.primary → Connected s p q → p = q
  primaryEarliest : ∀ c ∈ s.live, ∀ p ∈ s.live,
    p.linkPrecedence = LinkPrecedence.primary → Connected s c p →
      p.createdAt ≤ c.createdAt

theorem id_inj {s : Store} (hwf : StoreWf s) {c d : Contact}
    (hc : c ∈ s.contacts) (hd : d ∈ s.contacts) (h : c.id = d.id) : c = d :=
  List.inj_on_of_nodup_map
    (show (s.contacts.map Contact.id).Nodup from hwf.nodupIds) hc hd h

theorem precedence_cases (c : Contact) :
    c.linkPrecedence = LinkPrecedence.primary ∨
      c.linkPrecedence = LinkPrecedence.secondary := by
  cases h : c.linkPrecedence
  · exact Or.inl rfl
  · exact Or.inr rfl

theorem live_subset {s : Store} {c : Contact} (h : c ∈ s.live) :
    c ∈ s.contacts := (mem_live.mp h).1

theorem linkStep_pid {s : Store} (hwf : StoreWf s) (hinv : DataInv s)
    {a b : Contact} (h : LinkStep s a b) :
    a ∈ s.live ∧ b ∈ s.live ∧ pidOf a = pidOf b := by
  cases h with
  | shareKey ha hb hk => exact ⟨ha, hb, hinv.keyCoherent _ ha _ hb hk⟩
  | linked ha hb hl =>
    refine ⟨ha, hb, ?_⟩
    have hsec : a.linkPrecedence = LinkPrecedence.secondary := by
      rcases precedence_cases a with hp | hp
      · have := hinv.primaryNoLink a ha hp
        rw [this] at hl
        exact absurd hl (by simp)
      · exact hp
    obtain ⟨p, hpl, hpp, hpe⟩ := hinv.secondaryLink a ha hsec
    have hidp : p.id = b.id := by
      rw [hpe] at hl
      exact Option.some.inj hl
    have hpb : p = b := id_inj hwf (live_subset hpl) (live_subset hb) hidp
    subst hpb
    unfold pidOf
    rw [if_neg (by rw [hsec]; intro h; exact LinkPrecedence.noConfusion h),
      if_pos hpp]
    exact hpe

theorem connected_pid {s : Store} (hwf : StoreWf s) (hinv : DataInv s)
    {a b : Contact} (h : Connected s a b) :
    a = b ∨ (a ∈ s.live ∧ b ∈ s.live ∧ pidOf a = pidOf b) := by
  induction h with
  | refl c => exact Or.inl rfl
  | step hs => exact Or.inr (linkStep_pid hwf hinv hs)
  | symm _ ih =>
    rcases ih with h | ⟨ha, hb, hp⟩
    · exact Or.inl h.symm
    · exact Or.inr ⟨hb, ha, hp.symm⟩
  | trans _ _ ih₁ ih₂ =>
    rcases ih₁ with h₁ | ⟨ha, hb, hp₁⟩
    · rcases ih₂ with h₂ | ⟨hb, hc, hp₂⟩
      · exact Or.inl (h₁.trans h₂)
      · exact Or.inr ⟨h₁ ▸ hb, hc, h₁ ▸ hp₂⟩
    · rcases ih₂ with h₂ | ⟨hb', hc, hp₂⟩
      · exact Or.inr ⟨ha, h₂ ▸ hb, h₂ ▸ hp₁⟩
      · exact Or.inr ⟨ha, hc, hp₁.trans hp₂⟩

theorem pidOf_primary {c : Contact}
    (h : c.linkPrecedence = LinkPrecedence.primary) : pidOf c = some c.id := by
  unfold pidOf
  rw [if_pos h]

theorem pidOf_secondary {c : Contact}
    (h : c.linkPrecedence = LinkPrecedence.secondary) : pidOf c = c.linkedId := by
  unfold pidOf
  rw [if_neg (by rw [h]; intro hh; exact LinkPrecedence.noConfusion hh)]

theorem dataInv_to_claimInv {s : Store} (hwf : StoreWf s) (hinv : DataInv s) :
    ClaimInv s := by
  refine ⟨hinv.primaryNoLink, hinv.secondaryLink, ?_, ?_, ?_⟩
  · intro c hc
    rcases precedence_cases c with hp | hp
    · exact ⟨c, hc, hp, Connected.refl c⟩
    · obtain ⟨p, hpl, hpp, hpe⟩ := hinv.secondaryLink c hc hp
      exact ⟨p, hpl, hpp, Connected.step (LinkStep.linked hc hpl hpe)⟩
  · intro p hp q hq hpp hqp hcon
    rcases connected_pid hwf hinv hcon with h | ⟨_, _, hpid⟩
    · exact h
    · rw [pidOf_primary hpp, pidOf_primary hqp] at hpid
      exact id_inj hwf (live_subset hp) (live_subset hq) (Option.some.inj hpid)
  · intro c hc p hp hpp hcon
    rcases connected_pid hwf hinv hcon with h | ⟨_, _, hpid⟩
    · rw [h]
    · rw [pidOf_primary hpp] at hpid
      rcases precedence_cases c with hcp | hcp
      · rw [pidOf_primary hcp] at hpid
        have : c = p :=
          id_inj hwf (live_subset hc) (live_subset hp) (Option.some.inj hpid)
        rw [this]
      · rw [pidOf_secondary hcp] at hpid
        exact hinv.primaryOldest c hc p hp hpp hpid

theorem claimInv_to_dataInv {s : Store} (hwf : StoreWf s) (hinv : ClaimInv s) :
    DataInv s := by
  refine ⟨hinv.primaryNoLink, hinv.secondaryLink, ?_, ?_⟩
  · intro c hc d hd hk
    rcases precedence_cases c with hcp | hcp <;>
      rcases precedence_cases d with hdp | hdp
    · have : c = d := hinv.groupUniquePrimary c hc d hd hcp hdp
        (Connected.step (LinkStep.shareKey hc hd hk))
      rw [this]
    · obtain ⟨q, hql, hqp, hqe⟩ := hinv.secondaryLink d hd hdp
      have hcq : c = q := hinv.groupUniquePrimary c hc q hql hcp hqp
        ((Connected.step (LinkStep.shareKey hc hd hk)).trans
          (Connected.step (LinkStep.linked hd hql hqe)))
      rw [pidOf_primary hcp, pidOf_secondary hdp, hqe, hcq]
    · obtain ⟨q, hql, hqp, hqe⟩ := hinv.secondaryLink c hc hcp
      have hdq : d = q := hinv.groupUniquePrimary d hd q hql hdp hqp
        ((Connected.step (LinkStep.shareKey hd hc (sharesKey_symm hk))).trans
          (Connected.step (LinkStep.linked hc hql hqe)))
      rw [pidOf_primary hdp, pidOf_secondary hcp, hqe, hdq]
    · obtain ⟨q, hql, hqp, hqe⟩ := hinv.secondaryLink c hc hcp
      obtain ⟨q', hql', hqp', hqe'⟩ := hinv.secondaryLink d hd hdp
      have hqq : q = q' := hinv.groupUniquePrimary q hql q' hql' hqp hqp'
        (((Connected.step (LinkStep.linked hc hql hqe)).symm.trans
            (Connected.step (LinkStep.shareKey hc hd hk))).symm.symm.trans
          (Connected.step (LinkStep.linked hd hql' hqe')))
      rw [pidOf_secondary hcp, pidOf_secondary hdp, hqe, hqe', hqq]
  · intro c hc p hp hpp hce
    exact hinv.primaryEarliest c hc p hp hpp
      (Connected.step (LinkStep.linked hc hp hce))

/-! ### The reduce of findPrimaryContact -/

theorem foldl_findPrimaryStep {l : List Contact} :
    ∀ {acc : Contact}, (∀ x ∈ l, acc.createdAt ≤ x.createdAt) →
      l.foldl findPrimaryStep acc =
        (l.filter (fun c => c.linkPrecedence = LinkPrecedence.primary ∧
          c.createdAt = acc.createdAt)).getLastD acc := by
  induction l with
  | nil => intro acc _; rfl
  | cons x xs ih =>
    intro acc h
    have hx : acc.createdAt ≤ x.createdAt := h x (List.mem_cons_self x xs)
    have hxs : ∀ y ∈ xs, acc.createdAt ≤ y.createdAt :=
      fun y hy => h y (List.mem_cons_of_mem x hy)
    by_cases hp : x.linkPrecedence = LinkPrecedence.primary
    · by_cases hca : x.createdAt = acc.createdAt
      · have hstep : findPrimaryStep acc x = x := by
          unfold findPrimaryStep
          rw [if_pos hp, if_neg (by rw [hca]; exact lt_irrefl _)]
        rw [List.foldl_cons, hstep,
          List.filter_cons_of_pos (by simp [hp, hca]), List.getLastD_cons,
          ← hca]
        exact ih (fun y hy => hca ▸ hxs y hy)
      · have hstep : findPrimaryStep acc x = acc := by
          unfold findPrimaryStep
          rw [if_pos hp, if_pos (lt_of_le_of_ne hx (fun hh => hca hh.symm))]
        rw [List.foldl_cons, hstep,
          List.filter_cons_of_neg (by simp [hca])]
        exact ih hxs
    · have hstep : findPrimaryStep acc x = acc := by
        unfold findPrimaryStep
        rw [if_neg hp]
      rw [List.foldl_cons, hstep, List.filter_cons_of_neg (by simp [hp])]
      exact ih hxs

/-! ### Anchor and closure facts under the invariants -/

theorem anchorOf_eq_pidOf {s : Store} (hwf : StoreWf s) (hinv : DataInv s)
    {c : Contact} (hc : c ∈ s.live) : anchorOf c = pidOf c := by
  rcases precedence_cases c with hp | hp
  · rw [pidOf_primary hp]
    unfold anchorOf
    rw [if_pos hp]
  · obtain ⟨q, hql, hqp, hqe⟩ := hinv.secondaryLink c hc hp
    have hq0 : 0 < q.id := hwf.idPos q (live_subset hql)
    rw [pidOf_secondary hp]
    unfold anchorOf
    rw [if_neg (by rw [hp]; intro hh; exact LinkPrecedence.noConfusion hh),
      if_pos (by rw [hqe]; simp [truthyNat]; omega)]

theorem pid_isSome_of_live {s : Store} (hinv : DataInv s) {c : Contact}
    (hc : c ∈ s.live) : ∃ a, pidOf c = some a := by
  rcases precedence_cases c with hp | hp
  · exact ⟨c.id, pidOf_primary hp⟩
  · obtain ⟨q, _, _, hqe⟩ := hinv.secondaryLink c hc hp
    exact ⟨q.id, by rw [pidOf_secondary hp, hqe]⟩

theorem anchor_sound {s : Store} (hwf : StoreWf s) (hinv : DataInv s)
    {l : List Contact} (hl : ∀ c ∈ l, c ∈ s.live) {a : Nat}
    (ha : a ∈ anchorIds l) :
    ∃ q ∈ s.live, q.linkPrecedence = LinkPrecedence.primary ∧ q.id = a := by
  obtain ⟨c, hc, hca⟩ := mem_anchorIds.mp ha
  have hcl := hl c hc
  rw [anchorOf_eq_pidOf hwf hinv hcl] at hca
  rcases precedence_cases c with hp | hp
  · rw [pidOf_primary hp] at hca
    exact ⟨c, hcl, hp, Option.some.inj hca⟩
  · obtain ⟨q, hql, hqp, hqe⟩ := hinv.secondaryLink c hcl hp
    rw [pidOf_secondary hp, hqe] at hca
    exact ⟨q, hql, hqp, Option.some.inj hca⟩

theorem pid_mem_anchors_of_mem_l {s : Store} (hwf : StoreWf s)
    (hinv : DataInv s) {l : List Contact} (hl : ∀ c ∈ l, c ∈ s.live)
    {x : Contact} (hx : x ∈ l) :
    ∃ a, pidOf x = some a ∧ a ∈ anchorIds l := by
  obtain ⟨a, hpa⟩ := pid_isSome_of_live hinv (hl x hx)
  refine ⟨a, hpa, mem_anchorIds.mpr ⟨x, hx, ?_⟩⟩
  rw [anchorOf_eq_pidOf hwf hinv (hl x hx), hpa]

theorem closureFilter_of_pid {A : List Nat} {x : Contact} {a : Nat}
    (hpa : pidOf x = some a) (ha : a ∈ A) : closureFilter A x = true := by
  rcases precedence_cases x with hp | hp
  · rw [pidOf_primary hp] at hpa
    exact closureFilter_iff.mpr (Or.inl ((Option.some.inj hpa) ▸ ha))
  · rw [pidOf_secondary hp] at hpa
    exact closureFilter_iff.mpr (Or.inr ⟨a, hpa, ha⟩)

theorem pid_anchor_of_closureFilter {s : Store} (hwf : StoreWf s)
    (hinv : DataInv s) {l : List Contact} (hl : ∀ c ∈ l, c ∈ s.live)
    {x : Contact} (hx : x ∈ s.live)
    (hcf : closureFilter (anchorIds l) x = true) :
    ∃ a ∈ anchorIds l, pidOf x = some a := by
  rcases closureFilter_iff.mp hcf with hid | ⟨v, hv, hvA⟩
  · obtain ⟨q, hql, hqp, hqe⟩ := anchor_sound hwf hinv hl hid
    have hqx : q = x := id_inj hwf (live_subset hql) (live_subset hx) hqe
    subst hqx
    exact ⟨q.id, hid, pidOf_primary hqp⟩
  · rcases precedence_cases x with hp | hp
    · rw [hinv.primaryNoLink x hx hp] at hv
      exact absurd hv (by simp)
    · exact ⟨v, hvA, by rw [pidOf_secondary hp, hv]⟩

/-! ### Effect of the merge step on the store -/

/-- Combined effect on one row of a single demotion round (`demoteOne`): the
row of the demoted primary is demoted, live dependents are re-pointed. -/
def stepRow (oldestId pid : Nat) (c : Contact) : Contact :=
  if c.id = pid then
    { c with linkedId := some oldestId,
             linkPrecedence := LinkPrecedence.secondary }
  else if c.deletedAt = none ∧ c.linkedId = some pid then
    { c with linkedId := some oldestId }
  else c

/-- Combined effect on one row of the whole demotion loop over the demoted
ids `dids`. -/
def mergeRow (oldestId : Nat) (dids : List Nat) (c : Contact) : Contact :=
  if c.id ∈ dids then
    { c with linkedId := some oldestId,
             linkPrecedence := LinkPrecedence.secondary }
  else if c.deletedAt = none ∧ (∃ d ∈ dids, c.linkedId = some d) then
    { c with linkedId := some oldestId }
  else c

/-- Log delta of the demotion loop: one instance update and one bulk
re-point per demoted primary, in loop order. -/
def demoteOps (oldestId : Nat) (ps : List Contact) : List StoreOp :=
  ps.flatMap (fun p =>
    [StoreOp.update p.id (some oldestId) LinkPrecedence.secondary,
     StoreOp.bulkUpdateLinkedId p.id oldestId])

theorem stepRow_eq_comp {o pid : Nat} (hop : o ≠ pid) (c : Contact) :
    (if ((if c.id = pid then
          { c with linkedId := some o,
                   linkPrecedence := LinkPrecedence.secondary }
        else c) : Contact).deletedAt = none ∧
        ((if c.id = pid then
          { c with linkedId := some o,
                   linkPrecedence := LinkPrecedence.secondary }
        else c) : Contact).linkedId = some pid then
      { (if c.id = pid then
          { c with linkedId := some o,
                   linkPrecedence := LinkPrecedence.secondary }
        else c : Contact) with linkedId := some o }
    else
      (if c.id = pid then
        { c with linkedId := some o,
                 linkPrecedence := LinkPrecedence.secondary }
      else c)) = stepRow o pid c := by
  unfold stepRow
  by_cases hid : c.id = pid
  · have hcond : ¬(c.deletedAt = none ∧ (some o : Option Nat) = some pid) := by
      rintro ⟨_, h⟩
      exact hop (Option.some.inj h)
    simp [hid, hcond]
  · simp [hid]

theorem demoteOne_eq {o : Nat} {p : Contact} {t : Store} (hop : o ≠ p.id) :
    demoteOne o t p =
      { contacts := t.contacts.map (stepRow o p.id), nextId := t.nextId,
        now := t.now,
        log := t.log ++
          [StoreOp.update p.id (some o) LinkPrecedence.secondary,
           StoreOp.bulkUpdateLinkedId p.id o] } := by
  unfold demoteOne Store.updateLinks Store.bulkUpdateLinkedId
  simp only [List.map_map, List.append_assoc, List.cons_append,
    List.singleton_append, List.nil_append]
  congr 1
  apply List.map_congr_left
  intro c _
  exact stepRow_eq_comp hop c

theorem mergeRow_demoted {o : Nat} {dids : List Nat} {c : Contact}
    (h : c.id ∈ dids) :
    mergeRow o dids c =
      { c with linkedId := some o,
               linkPrecedence := LinkPrecedence.secondary } := by
  unfold mergeRow
  rw [if_pos h]

theorem mergeRow_repoint {o : Nat} {dids : List Nat} {c : Contact}
    (h1 : c.id ∉ dids) (h2 : c.deletedAt = none ∧ ∃ d ∈ dids, c.linkedId = some d) :
    mergeRow o dids c = { c with linkedId := some o } := by
  unfold mergeRow
  rw [if_neg h1, if_pos h2]

theorem mergeRow_skip {o : Nat} {dids : List Nat} {c : Contact}
    (h1 : c.id ∉ dids)
    (h2 : ¬(c.deletedAt = none ∧ ∃ d ∈ dids, c.linkedId = some d)) :
    mergeRow o dids c = c := by
  unfold mergeRow
  rw [if_neg h1, if_neg h2]

theorem stepRow_demoted {o pid : Nat} {c : Contact} (h : c.id = pid) :
    stepRow o pid c =
      { c with linkedId := some o,
               linkPrecedence := LinkPrecedence.secondary } := by
  unfold stepRow
  rw [if_pos h]

theorem stepRow_repoint {o pid : Nat} {c : Contact} (h1 : c.id ≠ pid)
    (h2 : c.deletedAt = none ∧ c.linkedId = some pid) :
    stepRow o pid c = { c with linkedId := some o } := by
  unfold stepRow
  rw [if_neg h1, if_pos h2]

theorem stepRow_skip {o pid : Nat} {c : Contact} (h1 : c.id ≠ pid)
    (h2 : ¬(c.deletedAt = none ∧ c.linkedId = some pid)) :
    stepRow o pid c = c := by
  unfold stepRow
  rw [if_neg h1, if_neg h2]

theorem mergeRow_step {o : Nat} {p : Contact} {ids' : List Nat} {c : Contact}
    (ho' : o ∉ ids') (hpd : p.id ∉ ids')
    (h3 : c.id ∈ ids' → c.linkedId = none) :
    mergeRow o ids' (stepRow o p.id c) = mergeRow o (p.id :: ids') c := by
  by_cases hid : c.id = p.id
  · rw [stepRow_demoted hid,
      mergeRow_demoted (show c.id ∈ p.id :: ids' from hid ▸ List.mem_cons_self _ _)]
    exact mergeRow_skip (show c.id ∉ ids' from hid ▸ hpd)
      (by rintro ⟨_, d, hd, he⟩
          exact ho' ((Option.some.inj
            (show (some o : Option Nat) = some d from he)) ▸ hd))
  · by_cases hmem : c.id ∈ ids'
    · have hnone := h3 hmem
      rw [stepRow_skip hid (by rw [hnone]; rintro ⟨_, h⟩; exact Option.noConfusion h),
        mergeRow_demoted hmem,
        mergeRow_demoted (List.mem_cons_of_mem _ hmem)]
    · by_cases hrp : c.deletedAt = none ∧ c.linkedId = some p.id
      · rw [stepRow_repoint hid hrp,
          mergeRow_repoint (show c.id ∉ p.id :: ids' by simp [hid, hmem])
            ⟨hrp.1, p.id, List.mem_cons_self _ _, hrp.2⟩]
        exact mergeRow_skip (show c.id ∉ ids' from hmem)
          (by rintro ⟨_, d, hd, he⟩
              exact ho' ((Option.some.inj
                (show (some o : Option Nat) = some d from he)) ▸ hd))
      · by_cases hrp2 : c.deletedAt = none ∧ ∃ d ∈ ids', c.linkedId = some d
        · rw [stepRow_skip hid hrp,
            mergeRow_repoint hmem hrp2,
            mergeRow_repoint (show c.id ∉ p.id :: ids' by simp [hid, hmem])
              ⟨hrp2.1, hrp2.2.choose,
                List.mem_cons_of_mem _ hrp2.2.choose_spec.1,
                hrp2.2.choose_spec.2⟩]
        · rw [stepRow_skip hid hrp, mergeRow_skip hmem hrp2,
            mergeRow_skip (show c.id ∉ p.id :: ids' by simp [hid, hmem])]
          rintro ⟨hl, d, hd, he⟩
          rcases List.mem_cons.mp hd with h | h
          · exact hrp ⟨hl, h ▸ he⟩
          · exact hrp2 ⟨hl, d, h, he⟩

theorem stepRow_id (o pid : Nat) (c : Contact) : (stepRow o pid c).id = c.id := by
  unfold stepRow
  split_ifs <;> rfl

theorem stepRow_deletedAt (o pid : Nat) (c : Contact) :
    (stepRow o pid c).deletedAt = c.deletedAt := by
  unfold stepRow
  split_ifs <;> rfl

/-- The demotion loop of `mergePrimaryContacts` rewrites every row by
`mergeRow` and appends one update/bulk pair per demoted primary to the log. -/
theorem foldl_demoteOne {o : Nat} {D : List Contact} :
    ∀ {t : Store}, o ∉ idsOf D → (idsOf D).Nodup →
      (∀ c ∈ t.contacts, c.id ∈ idsOf D → c.linkedId = none) →
      D.foldl (demoteOne o) t =
        { contacts := t.contacts.map (mergeRow o (idsOf D)),
          nextId := t.nextId, now := t.now,
          log := t.log ++ demoteOps o D } := by
  induction D with
  | nil =>
    intro t _ _ _
    have hmap : t.contacts.map (mergeRow o (idsOf ([] : List Contact))) =
        t.contacts := by
      have hpt : ∀ c ∈ t.contacts,
          mergeRow o (idsOf ([] : List Contact)) c = id c := by
        intro c _
        exact mergeRow_skip (by simp [idsOf]) (by simp [idsOf])
      rw [List.map_congr_left hpt, List.map_id]
    show t = _
    rw [hmap]
    simp [demoteOps, idsOf]
  | cons p D' ih =>
    intro t ho hnd h3
    have hop : o ≠ p.id := by
      intro h
      exact ho (by simp [idsOf, h])
    have ho' : o ∉ idsOf D' := fun h => ho (by simp [idsOf] at h ⊢; exact Or.inr h)
    have hids : idsOf (p :: D') = p.id :: idsOf D' := rfl
    rw [hids] at hnd
    have hpd : p.id ∉ idsOf D' := (List.nodup_cons.mp hnd).1
    have hnd' : (idsOf D').Nodup := (List.nodup_cons.mp hnd).2
    rw [List.foldl_cons, demoteOne_eq hop]
    have h3' : ∀ c ∈ t.contacts.map (stepRow o p.id),
        c.id ∈ idsOf D' → c.linkedId = none := by
      intro c hc hcd
      obtain ⟨c₀, hc₀, rfl⟩ := List.mem_map.mp hc
      rw [stepRow_id] at hcd
      have hnone : c₀.linkedId = none := h3 c₀ hc₀ (by rw [hids]; exact List.mem_cons_of_mem _ hcd)
      have hne : c₀.id ≠ p.id := fun h => hpd (h ▸ hcd)
      rw [stepRow_skip hne (by rw [hnone]; rintro ⟨_, hh⟩; exact Option.noConfusion hh)]
      exact hnone
    rw [ih ho' hnd' h3']
    simp only [List.map_map]
    have hcomp : ∀ c ∈ t.contacts,
        (mergeRow o (idsOf D') ∘ stepRow o p.id) c =
          mergeRow o (idsOf (p :: D')) c := by
      intro c hc
      rw [hids]
      exact mergeRow_step ho' hpd
        (fun hcd => h3 c hc (by rw [hids]; exact List.mem_cons_of_mem _ hcd))
    rw [List.map_congr_left hcomp]
    simp [demoteOps]

/-- In-memory counterpart of `mergeRow`: instance updates mutate loaded
objects (the demoted primaries), while the bulk update does not touch
already-loaded instances. -/
def memRow (oldestId : Nat) (dids : List Nat) (c : Contact) : Contact :=
  if c.id ∈ dids then
    { c with linkedId := some oldestId,
             linkPrecedence := LinkPrecedence.secondary }
  else c

theorem mergePrimaryContacts_le_one {s : Store} {contacts : List Contact}
    (h : (contacts.filter (fun c =>
        c.linkPrecedence = LinkPrecedence.primary)).length ≤ 1) :
    mergePrimaryContacts s contacts = (s, contacts) := by
  unfold mergePrimaryContacts
  rw [if_pos h]

theorem mergePrimaryContacts_eq {s : Store} {contacts : List Contact}
    {oldest : Contact} {rest : List Contact}
    (hsorted : sortByCreatedAt (contacts.filter (fun c =>
        c.linkPrecedence = LinkPrecedence.primary)) = oldest :: rest)
    (hstore : (idsOf s.contacts).Nodup)
    (hcnodup : (idsOf contacts).Nodup)
    (hcsub : ∀ c ∈ contacts, c ∈ s.contacts)
    (hprimnone : ∀ c ∈ contacts,
      c.linkPrecedence = LinkPrecedence.primary → c.linkedId = none)
    (hlen : 1 < (contacts.filter (fun c =>
        c.linkPrecedence = LinkPrecedence.primary)).length) :
    mergePrimaryContacts s contacts =
      ({ contacts := s.contacts.map (mergeRow oldest.id (idsOf rest)),
         nextId := s.nextId, now := s.now,
         log := s.log ++ demoteOps oldest.id rest },
       contacts.map (memRow oldest.id (idsOf rest))) := by
  have hprims_nodup : (idsOf (contacts.filter (fun c =>
      c.linkPrecedence = LinkPrecedence.primary))).Nodup :=
    List.Nodup.sublist (List.Sublist.map _ (List.filter_sublist _)) hcnodup
  have hperm : (oldest :: rest).Perm (contacts.filter (fun c =>
      c.linkPrecedence = LinkPrecedence.primary)) :=
    hsorted ▸ sortByCreatedAt_perm _
  have hnodup_sorted : (idsOf (oldest :: rest)).Nodup :=
    (List.Perm.nodup_iff (List.Perm.map _ hperm)).mpr hprims_nodup
  have hono : oldest.id ∉ idsOf rest := (List.nodup_cons.mp hnodup_sorted).1
  have hrest_nodup : (idsOf rest).Nodup := (List.nodup_cons.mp hnodup_sorted).2
  have hrest_prim : ∀ p ∈ rest,
      p ∈ contacts ∧ p.linkPrecedence = LinkPrecedence.primary := by
    intro p hp
    have hpf : p ∈ contacts.filter (fun c =>
        c.linkPrecedence = LinkPrecedence.primary) :=
      hperm.mem_iff.mp (List.mem_cons_of_mem _ hp)
    exact ⟨(List.mem_filter.mp hpf).1,
      by simpa using (List.mem_filter.mp hpf).2⟩
  have h3 : ∀ c ∈ s.contacts, c.id ∈ idsOf rest → c.linkedId = none := by
    intro c hc hid
    obtain ⟨p, hp, hpid⟩ := List.mem_map.mp hid
    obtain ⟨hpc, hpp⟩ := hrest_prim p hp
    have hcp : c = p :=
      (List.inj_on_of_nodup_map hstore (hcsub p hpc) hc hpid).symm
    rw [hcp]
    exact hprimnone p hpc hpp
  unfold mergePrimaryContacts
  rw [if_neg (not_le.mpr hlen), hsorted]
  simp only []
  rw [foldl_demoteOne hono hrest_nodup h3]
  have hmem : contacts.map (fun c =>
      if rest.any (fun p => p.id = c.id) then
        { c with linkedId := some oldest.id,
                 linkPrecedence := LinkPrecedence.secondary }
      else c) = contacts.map (memRow oldest.id (idsOf rest)) := by
    apply List.map_congr_left
    intro c _
    unfold memRow
    by_cases hc : c.id ∈ idsOf rest
    · rw [if_pos hc, if_pos]
      obtain ⟨p, hp, hpid⟩ := List.mem_map.mp hc
      simp only [List.any_eq_true, decide_eq_true_eq]
      exact ⟨p, hp, hpid⟩
    · rw [if_neg hc, if_neg]
      simp only [List.any_eq_true, decide_eq_true_eq]
      rintro ⟨p, hp, hpid⟩
      exact hc (List.mem_map.mpr ⟨p, hp, hpid⟩)
  rw [hmem]

/-! ### Store facts about insert and row maps -/

theorem live_insert (s : Store) (e p : Option String) (l : Option Nat)
    (pr : LinkPrecedence) :
    (s.insert e p l pr).2.live = s.live ++ [(s.insert e p l pr).1] := by
  unfold Store.insert Store.live
  simp

theorem insert_contacts (s : Store) (e p : Option String) (l : Option Nat)
    (pr : LinkPrecedence) :
    (s.insert e p l pr).2.contacts = s.contacts ++ [(s.insert e p l pr).1] := rfl

theorem storeWf_insert {s : Store} (hwf : StoreWf s) (e p : Option String)
    (l : Option Nat) (pr : LinkPrecedence) :
    StoreWf (s.insert e p l pr).2 := by
  have hpos : 0 < s.nextId := hwf.nextIdPos
  constructor
  · unfold Store.insert idsOf
    simp only [List.map_append, List.map_cons, List.map_nil]
    rw [List.nodup_append]
    refine ⟨hwf.nodupIds, List.nodup_singleton _, ?_⟩
    intro a ha hb
    simp only [List.mem_singleton] at hb
    obtain ⟨c, hc, hca⟩ := List.mem_map.mp ha
    subst hb
    exact absurd (hca ▸ hwf.idLt c hc) (lt_irrefl _)
  · intro c hc
    rw [insert_contacts] at hc
    rcases List.mem_append.mp hc with h | h
    · exact hwf.idPos c h
    · simp only [List.mem_singleton] at h
      subst h
      exact hpos
  · intro c hc
    rw [insert_contacts] at hc
    rcases List.mem_append.mp hc with h | h
    · exact Nat.lt_succ_of_lt (hwf.idLt c h)
    · simp only [List.mem_singleton] at h
      subst h
      exact Nat.lt_succ_self _
  · intro c hc
    rw [insert_contacts] at hc
    rcases List.mem_append.mp hc with h | h
    · exact Nat.lt_succ_of_lt (hwf.createdLt c h)
    · simp only [List.mem_singleton] at h
      subst h
      exact Nat.lt_succ_self _
  · exact Nat.lt_succ_of_lt hwf.nextIdPos

theorem mergeRow_id (o : Nat) (dids : List Nat) (c : Contact) :
    (mergeRow o dids c).id = c.id := by
  unfold mergeRow
  split_ifs <;> rfl

theorem mergeRow_createdAt (o : Nat) (dids : List Nat) (c : Contact) :
    (mergeRow o dids c).createdAt = c.createdAt := by
  unfold mergeRow
  split_ifs <;> rfl

theorem mergeRow_deletedAt (o : Nat) (dids : List Nat) (c : Contact) :
    (mergeRow o dids c).deletedAt = c.deletedAt := by
  unfold mergeRow
  split_ifs <;> rfl

theorem mergeRow_email (o : Nat) (dids : List Nat) (c : Contact) :
    (mergeRow o dids c).email = c.email := by
  unfold mergeRow
  split_ifs <;> rfl

theorem mergeRow_phoneNumber (o : Nat) (dids : List Nat) (c : Contact) :
    (mergeRow o dids c).phoneNumber = c.phoneNumber := by
  unfold mergeRow
  split_ifs <;> rfl

theorem filter_map_comm {f : Contact → Contact} {q : Contact → Bool}
    (hq : ∀ c, q (f c) = q c) (l : List Contact) :
    (l.map f).filter q = (l.filter q).map f := by
  induction l with
  | nil => rfl
  | cons x xs ih =>
    simp only [List.map_cons, List.filter_cons, hq x]
    by_cases h : q x = true
    · rw [if_pos h, if_pos h, List.map_cons, ih]
    · rw [if_neg h, if_neg h, ih]

theorem live_mergeStore {s : Store} {o : Nat} {dids : List Nat}
    {nid nw : Nat} {lg : List StoreOp} :
    Store.live ⟨s.contacts.map (mergeRow o dids), nid, nw, lg⟩ =
      s.live.map (mergeRow o dids) := by
  unfold Store.live
  exact filter_map_comm (fun c => by rw [mergeRow_deletedAt]) _

theorem storeWf_mergeStore {s : Store} (hwf : StoreWf s) {o : Nat}
    {dids : List Nat} {lg : List StoreOp} :
    StoreWf ⟨s.contacts.map (mergeRow o dids), s.nextId, s.now, lg⟩ := by
  constructor
  · have : idsOf (s.contacts.map (mergeRow o dids)) = idsOf s.contacts := by
      unfold idsOf
      rw [List.map_map]
      exact List.map_congr_left (fun c _ => mergeRow_id o dids c)
    rw [this]
    exact hwf.nodupIds
  · intro c hc
    obtain ⟨c₀, hc₀, rfl⟩ := List.mem_map.mp hc
    rw [mergeRow_id]
    exact hwf.idPos c₀ hc₀
  · intro c hc
    obtain ⟨c₀, hc₀, rfl⟩ := List.mem_map.mp hc
    rw [mergeRow_id]
    exact hwf.idLt c₀ hc₀
  · intro c hc
    obtain ⟨c₀, hc₀, rfl⟩ := List.mem_map.mp hc
    rw [mergeRow_createdAt]
    exact hwf.createdLt c₀ hc₀
  · exact hwf.nextIdPos

/-! ### Branch equations of identify -/

theorem buildResponse_singleton_primary {c : Contact}
    (h : c.linkPrecedence = LinkPrecedence.primary) :
    buildResponse [c] =
      some ⟨⟨c.id, truthyVals c.email, truthyVals c.phoneNumber, []⟩⟩ := by
  unfold buildResponse
  simp [h, List.find?, List.filter]

theorem validCond_of {e p : Option String}
    (hv : truthy e = true ∨ truthy p = true) :
    (!truthy e && !truthy p) = false := by
  rcases hv with h | h <;> simp [h]

theorem identify_eq_validation {s : Store} {e p : Option String}
    (h1 : truthy e = false) (h2 : truthy p = false) :
    identify s e p = (Except.error IdentifyError.validationError, s) := by
  unfold identify
  rw [if_pos (by rw [h1, h2]; rfl)]

theorem identify_eq_noMatch {s : Store} {e p : Option String}
    (hv : truthy e = true ∨ truthy p = true)
    (hS : findMatchingContacts s e p = []) :
    identify s e p =
      (Except.ok ⟨⟨(createPrimaryContact s e p).1.id,
          truthyVals (createPrimaryContact s e p).1.email,
          truthyVals (createPrimaryContact s e p).1.phoneNumber, []⟩⟩,
        (createPrimaryContact s e p).2) := by
  have hb : buildResponse [(createPrimaryContact s e p).1] =
      some ⟨⟨(createPrimaryContact s e p).1.id,
        truthyVals (createPrimaryContact s e p).1.email,
        truthyVals (createPrimaryContact s e p).1.phoneNumber, []⟩⟩ :=
    buildResponse_singleton_primary rfl
  simp only [identify, validCond_of hv, Bool.false_eq_true, if_false, hS,
    List.length_nil, if_pos, hb]

theorem identify_eq_match_noNew {s : Store} {e p : Option String}
    (hS : findMatchingContacts s e p ≠ [])
    (hnn : shouldCreateNewContact
      (getAllLinkedContacts s (findMatchingContacts s e p)) e p = false) :
    identify s e p =
      identifyCore s (getAllLinkedContacts s (findMatchingContacts s e p)) := by
  have hv : truthy e = true ∨ truthy p = true := by
    obtain ⟨c, hc⟩ := List.exists_mem_of_ne_nil _ hS
    rcases matchesRequest_iff.mp (mem_findMatchingContacts.mp hc).2 with h | h
    · exact Or.inl h.1
    · exact Or.inr h.1
  have hlen : ((findMatchingContacts s e p).length = 0) = False := by
    simp [List.length_eq_zero, hS]
  simp only [identify, validCond_of hv, Bool.false_eq_true, if_false, hlen,
    hnn, if_true]

theorem identify_eq_match_new {s : Store} {e p : Option String}
    {pr : Contact}
    (hS : findMatchingContacts s e p ≠ [])
    (hnn : shouldCreateNewContact
      (getAllLinkedContacts s (findMatchingContacts s e p)) e p = true)
    (hfp : findPrimaryContact
      (getAllLinkedContacts s (findMatchingContacts s e p)) = some pr) :
    identify s e p =
      identifyCore (s.insert e p (some pr.id) LinkPrecedence.secondary).2
        (getAllLinkedContacts s (findMatchingContacts s e p) ++
          [(s.insert e p (some pr.id) LinkPrecedence.secondary).1]) := by
  have hv : truthy e = true ∨ truthy p = true := by
    obtain ⟨c, hc⟩ := List.exists_mem_of_ne_nil _ hS
    rcases matchesRequest_iff.mp (mem_findMatchingContacts.mp hc).2 with h | h
    · exact Or.inl h.1
    · exact Or.inr h.1
  have hlen : ((findMatchingContacts s e p).length = 0) = False := by
    simp [List.length_eq_zero, hS]
  simp only [identify, validCond_of hv, Bool.false_eq_true, if_false, hlen,
    hnn, hfp, if_true]

theorem identifyFinalContacts_eq_noMatch {s : Store} {e p : Option String}
    (hv : truthy e = true ∨ truthy p = true)
    (hS : findMatchingContacts s e p = []) :
    identifyFinalContacts s e p = [(createPrimaryContact s e p).1] := by
  simp only [identifyFinalContacts, validCond_of hv, Bool.false_eq_true,
    if_false, hS, List.length_nil, if_pos]

theorem identifyFinalContacts_eq_match_noNew {s : Store} {e p : Option String}
    (hv : truthy e = true ∨ truthy p = true)
    (hS : findMatchingContacts s e p ≠ [])
    (hnn : shouldCreateNewContact
      (getAllLinkedContacts s (findMatchingContacts s e p)) e p = false) :
    identifyFinalContacts s e p =
      getAllLinkedContacts
        (mergePrimaryContacts s
          (getAllLinkedContacts s (findMatchingContacts s e p))).1
        (mergePrimaryContacts s
          (getAllLinkedContacts s (findMatchingContacts s e p))).2 := by
  have hlen : ((findMatchingContacts s e p).length = 0) = False := by
    simp [List.length_eq_zero, hS]
  simp only [identifyFinalContacts, validCond_of hv, Bool.false_eq_true,
    if_false, hlen, hnn, if_true]

theorem identifyFinalContacts_eq_match_new {s : Store} {e p : Option String}
    {pr : Contact}
    (hv : truthy e = true ∨ truthy p = true)
    (hS : findMatchingContacts s e p ≠ [])
    (hnn : shouldCreateNewContact
      (getAllLinkedContacts s (findMatchingContacts s e p)) e p = true)
    (hfp : findPrimaryContact
      (getAllLinkedContacts s (findMatchingContacts s e p)) = some pr) :
    identifyFinalContacts s e p =
      getAllLinkedContacts
        (mergePrimaryContacts
          (s.insert e p (some pr.id) LinkPrecedence.secondary).2
          (getAllLinkedContacts s (findMatchingContacts s e p) ++
            [(s.insert e p (some pr.id) LinkPrecedence.secondary).1])).1
        (mergePrimaryContacts
          (s.insert e p (some pr.id) LinkPrecedence.secondary).2
          (getAllLinkedContacts s (findMatchingContacts s e p) ++
            [(s.insert e p (some pr.id) LinkPrecedence.secondary).1])).2 := by
  have hlen : ((findMatchingContacts s e p).length = 0) = False := by
    simp [List.length_eq_zero, hS]
  simp only [identifyFinalContacts, validCond_of hv, Bool.false_eq_true,
    if_false, hlen, hnn, hfp, if_true]

theorem identifyCore_eq (s : Store) (allLinked : List Contact) :
    identifyCore s allLinked =
      (match buildResponse
          (getAllLinkedContacts (mergePrimaryContacts s allLinked).1
            (mergePrimaryContacts s allLinked).2) with
        | none => (Except.error IdentifyError.noPrimaryFound,
            (mergePrimaryContacts s allLinked).1)
        | some r => (Except.ok r, (mergePrimaryContacts s allLinked).1)) := rfl

/-! ### Closure facts on the matched path -/

theorem S_live {s : Store} {e p : Option String} {x : Contact}
    (hx : x ∈ findMatchingContacts s e p) : x ∈ s.live :=
  (mem_findMatchingContacts.mp hx).1

theorem C_live {s : Store} {l : List Contact} {x : Contact} (hl : l ≠ [])
    (hx : x ∈ getAllLinkedContacts s l) : x ∈ s.live :=
  ((mem_getAllLinkedContacts hl).mp hx).1

theorem C_pid {s : Store} {e p : Option String} {x : Contact}
    (hwf : StoreWf s) (hinv : DataInv s)
    (hS : findMatchingContacts s e p ≠ [])
    (hx : x ∈ getAllLinkedContacts s (findMatchingContacts s e p)) :
    ∃ a ∈ anchorIds (findMatchingContacts s e p), pidOf x = some a := by
  obtain ⟨hxl, hxf⟩ := (mem_getAllLinkedContacts hS).mp hx
  exact pid_anchor_of_closureFilter hwf hinv (fun c hc => S_live hc) hxl hxf

theorem C_of_pid {s : Store} {e p : Option String} {x : Contact} {a : Nat}
    (hS : findMatchingContacts s e p ≠ [])
    (hx : x ∈ s.live) (hpa : pidOf x = some a)
    (ha : a ∈ anchorIds (findMatchingContacts s e p)) :
    x ∈ getAllLinkedContacts s (findMatchingContacts s e p) :=
  (mem_getAllLinkedContacts hS).mpr ⟨hx, closureFilter_of_pid hpa ha⟩

theorem S_subset_C {s : Store} {e p : Option String} {x : Contact}
    (hwf : StoreWf s) (hinv : DataInv s)
    (hS : findMatchingContacts s e p ≠ [])
    (hx : x ∈ findMatchingContacts s e p) :
    x ∈ getAllLinkedContacts s (findMatchingContacts s e p) := by
  obtain ⟨a, hpa, haA⟩ :=
    pid_mem_anchors_of_mem_l hwf hinv (fun c hc => S_live hc) hx
  exact C_of_pid hS (S_live hx) hpa haA

theorem anchor_primary_in_C {s : Store} {e p : Option String} {a : Nat}
    (hwf : StoreWf s) (hinv : DataInv s)
    (hS : findMatchingContacts s e p ≠ [])
    (ha : a ∈ anchorIds (findMatchingContacts s e p)) :
    ∃ q ∈ getAllLinkedContacts s (findMatchingContacts s e p),
      q.linkPrecedence = LinkPrecedence.primary ∧ q.id = a := by
  obtain ⟨q, hql, hqp, hqa⟩ :=
    anchor_sound hwf hinv (fun c hc => S_live hc) ha
  exact ⟨q, C_of_pid hS hql (by rw [pidOf_primary hqp, hqa]) ha, hqp, hqa⟩

theorem live_ids_nodup {s : Store} (hwf : StoreWf s) :
    (idsOf s.live).Nodup :=
  List.Nodup.sublist (List.Sublist.map _ (List.filter_sublist _)) hwf.nodupIds

theorem C_ids_nodup {s : Store} {l : List Contact} (hwf : StoreWf s) :
    (idsOf (getAllLinkedContacts s l)).Nodup := by
  unfold getAllLinkedContacts
  by_cases h : l.length = 0
  · rw [if_pos h]
    exact List.nodup_nil
  · rw [if_neg h]
    have hperm := List.Perm.map Contact.id
      (sortByCreatedAt_perm (s.live.filter (closureFilter (anchorIds l))))
    refine (List.Perm.nodup_iff hperm).mpr ?_
    exact List.Nodup.sublist (List.Sublist.map _ (List.filter_sublist _))
      (live_ids_nodup hwf)

theorem C_sorted {s : Store} {l : List Contact} :
    List.Sorted createdLE (getAllLinkedContacts s l) := by
  unfold getAllLinkedContacts
  by_cases h : l.length = 0
  · rw [if_pos h]
    exact List.sorted_nil
  · rw [if_neg h]
    exact sortByCreatedAt_sorted _

theorem sorted_head_min {c0 : Contact} {t : List Contact}
    (hs : List.Sorted createdLE (c0 :: t)) :
    ∀ x ∈ c0 :: t, c0.createdAt ≤ x.createdAt := by
  intro x hx
  rcases List.mem_cons.mp hx with h | h
  · rw [h]
  · exact (List.sorted_cons.mp hs).1 x h

theorem C_key_closed {s : Store} {e p : Option String} {x y : Contact}
    (hwf : StoreWf s) (hinv : DataInv s)
    (hS : findMatchingContacts s e p ≠ [])
    (hx : x ∈ getAllLinkedContacts s (findMatchingContacts s e p))
    (hy : y ∈ s.live) (hk : sharesKey x y) :
    y ∈ getAllLinkedContacts s (findMatchingContacts s e p) := by
  obtain ⟨a, haA, hpa⟩ := C_pid hwf hinv hS hx
  have hpid : pidOf x = pidOf y :=
    hinv.keyCoherent x (C_live hS hx) y hy hk
  exact C_of_pid hS hy (hpid ▸ hpa) haA

/-- Helper: the `getLastD` of a list is the default or a member. -/
theorem getLastD_mem_cons : ∀ (l : List Contact) (a : Contact),
    l.getLastD a ∈ a :: l
  | [], a => List.mem_cons_self _ _
  | x :: xs, a => by
    rw [List.getLastD_cons]
    exact List.mem_cons_of_mem _ (getLastD_mem_cons xs x)

/-- The reduce of `findPrimaryContact` over the closure returns a primary
contact of minimal `createdAt` among the closure's primaries. -/
theorem findPrimaryContact_spec {s : Store} {e p : Option String}
    (hwf : StoreWf s) (hinv : DataInv s)
    (hS : findMatchingContacts s e p ≠ [])
    (hC : getAllLinkedContacts s (findMatchingContacts s e p) ≠ []) :
    ∃ pr, findPrimaryContact
        (getAllLinkedContacts s (findMatchingContacts s e p)) = some pr ∧
      pr ∈ getAllLinkedContacts s (findMatchingContacts s e p) ∧
      pr.linkPrecedence = LinkPrecedence.primary ∧
      ∀ q ∈ getAllLinkedContacts s (findMatchingContacts s e p),
        q.linkPrecedence = LinkPrecedence.primary →
          pr.createdAt ≤ q.createdAt := by
  obtain ⟨c0, t, hct⟩ := List.exists_cons_of_ne_nil hC
  have hsorted : List.Sorted createdLE (c0 :: t) := hct ▸ C_sorted
  have hmin : ∀ x ∈ c0 :: t, c0.createdAt ≤ x.createdAt :=
    sorted_head_min hsorted
  have hmint : ∀ x ∈ t, c0.createdAt ≤ x.createdAt :=
    fun x hx => hmin x (List.mem_cons_of_mem _ hx)
  have hfold := foldl_findPrimaryStep hmint
  have hfp : findPrimaryContact
      (getAllLinkedContacts s (findMatchingContacts s e p)) =
        some (t.foldl findPrimaryStep c0) := by
    rw [hct]
    rfl
  have hc0C : c0 ∈ getAllLinkedContacts s (findMatchingContacts s e p) := by
    rw [hct]
    exact List.mem_cons_self _ _
  refine ⟨t.foldl findPrimaryStep c0, hfp, ?_, ?_, ?_⟩
  case _ =>
    rw [hct, hfold]
    cases hfl : t.filter (fun c =>
        c.linkPrecedence = LinkPrecedence.primary ∧
          c.createdAt = c0.createdAt) with
    | nil => exact List.mem_cons_self _ _
    | cons a l =>
      have hsub : ∀ x ∈ a :: l, x ∈ t :=
        fun x hx => List.mem_of_mem_filter (hfl.symm ▸ hx)
      rw [List.getLastD_cons]
      exact List.mem_cons_of_mem _ (hsub _ (getLastD_mem_cons l a))
  case _ =>
    rw [hfold]
    cases hfl : t.filter (fun c =>
        c.linkPrecedence = LinkPrecedence.primary ∧
          c.createdAt = c0.createdAt) with
    | nil =>
      rcases precedence_cases c0 with h | h
      · exact h
      · exfalso
        obtain ⟨q, hql, hqp, hqe⟩ :=
          hinv.secondaryLink c0 (C_live hS hc0C) h
        have hqC : q ∈ getAllLinkedContacts s (findMatchingContacts s e p) := by
          obtain ⟨a, haA, hpa⟩ := C_pid hwf hinv hS hc0C
          rw [pidOf_secondary h, hqe] at hpa
          exact C_of_pid hS hql (by rw [pidOf_primary hqp, hpa]) haA
        have hqt : q ∈ t := by
          have hmem := hct ▸ hqC
          rcases List.mem_cons.mp hmem with hh | hh
          · exfalso
            rw [hh] at hqp
            rw [hqp] at h
            exact LinkPrecedence.noConfusion h
          · exact hh
        have h1 : q.createdAt ≤ c0.createdAt :=
          hinv.primaryOldest c0 (C_live hS hc0C) q hql hqp hqe
        have h2 : c0.createdAt ≤ q.createdAt := hmint q hqt
        have hqf : q ∈ t.filter (fun c =>
            c.linkPrecedence = LinkPrecedence.primary ∧
              c.createdAt = c0.createdAt) :=
          List.mem_filter.mpr ⟨hqt, by simp [hqp]; omega⟩
        rw [hfl] at hqf
        exact absurd hqf (List.not_mem_nil q)
    | cons a l =>
      have hall : ∀ x ∈ a :: l,
          x.linkPrecedence = LinkPrecedence.primary ∧
            x.createdAt = c0.createdAt := by
        intro x hx
        have hxf : x ∈ t.filter (fun c =>
            c.linkPrecedence = LinkPrecedence.primary ∧
              c.createdAt = c0.createdAt) := hfl.symm ▸ hx
        simpa using List.of_mem_filter hxf
      rw [List.getLastD_cons]
      exact (hall _ (getLastD_mem_cons l a)).1
  case _ =>
    intro q hq hqp
    have hprCA : (t.foldl findPrimaryStep c0).createdAt = c0.createdAt := by
      rw [hfold]
      cases hfl : t.filter (fun c =>
          c.linkPrecedence = LinkPrecedence.primary ∧
            c.createdAt = c0.createdAt) with
      | nil => rfl
      | cons a l =>
        have hall : ∀ x ∈ a :: l,
            x.linkPrecedence = LinkPrecedence.primary ∧
              x.createdAt = c0.createdAt := by
          intro x hx
          have hxf : x ∈ t.filter (fun c =>
              c.linkPrecedence = LinkPrecedence.primary ∧
                c.createdAt = c0.createdAt) := hfl.symm ▸ hx
          simpa using List.of_mem_filter hxf
        rw [List.getLastD_cons]
        exact (hall _ (getLastD_mem_cons l a)).2
    rw [hprCA]
    exact hmin q (hct ▸ hq)

theorem mergeRow_precedence (o : Nat) (dids : List Nat) (c : Contact) :
    (mergeRow o dids c).linkPrecedence =
      if c.id ∈ dids then LinkPrecedence.secondary else c.linkPrecedence := by
  by_cases h : c.id ∈ dids
  · rw [mergeRow_demoted h, if_pos h]
  · rw [if_neg h]
    unfold mergeRow
    rw [if_neg h]
    split_ifs <;> rfl

/-- Transformation of the group pointer under the merge rewrite: members of
demoted groups move to the oldest primary, everything else is unchanged. -/
theorem pid_mergeRow {o : Nat} {dids : List Nat} {x : Contact}
    (hlive : x.deletedAt = none)
    (hprim : x.linkPrecedence = LinkPrecedence.primary → x.linkedId = none)
    (hsec : x.linkPrecedence = LinkPrecedence.secondary → x.id ∉ dids) :
    pidOf (mergeRow o dids x) =
      if ∃ d ∈ dids, pidOf x = some d then some o else pidOf x := by
  rcases precedence_cases x with hp | hp
  · by_cases hd : x.id ∈ dids
    · rw [mergeRow_demoted hd, if_pos ⟨x.id, hd, pidOf_primary hp⟩]
      exact pidOf_secondary rfl
    · have hskip : mergeRow o dids x = x := by
        apply mergeRow_skip hd
        rw [hprim hp]
        rintro ⟨_, d, _, hh⟩
        exact Option.noConfusion hh
      rw [hskip, if_neg]
      rintro ⟨d, hdm, hh⟩
      rw [pidOf_primary hp] at hh
      exact hd ((Option.some.inj hh) ▸ hdm)
  · have hnd : x.id ∉ dids := hsec hp
    by_cases hre : ∃ d ∈ dids, x.linkedId = some d
    · have hre2 : ∃ d ∈ dids, pidOf x = some d := by
        obtain ⟨d, hdm, hh⟩ := hre
        exact ⟨d, hdm, by rw [pidOf_secondary hp, hh]⟩
      rw [mergeRow_repoint hnd ⟨hlive, hre⟩, if_pos hre2]
      exact pidOf_secondary hp
    · have hre2 : ¬∃ d ∈ dids, pidOf x = some d := by
        rintro ⟨d, hdm, hh⟩
        rw [pidOf_secondary hp] at hh
        exact hre ⟨d, hdm, hh⟩
      rw [mergeRow_skip hnd (by rintro ⟨_, hh⟩; exact hre hh), if_neg hre2]

/-- Unified description of the merge step of `identify`: there is an oldest
primary `O` of the in-memory closure and a list `D` of the other primaries
(the demoted ones, empty when at most one primary exists), and the merge
rewrites the store by `mergeRow`, appends one update/bulk pair per demoted
primary, and updates the in-memory list by `memRow`. -/
theorem merge_phase {s₁ : Store} {mem1 : List Contact}
    (hwf : StoreWf s₁)
    (hlive : ∀ c ∈ mem1, c ∈ s₁.live)
    (hnodup : (idsOf mem1).Nodup)
    (hprimnone : ∀ c ∈ s₁.live,
      c.linkPrecedence = LinkPrecedence.primary → c.linkedId = none)
    (hne : mem1.filter (fun c =>
      c.linkPrecedence = LinkPrecedence.primary) ≠ []) :
    ∃ O D,
      O ∈ mem1 ∧ O.linkPrecedence = LinkPrecedence.primary ∧
      (∀ q ∈ mem1, q.linkPrecedence = LinkPrecedence.primary →
        O.createdAt ≤ q.createdAt) ∧
      O.id ∉ idsOf D ∧
      (∀ q ∈ D, q ∈ mem1 ∧ q.linkPrecedence = LinkPrecedence.primary) ∧
      (∀ q ∈ mem1, q.linkPrecedence = LinkPrecedence.primary →
        (q.id ∈ idsOf D ↔ q ≠ O)) ∧
      D.length + 1 = (mem1.filter (fun c =>
        c.linkPrecedence = LinkPrecedence.primary)).length ∧
      mergePrimaryContacts s₁ mem1 =
        (⟨s₁.contacts.map (mergeRow O.id (idsOf D)), s₁.nextId, s₁.now,
          s₁.log ++ demoteOps O.id D⟩,
         mem1.map (memRow O.id (idsOf D))) := by
  have hfilter_sub : ∀ q ∈ mem1.filter (fun c =>
      c.linkPrecedence = LinkPrecedence.primary),
      q ∈ mem1 ∧ q.linkPrecedence = LinkPrecedence.primary := by
    intro q hq
    exact ⟨List.mem_of_mem_filter hq, by simpa using List.of_mem_filter hq⟩
  have hmem_of_prim : ∀ q ∈ mem1,
      q.linkPrecedence = LinkPrecedence.primary →
      q ∈ mem1.filter (fun c =>
        c.linkPrecedence = LinkPrecedence.primary) := by
    intro q hq hqp
    exact List.mem_filter.mpr ⟨hq, by simp [hqp]⟩
  have hid_inj : ∀ q ∈ mem1, ∀ r ∈ mem1, q.id = r.id → q = r :=
    fun q hq r hr hh => List.inj_on_of_nodup_map hnodup hq hr hh
  by_cases hle : (mem1.filter (fun c =>
      c.linkPrecedence = LinkPrecedence.primary)).length ≤ 1
  · -- exactly one primary: the merge is a no-op
    have hlen1 : (mem1.filter (fun c =>
        c.linkPrecedence = LinkPrecedence.primary)).length = 1 := by
      have := List.length_pos.mpr hne
      omega
    obtain ⟨O, hO⟩ := List.length_eq_one.mp hlen1
    obtain ⟨hOmem, hOp⟩ := hfilter_sub O (by rw [hO]; exact List.mem_cons_self _ _)
    refine ⟨O, [], hOmem, hOp, ?_, by simp [idsOf], by simp, ?_, ?_, ?_⟩
    · intro q hq hqp
      have : q ∈ [O] := hO ▸ hmem_of_prim q hq hqp
      rw [List.mem_singleton.mp this]
    · intro q hq hqp
      have : q ∈ [O] := hO ▸ hmem_of_prim q hq hqp
      simp [idsOf, List.mem_singleton.mp this]
    · simp [hlen1]
    · rw [mergePrimaryContacts_le_one hle]
      have hmapc : s₁.contacts.map (mergeRow O.id (idsOf [])) =
          s₁.contacts := by
        have hpt : ∀ c ∈ s₁.contacts,
            mergeRow O.id (idsOf ([] : List Contact)) c = id c := by
          intro c _
          exact mergeRow_skip (by simp [idsOf]) (by simp [idsOf])
        rw [List.map_congr_left hpt, List.map_id]
      have hmapm : mem1.map (memRow O.id (idsOf [])) = mem1 := by
        have hpt : ∀ c ∈ mem1,
            memRow O.id (idsOf ([] : List Contact)) c = id c := by
          intro c _
          unfold memRow
          rw [if_neg (by simp [idsOf])]
          rfl
        rw [List.map_congr_left hpt, List.map_id]
      rw [hmapc, hmapm]
      simp [demoteOps]

  · -- several primaries: demote all but the oldest
    have hlen : 1 < (mem1.filter (fun c =>
        c.linkPrecedence = LinkPrecedence.primary)).length := by omega
    have hsortlen : (sortByCreatedAt (mem1.filter (fun c =>
        c.linkPrecedence = LinkPrecedence.primary))).length =
        (mem1.filter (fun c =>
          c.linkPrecedence = LinkPrecedence.primary)).length :=
      (sortByCreatedAt_perm _).length_eq
    have hsne : sortByCreatedAt (mem1.filter (fun c =>
        c.linkPrecedence = LinkPrecedence.primary)) ≠ [] := by
      intro h
      rw [h] at hsortlen
      simp at hsortlen
      omega
    obtain ⟨O, rest, hsorted⟩ := List.exists_cons_of_ne_nil hsne
    have hperm : (O :: rest).Perm (mem1.filter (fun c =>
        c.linkPrecedence = LinkPrecedence.primary)) :=
      hsorted ▸ sortByCreatedAt_perm _
    have hOf : O ∈ mem1.filter (fun c =>
        c.linkPrecedence = LinkPrecedence.primary) :=
      hperm.mem_iff.mp (List.mem_cons_self _ _)
    obtain ⟨hOmem, hOp⟩ := hfilter_sub O hOf
    have hsorted' : List.Sorted createdLE (O :: rest) :=
      hsorted ▸ sortByCreatedAt_sorted _
    have hprims_nodup : (idsOf (mem1.filter (fun c =>
        c.linkPrecedence = LinkPrecedence.primary))).Nodup :=
      List.Nodup.sublist (List.Sublist.map _ (List.filter_sublist _)) hnodup
    have hnodup_sorted : (idsOf (O :: rest)).Nodup :=
      (List.Perm.nodup_iff (List.Perm.map _ hperm)).mpr hprims_nodup
    have hono : O.id ∉ idsOf rest := (List.nodup_cons.mp hnodup_sorted).1
    have hrest_sub : ∀ q ∈ rest,
        q ∈ mem1 ∧ q.linkPrecedence = LinkPrecedence.primary :=
      fun q hq => hfilter_sub q (hperm.mem_iff.mp (List.mem_cons_of_mem _ hq))
    refine ⟨O, rest, hOmem, hOp, ?_, hono, hrest_sub, ?_, ?_, ?_⟩
    · intro q hq hqp
      have : q ∈ O :: rest := hperm.mem_iff.mpr (hmem_of_prim q hq hqp)
      exact sorted_head_min hsorted' q this
    · intro q hq hqp
      constructor
      · intro hid
        obtain ⟨r, hr, hrid⟩ := List.mem_map.mp hid
        have hrq : q = r := hid_inj q hq r (hrest_sub r hr).1 hrid.symm
        intro hqO
        rw [← hrq] at hr
        rw [hqO] at hr
        exact hono (List.mem_map.mpr ⟨O, hr, rfl⟩)
      · intro hqO
        have hqs : q ∈ O :: rest := hperm.mem_iff.mpr (hmem_of_prim q hq hqp)
        rcases List.mem_cons.mp hqs with h | h
        · exact absurd h hqO
        · exact List.mem_map.mpr ⟨q, h, rfl⟩
    · rw [← hsortlen, hsorted]
      simp
    · exact mergePrimaryContacts_eq hsorted hwf.nodupIds hnodup
        (fun c hc => live_subset (hlive c hc))
        (fun c hc hcp => hprimnone c (hlive c hc) hcp) hlen

theorem bool_eq_of_iff {a b : Bool} (h : a = true ↔ b = true) : a = b := by
  cases a <;> cases b <;> simp_all

theorem sharesKey_mergeRow {o : Nat} {dids : List Nat} {x y : Contact} :
    sharesKey (mergeRow o dids x) (mergeRow o dids y) ↔ sharesKey x y := by
  unfold sharesKey
  rw [mergeRow_email, mergeRow_email, mergeRow_phoneNumber,
    mergeRow_phoneNumber]

theorem matchesRequest_mergeRow (e p : Option String) (o : Nat)
    (dids : List Nat) (x : Contact) :
    matchesRequest e p (mergeRow o dids x) = matchesRequest e p x := by
  unfold matchesRequest
  rw [mergeRow_email, mergeRow_phoneNumber]

theorem insert_fst (s : Store) (e p : Option String) (l : Option Nat)
    (pr : LinkPrecedence) :
    (s.insert e p l pr).1 =
      ⟨s.nextId, p, e, l, pr, s.now, none⟩ := rfl

/-- After inserting a new secondary linked to a live primary, all data-model
invariants except key coherence still hold. -/
theorem insert_secondary_partialInv {s : Store} (e p : Option String)
    {pr : Contact} (hwf : StoreWf s) (hinv : DataInv s)
    (hpr : pr ∈ s.live) (hprp : pr.linkPrecedence = LinkPrecedence.primary) :
    (∀ c ∈ (s.insert e p (some pr.id) LinkPrecedence.secondary).2.live,
      c.linkPrecedence = LinkPrecedence.primary → c.linkedId = none) ∧
    (∀ c ∈ (s.insert e p (some pr.id) LinkPrecedence.secondary).2.live,
      c.linkPrecedence = LinkPrecedence.secondary →
        ∃ q ∈ (s.insert e p (some pr.id) LinkPrecedence.secondary).2.live,
          q.linkPrecedence = LinkPrecedence.primary ∧
            c.linkedId = some q.id) ∧
    (∀ c ∈ (s.insert e p (some pr.id) LinkPrecedence.secondary).2.live,
      ∀ q ∈ (s.insert e p (some pr.id) LinkPrecedence.secondary).2.live,
        q.linkPrecedence = LinkPrecedence.primary →
          c.linkedId = some q.id → q.createdAt ≤ c.createdAt) := by
  have hl := live_insert s e p (some pr.id) LinkPrecedence.secondary
  refine ⟨?_, ?_, ?_⟩
  · intro c hc hcp
    rw [hl] at hc
    rcases List.mem_append.mp hc with h | h
    · exact hinv.primaryNoLink c h hcp
    · rw [List.mem_singleton.mp h, insert_fst] at hcp
      exact absurd hcp (by intro hh; exact LinkPrecedence.noConfusion hh)
  · intro c hc hcs
    rw [hl] at hc
    rcases List.mem_append.mp hc with h | h
    · obtain ⟨q, hql, hqp, hqe⟩ := hinv.secondaryLink c h hcs
      exact ⟨q, by rw [hl]; exact List.mem_append_left _ hql, hqp, hqe⟩
    · refine ⟨pr, by rw [hl]; exact List.mem_append_left _ hpr, hprp, ?_⟩
      rw [List.mem_singleton.mp h, insert_fst]
  · intro c hc q hq hqp hce
    rw [hl] at hc hq
    rcases List.mem_append.mp hq with hqo | hqn
    · rcases List.mem_append.mp hc with hco | hcn
      · exact hinv.primaryOldest c hco q hqo hqp hce
      · rw [List.mem_singleton.mp hcn, insert_fst] at hce ⊢
        have hpq : pr = q := by
          apply id_inj hwf (live_subset hpr) (live_subset hqo)
          exact Option.some.inj hce
        rw [← hpq]
        exact le_of_lt (hwf.createdLt pr (live_subset hpr))
    · exfalso
      rw [List.mem_singleton.mp hqn, insert_fst] at hqp
      exact LinkPrecedence.noConfusion hqp

/-- Membership test for the final consolidated group of the primary with id
`oid`: the primary itself and every contact linked to it. -/
def groupFilter (oid : Nat) (c : Contact) : Bool :=
  decide (c.id = oid) || decide (c.linkedId = some oid)

/-- The consolidated group of the primary with id `oid`, in `createdAt`
order: this is what the final re-fetch of `identify` returns. -/
def groupList (t : Store) (oid : Nat) : List Contact :=
  sortByCreatedAt (t.live.filter (groupFilter oid))

theorem buildResponse_isSome {l : List Contact} {q : Contact} (hq : q ∈ l)
    (hqp : q.linkPrecedence = LinkPrecedence.primary) :
    ∃ r, buildResponse l = some r := by
  have hfind : (l.find? (fun c =>
      c.linkPrecedence = LinkPrecedence.primary)).isSome := by
    rw [List.find?_isSome]
    exact ⟨q, hq, by simp [hqp]⟩
  obtain ⟨pr, hpr⟩ := Option.isSome_iff_exists.mp hfind
  unfold buildResponse
  rw [hpr]
  exact ⟨_, rfl⟩

/-- Helper: the anchor of a demoted in-memory instance. -/
theorem anchorOf_demotedRec {c : Contact} {o : Nat} (ho : o ≠ 0) :
    anchorOf ({ c with
      linkedId := some o,
      linkPrecedence := LinkPrecedence.secondary }) = some o := by
  unfold anchorOf
  rw [if_neg (by intro hh; exact LinkPrecedence.noConfusion hh),
    if_pos (by simp [truthyNat, ho])]

/-- Helper: what an anchor of a contact can be. -/
theorem anchorOf_eq_some_cases {w : Contact} {a : Nat}
    (h : anchorOf w = some a) :
    (w.linkPrecedence = LinkPrecedence.primary ∧ a = w.id) ∨
      (w.linkPrecedence = LinkPrecedence.secondary ∧
        w.linkedId = some a) := by
  unfold anchorOf at h
  by_cases hp : w.linkPrecedence = LinkPrecedence.primary
  · rw [if_pos hp] at h
    exact Or.inl ⟨hp, (Option.some.inj h).symm⟩
  · rw [if_neg hp] at h
    have hsec : w.linkPrecedence = LinkPrecedence.secondary := by
      rcases precedence_cases w with hh | hh
      · exact absurd hh hp
      · exact hh
    by_cases ht : truthyNat w.linkedId = true
    · rw [if_pos ht] at h
      exact Or.inr ⟨hsec, h⟩
    · rw [if_neg ht] at h
      exact absurd h (by simp)

/-- Main analysis of the merge-and-refetch tail of `identify` (the
`identifyCore` part): starting from a store satisfying the invariants except
possibly key coherence across the in-memory closure `mem1`, the call
succeeds, the resulting store satisfies all invariants, the whole closure
ends up in the group of the surviving oldest primary `O`, and the final
re-fetch returns exactly that group. -/
theorem post_merge_master {s₁ : Store} (mem1 : List Contact)
    (e p : Option String)
    (hwf : StoreWf s₁)
    (hlive : ∀ c ∈ mem1, c ∈ s₁.live)
    (hnodup : (idsOf mem1).Nodup)
    (hpn : ∀ c ∈ s₁.live,
      c.linkPrecedence = LinkPrecedence.primary → c.linkedId = none)
    (hsl : ∀ c ∈ s₁.live, c.linkPrecedence = LinkPrecedence.secondary →
      ∃ q ∈ s₁.live, q.linkPrecedence = LinkPrecedence.primary ∧
        c.linkedId = some q.id)
    (hpo : ∀ c ∈ s₁.live, ∀ q ∈ s₁.live,
      q.linkPrecedence = LinkPrecedence.primary →
      c.linkedId = some q.id → q.createdAt ≤ c.createdAt)
    (hkeyw : ∀ x ∈ s₁.live, ∀ y ∈ s₁.live, x ∉ mem1 → y ∉ mem1 →
      sharesKey x y → pidOf x = pidOf y)
    (hkey_closed : ∀ x ∈ mem1, ∀ y ∈ s₁.live, sharesKey x y → y ∈ mem1)
    (hpid_prims : ∀ x ∈ mem1, ∃ q ∈ mem1,
      q.linkPrecedence = LinkPrecedence.primary ∧ pidOf x = some q.id)
    (hpid_closed : ∀ y ∈ s₁.live, ∀ q ∈ mem1,
      q.linkPrecedence = LinkPrecedence.primary →
      pidOf y = some q.id → y ∈ mem1)
    (hmatch1 : ∀ y ∈ s₁.live, matchesRequest e p y = true → y ∈ mem1)
    (hne : mem1.filter (fun c =>
      c.linkPrecedence = LinkPrecedence.primary) ≠ []) :
    ∃ O r D,
      identifyCore s₁ mem1 =
        (Except.ok r, (mergePrimaryContacts s₁ mem1).1) ∧
      StoreWf (mergePrimaryContacts s₁ mem1).1 ∧
      DataInv (mergePrimaryContacts s₁ mem1).1 ∧
      O ∈ (mergePrimaryContacts s₁ mem1).1.live ∧
      O.linkPrecedence = LinkPrecedence.primary ∧
      (∀ y ∈ (mergePrimaryContacts s₁ mem1).1.live,
        matchesRequest e p y = true → pidOf y = some O.id) ∧
      (∀ x ∈ s₁.live, ∃ y ∈ (mergePrimaryContacts s₁ mem1).1.live,
        y.email = x.email ∧ y.phoneNumber = x.phoneNumber) ∧
      getAllLinkedContacts (mergePrimaryContacts s₁ mem1).1
        (mergePrimaryContacts s₁ mem1).2 =
        groupList (mergePrimaryContacts s₁ mem1).1 O.id ∧
      buildResponse (groupList (mergePrimaryContacts s₁ mem1).1 O.id) =
        some r ∧
      (mergePrimaryContacts s₁ mem1).1.contacts.length =
        s₁.contacts.length ∧
      (mergePrimaryContacts s₁ mem1).1.log = s₁.log ++ demoteOps O.id D ∧
      (∀ q ∈ D, q.linkPrecedence = LinkPrecedence.primary) ∧
      D.length + 1 = (mem1.filter (fun c =>
        c.linkPrecedence = LinkPrecedence.primary)).length := by
  obtain ⟨O, D, hOmem, hOp, hOmin, hOnd, hDsub, hDiff, hDlen, hmerge⟩ :=
    merge_phase hwf hlive hnodup hpn hne
  have hOlive : O ∈ s₁.live := hlive O hOmem
  have hlive_inj : ∀ x ∈ s₁.live, ∀ y ∈ s₁.live, x.id = y.id → x = y :=
    fun x hx y hy hh => id_inj hwf (live_subset hx) (live_subset hy) hh
  have hOidpos : 0 < O.id := hwf.idPos O (live_subset hOlive)
  have hsec_not_dids : ∀ x ∈ s₁.live,
      x.linkPrecedence = LinkPrecedence.secondary → x.id ∉ idsOf D := by
    intro x hx hxs hxd
    obtain ⟨q, hq, hqid⟩ := List.mem_map.mp hxd
    obtain ⟨hqm, hqp⟩ := hDsub q hq
    have hxq : x = q := hlive_inj x hx q (hlive q hqm) hqid.symm
    rw [hxq, hqp] at hxs
    exact LinkPrecedence.noConfusion hxs
  have hdemoted_mem : ∀ x ∈ s₁.live, x.id ∈ idsOf D →
      x ∈ mem1 ∧ x.linkPrecedence = LinkPrecedence.primary := by
    intro x hx hxd
    obtain ⟨q, hq, hqid⟩ := List.mem_map.mp hxd
    obtain ⟨hqm, hqp⟩ := hDsub q hq
    have hxq : x = q := hlive_inj x hx q (hlive q hqm) hqid.symm
    rw [hxq]
    exact ⟨hqm, hqp⟩
  have hO_static : mergeRow O.id (idsOf D) O = O := by
    apply mergeRow_skip hOnd
    rw [hpn O hOlive hOp]
    rintro ⟨_, d, _, hh⟩
    exact Option.noConfusion hh
  have hpid_fun : ∀ x ∈ s₁.live, pidOf (mergeRow O.id (idsOf D) x) =
      if ∃ d ∈ idsOf D, pidOf x = some d then some O.id else pidOf x := by
    intro x hx
    exact pid_mergeRow (mem_live.mp hx).2
      (fun hh => hpn x hx hh) (fun hh => hsec_not_dids x hx hh)
  have hcond_mem : ∀ x ∈ s₁.live,
      (∃ d ∈ idsOf D, pidOf x = some d) → x ∈ mem1 := by
    rintro x hx ⟨d, hd, hpd⟩
    obtain ⟨q, hq, hqid⟩ := List.mem_map.mp hd
    obtain ⟨hqm, hqp⟩ := hDsub q hq
    exact hpid_closed x hx q hqm hqp (by rw [hpd, hqid])
  have hmem_pid : ∀ x ∈ mem1,
      pidOf (mergeRow O.id (idsOf D) x) = some O.id := by
    intro x hx
    rw [hpid_fun x (hlive x hx)]
    obtain ⟨q, hqm, hqp, hqe⟩ := hpid_prims x hx
    by_cases hqO : q = O
    · have hcond : ¬∃ d ∈ idsOf D, pidOf x = some d := by
        rintro ⟨d, hd, hpd⟩
        rw [hqe, hqO] at hpd
        exact hOnd ((Option.some.inj hpd) ▸ hd)
      rw [if_neg hcond, hqe, hqO]
    · have hcond : ∃ d ∈ idsOf D, pidOf x = some d :=
        ⟨q.id, (hDiff q hqm hqp).mpr hqO, hqe⟩
      rw [if_pos hcond]
  have hout_pid : ∀ y ∈ s₁.live, y ∉ mem1 →
      pidOf (mergeRow O.id (idsOf D) y) = pidOf y := by
    intro y hy hym
    have hcond : ¬∃ d ∈ idsOf D, pidOf y = some d :=
      fun hcond => hym (hcond_mem y hy hcond)
    rw [hpid_fun y hy, if_neg hcond]
  have hmerge1 : (mergePrimaryContacts s₁ mem1).1 =
      ⟨s₁.contacts.map (mergeRow O.id (idsOf D)), s₁.nextId, s₁.now,
        s₁.log ++ demoteOps O.id D⟩ := by rw [hmerge]
  have hmerge2 : (mergePrimaryContacts s₁ mem1).2 =
      mem1.map (memRow O.id (idsOf D)) := by rw [hmerge]
  have hlive₂ : (mergePrimaryContacts s₁ mem1).1.live =
      s₁.live.map (mergeRow O.id (idsOf D)) := by
    rw [hmerge1]
    exact live_mergeStore
  have hwf₂ : StoreWf (mergePrimaryContacts s₁ mem1).1 := by
    rw [hmerge1]
    exact storeWf_mergeStore hwf
  have hfix : ∀ x ∈ s₁.live, x.linkPrecedence = LinkPrecedence.primary →
      x.id ∉ idsOf D → mergeRow O.id (idsOf D) x = x := by
    intro x hx hxp hxd
    apply mergeRow_skip hxd
    rw [hpn x hx hxp]
    rintro ⟨_, d, _, hh⟩
    exact Option.noConfusion hh
  have hOlive₂ : O ∈ (mergePrimaryContacts s₁ mem1).1.live := by
    rw [hlive₂]
    exact List.mem_map.mpr ⟨O, hOlive, hO_static⟩
  have hrow_cases : ∀ x ∈ s₁.live,
      (x.id ∈ idsOf D ∧ mergeRow O.id (idsOf D) x =
        { x with linkedId := some O.id,
                 linkPrecedence := LinkPrecedence.secondary }) ∨
      (x.id ∉ idsOf D ∧ (∃ d ∈ idsOf D, x.linkedId = some d) ∧
        mergeRow O.id (idsOf D) x = { x with linkedId := some O.id }) ∨
      (x.id ∉ idsOf D ∧ ¬(∃ d ∈ idsOf D, x.linkedId = some d) ∧
        mergeRow O.id (idsOf D) x = x) := by
    intro x hx
    by_cases h1 : x.id ∈ idsOf D
    · exact Or.inl ⟨h1, mergeRow_demoted h1⟩
    · by_cases h2 : ∃ d ∈ idsOf D, x.linkedId = some d
      · exact Or.inr (Or.inl ⟨h1, h2,
          mergeRow_repoint h1 ⟨(mem_live.mp hx).2, h2⟩⟩)
      · exact Or.inr (Or.inr ⟨h1, h2, mergeRow_skip h1
          (by rintro ⟨_, hh⟩; exact h2 hh)⟩)
  have hOmin_demoted : ∀ x ∈ s₁.live, x.id ∈ idsOf D →
      O.createdAt ≤ x.createdAt := by
    intro x hx hxd
    obtain ⟨hxm, hxp⟩ := hdemoted_mem x hx hxd
    exact hOmin x hxm hxp
  have hOmin_repoint : ∀ x ∈ s₁.live,
      (∃ d ∈ idsOf D, x.linkedId = some d) →
      O.createdAt ≤ x.createdAt := by
    rintro x hx ⟨d, hd, hxe⟩
    obtain ⟨q, hq, hqid⟩ := List.mem_map.mp hd
    obtain ⟨hqm, hqp⟩ := hDsub q hq
    have h1 : q.createdAt ≤ x.createdAt :=
      hpo x hx q (hlive q hqm) hqp (by rw [hxe, hqid])
    exact le_trans (hOmin q hqm hqp) h1
  have hinv₂ : DataInv (mergePrimaryContacts s₁ mem1).1 := by
    constructor
    · intro c hc hcp
      rw [hlive₂] at hc
      obtain ⟨x, hx, rfl⟩ := List.mem_map.mp hc
      rcases hrow_cases x hx with ⟨h1, heq⟩ | ⟨h1, h2, heq⟩ | ⟨h1, h2, heq⟩
      · rw [heq] at hcp
        exact absurd hcp (by intro hh; exact LinkPrecedence.noConfusion hh)
      · rw [heq] at hcp
        obtain ⟨d, hd, hxe⟩ := h2
        rw [hpn x hx hcp] at hxe
        exact absurd hxe (by simp)
      · rw [heq] at hcp ⊢
        exact hpn x hx hcp
    · intro c hc hcs
      rw [hlive₂] at hc
      obtain ⟨x, hx, rfl⟩ := List.mem_map.mp hc
      rcases hrow_cases x hx with ⟨h1, heq⟩ | ⟨h1, h2, heq⟩ | ⟨h1, h2, heq⟩
      · exact ⟨O, hOlive₂, hOp, by rw [heq]⟩
      · exact ⟨O, hOlive₂, hOp, by rw [heq]⟩
      · rw [heq] at hcs ⊢
        obtain ⟨q, hq, hqp, hqe⟩ := hsl x hx hcs
        have hqd : q.id ∉ idsOf D := fun hqd => h2 ⟨q.id, hqd, hqe⟩
        refine ⟨q, ?_, hqp, hqe⟩
        rw [hlive₂]
        exact List.mem_map.mpr ⟨q, hq, hfix q hq hqp hqd⟩
    · intro c hc d hd hk
      rw [hlive₂] at hc hd
      obtain ⟨x, hx, rfl⟩ := List.mem_map.mp hc
      obtain ⟨y, hy, rfl⟩ := List.mem_map.mp hd
      have hkxy : sharesKey x y := sharesKey_mergeRow.mp hk
      by_cases hxm : x ∈ mem1
      · have hym : y ∈ mem1 := hkey_closed x hxm y hy hkxy
        rw [hmem_pid x hxm, hmem_pid y hym]
      · by_cases hym : y ∈ mem1
        · exact absurd (hkey_closed y hym x hx (sharesKey_symm hkxy)) hxm
        · rw [hout_pid x hx hxm, hout_pid y hy hym]
          exact hkeyw x hx y hy hxm hym hkxy
    · intro c hc q₂ hq₂ hq₂p hce
      rw [hlive₂] at hc hq₂
      obtain ⟨x, hx, rfl⟩ := List.mem_map.mp hc
      obtain ⟨q, hq, rfl⟩ := List.mem_map.mp hq₂
      have hqfix : mergeRow O.id (idsOf D) q = q := by
        rcases hrow_cases q hq with ⟨h1, heq⟩ | ⟨h1, h2, heq⟩ | ⟨h1, h2, heq⟩
        · rw [heq] at hq₂p
          exact absurd hq₂p (by intro hh; exact LinkPrecedence.noConfusion hh)
        · rw [heq] at hq₂p
          obtain ⟨d, hdm, hqe⟩ := h2
          rw [hpn q hq hq₂p] at hqe
          exact absurd hqe (by simp)
        · exact heq
      rw [hqfix] at hq₂p hce ⊢
      rcases hrow_cases x hx with ⟨h1, heq⟩ | ⟨h1, h2, heq⟩ | ⟨h1, h2, heq⟩
      · rw [heq] at hce ⊢
        have hqO : q = O := hlive_inj q hq O hOlive
          (Option.some.inj (show (some O.id : Option Nat) = some q.id
            from hce)).symm
        rw [hqO]
        exact hOmin_demoted x hx h1
      · rw [heq] at hce ⊢
        have hqO : q = O := hlive_inj q hq O hOlive
          (Option.some.inj (show (some O.id : Option Nat) = some q.id
            from hce)).symm
        rw [hqO]
        exact hOmin_repoint x hx h2
      · rw [heq] at hce ⊢
        exact hpo x hx q hq hq₂p hce
  have hmatch₂ : ∀ y ∈ (mergePrimaryContacts s₁ mem1).1.live,
      matchesRequest e p y = true → pidOf y = some O.id := by
    intro y hy hm
    rw [hlive₂] at hy
    obtain ⟨x, hx, rfl⟩ := List.mem_map.mp hy
    rw [matchesRequest_mergeRow] at hm
    exact hmem_pid x (hmatch1 x hx hm)
  have hkeys₂ : ∀ x ∈ s₁.live, ∃ y ∈ (mergePrimaryContacts s₁ mem1).1.live,
      y.email = x.email ∧ y.phoneNumber = x.phoneNumber := by
    intro x hx
    refine ⟨mergeRow O.id (idsOf D) x, ?_, mergeRow_email _ _ _,
      mergeRow_phoneNumber _ _ _⟩
    rw [hlive₂]
    exact List.mem_map.mpr ⟨x, hx, rfl⟩
  -- the stale in-memory anchors still produce exactly the surviving group
  have hmem1_ne : mem1 ≠ [] := by
    intro hh
    rw [hh] at hne
    exact hne rfl
  have hanchor_bound : ∀ a ∈ anchorIds (mem1.map (memRow O.id (idsOf D))),
      a = O.id ∨ a ∈ idsOf D := by
    intro a ha
    obtain ⟨w₂, hw₂, haw⟩ := mem_anchorIds.mp ha
    obtain ⟨w, hw, rfl⟩ := List.mem_map.mp hw₂
    by_cases hwd : w.id ∈ idsOf D
    · unfold memRow at haw
      rw [if_pos hwd] at haw
      rw [anchorOf_demotedRec (by omega)] at haw
      exact Or.inl (Option.some.inj haw).symm
    · unfold memRow at haw
      rw [if_neg hwd] at haw
      rcases anchorOf_eq_some_cases haw with ⟨hwp, haa⟩ | ⟨hws, hwe⟩
      · have hwO : w = O := by
          by_contra hneq
          exact hwd ((hDiff w hw hwp).mpr hneq)
        rw [haa, hwO]
        exact Or.inl rfl
      · obtain ⟨q, hqm, hqp, hqe⟩ := hpid_prims w hw
        rw [pidOf_secondary hws, hwe] at hqe
        have haq : a = q.id := Option.some.inj hqe
        by_cases hqO : q = O
        · exact Or.inl (by rw [haq, hqO])
        · exact Or.inr (haq ▸ (hDiff q hqm hqp).mpr hqO)
  have hanchor_O : O.id ∈ anchorIds (mem1.map (memRow O.id (idsOf D))) := by
    apply mem_anchorIds.mpr
    refine ⟨memRow O.id (idsOf D) O, List.mem_map.mpr ⟨O, hOmem, rfl⟩, ?_⟩
    unfold memRow
    rw [if_neg hOnd]
    unfold anchorOf
    rw [if_pos hOp]
  have hno_stale : ∀ y ∈ (mergePrimaryContacts s₁ mem1).1.live,
      ∀ d ∈ idsOf D, y.linkedId ≠ some d := by
    intro y hy d hd hyd
    rw [hlive₂] at hy
    obtain ⟨x, hx, rfl⟩ := List.mem_map.mp hy
    rcases hrow_cases x hx with ⟨h1, heq⟩ | ⟨h1, h2, heq⟩ | ⟨h1, h2, heq⟩
    · rw [heq] at hyd
      have : O.id = d := Option.some.inj
        (show (some O.id : Option Nat) = some d from hyd)
      exact hOnd (this ▸ hd)
    · rw [heq] at hyd
      have : O.id = d := Option.some.inj
        (show (some O.id : Option Nat) = some d from hyd)
      exact hOnd (this ▸ hd)
    · rw [heq] at hyd
      exact h2 ⟨d, hd, hyd⟩
  have hdemoted_G : ∀ y ∈ (mergePrimaryContacts s₁ mem1).1.live,
      y.id ∈ idsOf D → y.linkedId = some O.id := by
    intro y hy hyd
    rw [hlive₂] at hy
    obtain ⟨x, hx, rfl⟩ := List.mem_map.mp hy
    rw [mergeRow_id] at hyd
    rcases hrow_cases x hx with ⟨h1, heq⟩ | ⟨h1, h2, heq⟩ | ⟨h1, h2, heq⟩
    · rw [heq]
    · exact absurd hyd h1
    · exact absurd hyd h1
  have hfinal : getAllLinkedContacts (mergePrimaryContacts s₁ mem1).1
      (mergePrimaryContacts s₁ mem1).2 =
      groupList (mergePrimaryContacts s₁ mem1).1 O.id := by
    rw [hmerge2]
    unfold getAllLinkedContacts groupList
    rw [if_neg (by
      simp only [List.length_map, List.length_eq_zero]
      exact hmem1_ne)]
    congr 1
    apply List.filter_congr
    intro y hy
    apply bool_eq_of_iff
    constructor
    · intro hcf
      rcases closureFilter_iff.mp hcf with hid | ⟨l, hl, hlA⟩
      · rcases hanchor_bound _ hid with hh | hh
        · exact (by simp [groupFilter, hh] : groupFilter O.id y = true)
        · have := hdemoted_G y hy hh
          simp [groupFilter, this]
      · rcases hanchor_bound _ hlA with hh | hh
        · simp [groupFilter, hl, hh]
        · exact absurd hl (hno_stale y hy l hh)
    · intro hgf
      rcases (by simpa [groupFilter] using hgf :
          y.id = O.id ∨ y.linkedId = some O.id) with hh | hh
      · exact closureFilter_iff.mpr (Or.inl (hh ▸ hanchor_O))
      · exact closureFilter_iff.mpr (Or.inr ⟨O.id, hh, hanchor_O⟩)
  have hOgroup : O ∈ groupList (mergePrimaryContacts s₁ mem1).1 O.id := by
    unfold groupList
    rw [mem_sortByCreatedAt]
    exact List.mem_filter.mpr ⟨hOlive₂, by simp [groupFilter]⟩
  obtain ⟨r, hr⟩ := buildResponse_isSome hOgroup hOp
  refine ⟨O, r, D, ?_, hwf₂, hinv₂, hOlive₂, hOp, hmatch₂, hkeys₂, hfinal,
    hr, ?_, ?_, fun q hq => (hDsub q hq).2, hDlen⟩
  · rw [identifyCore_eq, hfinal, hr]
  · rw [hmerge1]
    simp
  · rw [hmerge1]
theorem valid_of_match_ne {s : Store} {e p : Option String}
    (hS : findMatchingContacts s e p ≠ []) :
    truthy e = true ∨ truthy p = true := by
  obtain ⟨c, hc⟩ := List.exists_mem_of_ne_nil _ hS
  rcases matchesRequest_iff.mp (mem_findMatchingContacts.mp hc).2 with h | h
  · exact Or.inl h.1
  · exact Or.inr h.1

theorem shouldCreate_true_truthy {l : List Contact} {e p : Option String}
    (h : shouldCreateNewContact l e p = true) :
    truthy e = true ∧ truthy p = true := by
  by_cases ht : (truthy e && truthy p) = true
  · simpa using ht
  · unfold shouldCreateNewContact at h
    rw [if_neg ht] at h
    exact absurd h (by simp)

theorem identifyMergeInput_eq_match_noNew {s : Store} {e p : Option String}
    (hS : findMatchingContacts s e p ≠ [])
    (hnn : shouldCreateNewContact
      (getAllLinkedContacts s (findMatchingContacts s e p)) e p = false) :
    identifyMergeInput s e p =
      getAllLinkedContacts s (findMatchingContacts s e p) := by
  have hlen : ((findMatchingContacts s e p).length = 0) = False := by
    simp [List.length_eq_zero, hS]
  simp only [identifyMergeInput, validCond_of (valid_of_match_ne hS),
    Bool.false_eq_true, if_false, hlen, hnn, if_true]

theorem identifyMergeInput_eq_match_new {s : Store} {e p : Option String}
    {pr : Contact}
    (hS : findMatchingContacts s e p ≠ [])
    (hnn : shouldCreateNewContact
      (getAllLinkedContacts s (findMatchingContacts s e p)) e p = true)
    (hfp : findPrimaryContact
      (getAllLinkedContacts s (findMatchingContacts s e p)) = some pr) :
    identifyMergeInput s e p =
      getAllLinkedContacts s (findMatchingContacts s e p) ++
        [(s.insert e p (some pr.id) LinkPrecedence.secondary).1] := by
  have hlen : ((findMatchingContacts s e p).length = 0) = False := by
    simp [List.length_eq_zero, hS]
  simp only [identifyMergeInput, validCond_of (valid_of_match_ne hS),
    Bool.false_eq_true, if_false, hlen, hnn, hfp, if_true]

/-- Full analysis of `identify` on the matched path (`S ≠ ∅`) over an
invariant-satisfying store: the call succeeds, the invariants are restored,
the entire closure is consolidated under one surviving primary `O`, and the
response is the projection of `O`'s group. -/
theorem identify_match_master {s : Store} {e p : Option String}
    (hwf : StoreWf s) (hinv : DataInv s)
    (hS : findMatchingContacts s e p ≠ []) :
    ∃ O r s₂ D,
      identify s e p = (Except.ok r, s₂) ∧
      StoreWf s₂ ∧ DataInv s₂ ∧
      O ∈ s₂.live ∧ O.linkPrecedence = LinkPrecedence.primary ∧
      (∀ y ∈ s₂.live, matchesRequest e p y = true → pidOf y = some O.id) ∧
      (∀ x ∈ s.live, ∃ y ∈ s₂.live,
        y.email = x.email ∧ y.phoneNumber = x.phoneNumber) ∧
      buildResponse (groupList s₂ O.id) = some r ∧
      identifyFinalContacts s e p = groupList s₂ O.id ∧
      s₂.contacts.length = s.contacts.length +
        (if shouldCreateNewContact
          (getAllLinkedContacts s (findMatchingContacts s e p)) e p = true
         then 1 else 0) ∧
      (∃ ins, s₂.log = s.log ++ ins ++ demoteOps O.id D ∧
        ins.length ≤ 1 ∧ ∀ op ∈ ins, ∃ c, op = StoreOp.insert c) ∧
      (∀ q ∈ D, q.linkPrecedence = LinkPrecedence.primary) ∧
      D.length + 1 = ((identifyMergeInput s e p).filter (fun c =>
        c.linkPrecedence = LinkPrecedence.primary)).length := by
  obtain ⟨x₀, hx₀⟩ := List.exists_mem_of_ne_nil _ hS
  have hx₀C := S_subset_C hwf hinv hS hx₀
  have hCne : getAllLinkedContacts s (findMatchingContacts s e p) ≠ [] :=
    List.ne_nil_of_mem hx₀C
  have hCprim : ∃ q ∈ getAllLinkedContacts s (findMatchingContacts s e p),
      q.linkPrecedence = LinkPrecedence.primary := by
    obtain ⟨a, haA, _⟩ := C_pid hwf hinv hS hx₀C
    obtain ⟨q, hqC, hqp, _⟩ := anchor_primary_in_C hwf hinv hS haA
    exact ⟨q, hqC, hqp⟩
  have hC_pid_prims : ∀ x ∈ getAllLinkedContacts s
      (findMatchingContacts s e p),
      ∃ q ∈ getAllLinkedContacts s (findMatchingContacts s e p),
        q.linkPrecedence = LinkPrecedence.primary ∧ pidOf x = some q.id := by
    intro x hx
    obtain ⟨a, haA, hpa⟩ := C_pid hwf hinv hS hx
    obtain ⟨q, hqC, hqp, hqa⟩ := anchor_primary_in_C hwf hinv hS haA
    exact ⟨q, hqC, hqp, by rw [hpa, hqa]⟩
  have hC_pid_closed : ∀ y ∈ s.live,
      ∀ q ∈ getAllLinkedContacts s (findMatchingContacts s e p),
        q.linkPrecedence = LinkPrecedence.primary → pidOf y = some q.id →
        y ∈ getAllLinkedContacts s (findMatchingContacts s e p) := by
    intro y hy q hq hqp hpy
    obtain ⟨a, haA, hpa⟩ := C_pid hwf hinv hS hq
    rw [pidOf_primary hqp] at hpa
    exact C_of_pid hS hy hpy ((Option.some.inj hpa) ▸ haA)
  by_cases hnn : shouldCreateNewContact
      (getAllLinkedContacts s (findMatchingContacts s e p)) e p = true
  · -- a new secondary is created first
    obtain ⟨ht_e, ht_p⟩ := shouldCreate_true_truthy hnn
    obtain ⟨pr, hfp, hprC, hprp, _⟩ :=
      findPrimaryContact_spec hwf hinv hS hCne
    have hprlive : pr ∈ s.live := C_live hS hprC
    obtain ⟨hpn₁, hsl₁, hpo₁⟩ :=
      insert_secondary_partialInv e p hwf hinv hprlive hprp
    have hlive₁ := live_insert s e p (some pr.id) LinkPrecedence.secondary
    have hwf₁ := storeWf_insert hwf e p (some pr.id) LinkPrecedence.secondary
    have hCsub : ∀ c ∈ getAllLinkedContacts s (findMatchingContacts s e p),
        c ∈ (s.insert e p (some pr.id) LinkPrecedence.secondary).2.live := by
      intro c hc
      rw [hlive₁]
      exact List.mem_append_left _ (C_live hS hc)
    have hnewlive : (s.insert e p (some pr.id) LinkPrecedence.secondary).1 ∈
        (s.insert e p (some pr.id) LinkPrecedence.secondary).2.live := by
      rw [hlive₁]
      exact List.mem_append_right _ (List.mem_singleton_self _)
    have hold_or_new : ∀ y ∈
        (s.insert e p (some pr.id) LinkPrecedence.secondary).2.live,
        y ∈ s.live ∨
          y = (s.insert e p (some pr.id) LinkPrecedence.secondary).1 := by
      intro y hy
      rw [hlive₁] at hy
      rcases List.mem_append.mp hy with h | h
      · exact Or.inl h
      · exact Or.inr (List.mem_singleton.mp h)
    have hnew_match : matchesRequest e p
        (s.insert e p (some pr.id) LinkPrecedence.secondary).1 = true := by
      rw [insert_fst]
      exact matchesRequest_iff.mpr (Or.inl ⟨ht_e, rfl⟩)
    have hnew_shares : ∀ y ∈ s.live, sharesKey
        (s.insert e p (some pr.id) LinkPrecedence.secondary).1 y →
        y ∈ findMatchingContacts s e p := by
      intro y hy hk
      rw [insert_fst] at hk
      apply mem_findMatchingContacts.mpr
      refine ⟨hy, matchesRequest_iff.mpr ?_⟩
      rcases hk with ⟨hne', hee⟩ | ⟨hne', hpp⟩
      · exact Or.inl ⟨ht_e, hee.symm⟩
      · exact Or.inr ⟨ht_p, hpp.symm⟩
    have hmaster := post_merge_master
      (getAllLinkedContacts s (findMatchingContacts s e p) ++
        [(s.insert e p (some pr.id) LinkPrecedence.secondary).1])
      e p hwf₁
      (by
        intro c hc
        rcases List.mem_append.mp hc with h | h
        · exact hCsub c h
        · rw [List.mem_singleton.mp h]
          exact hnewlive)
      (by
        unfold idsOf
        rw [List.map_append]
        apply List.Nodup.append
        · exact C_ids_nodup hwf
        · exact List.nodup_singleton _
        · intro a ha hb
          simp only [List.map_cons, List.map_nil, List.mem_singleton] at hb
          obtain ⟨c, hc, hca⟩ := List.mem_map.mp ha
          rw [insert_fst] at hb
          have : c.id < s.nextId :=
            hwf.idLt c (live_subset (C_live hS hc))
          rw [hca, hb] at this
          exact absurd this (lt_irrefl _))
      hpn₁ hsl₁ hpo₁
      (by
        intro x hx y hy hxm hym hk
        rcases hold_or_new x hx with hxo | hxn
        · rcases hold_or_new y hy with hyo | hyn
          · exact hinv.keyCoherent x hxo y hyo hk
          · exact absurd (hyn ▸ List.mem_append_right _
              (List.mem_singleton_self _)) hym
        · exact absurd (hxn ▸ List.mem_append_right _
            (List.mem_singleton_self _)) hxm)
      (by
        intro x hx y hy hk
        rcases hold_or_new y hy with hyo | hyn
        · rcases List.mem_append.mp hx with hxC | hxn
          · exact List.mem_append_left _
              (C_key_closed hwf hinv hS hxC hyo hk)
          · rw [List.mem_singleton.mp hxn] at hk
            exact List.mem_append_left _
              (S_subset_C hwf hinv hS (hnew_shares y hyo hk))
        · rw [hyn]
          exact List.mem_append_right _ (List.mem_singleton_self _))
      (by
        intro x hx
        rcases List.mem_append.mp hx with hxC | hxn
        · obtain ⟨q, hqC, hqp, hqe⟩ := hC_pid_prims x hxC
          exact ⟨q, List.mem_append_left _ hqC, hqp, hqe⟩
        · refine ⟨pr, List.mem_append_left _ hprC, hprp, ?_⟩
          rw [List.mem_singleton.mp hxn, insert_fst]
          exact pidOf_secondary rfl)
      (by
        intro y hy q hq hqp hpy
        rcases List.mem_append.mp hq with hqC | hqn
        · rcases hold_or_new y hy with hyo | hyn
          · exact List.mem_append_left _
              (hC_pid_closed y hyo q hqC hqp hpy)
          · rw [hyn]
            exact List.mem_append_right _ (List.mem_singleton_self _)
        · rw [List.mem_singleton.mp hqn, insert_fst] at hqp
          exact absurd hqp (by intro hh; exact LinkPrecedence.noConfusion hh))
      (by
        intro y hy hm
        rcases hold_or_new y hy with hyo | hyn
        · exact List.mem_append_left _ (S_subset_C hwf hinv hS
            (mem_findMatchingContacts.mpr ⟨hyo, hm⟩))
        · rw [hyn]
          exact List.mem_append_right _ (List.mem_singleton_self _))
      (by
        obtain ⟨q, hqC, hqp⟩ := hCprim
        apply List.ne_nil_of_mem (a := q)
        exact List.mem_filter.mpr ⟨List.mem_append_left _ hqC,
          by simp [hqp]⟩)
    obtain ⟨O, r, D, hcore, hwf₂, hinv₂, hOl, hOp, hm₂, hk₂, hfin, hbr,
      hlen₂, hlog₂, hDp, hDl⟩ := hmaster
    refine ⟨O, r, _, D, ?_, hwf₂, hinv₂, hOl, hOp, hm₂, ?_, hbr, ?_, ?_,
      ?_, hDp, ?_⟩
    · rw [identify_eq_match_new hS hnn hfp, hcore]
    · intro x hx
      apply hk₂
      rw [hlive₁]
      exact List.mem_append_left _ hx
    · rw [identifyFinalContacts_eq_match_new (valid_of_match_ne hS) hS hnn
        hfp]
      exact hfin
    · rw [hlen₂, if_pos hnn]
      unfold Store.insert
      simp
    · refine ⟨[StoreOp.insert
        (s.insert e p (some pr.id) LinkPrecedence.secondary).1], ?_, ?_, ?_⟩
      · rw [hlog₂]
        unfold Store.insert
        simp
      · simp
      · intro op hop
        rw [List.mem_singleton.mp hop]
        exact ⟨_, rfl⟩
    · rw [identifyMergeInput_eq_match_new hS hnn hfp]
      exact hDl
  · -- no record is created; the closure is merged directly
    have hnn' : shouldCreateNewContact
        (getAllLinkedContacts s (findMatchingContacts s e p)) e p = false := by
      rw [← Bool.not_eq_true]
      exact hnn
    have hmaster := post_merge_master
      (getAllLinkedContacts s (findMatchingContacts s e p))
      e p hwf
      (fun c hc => C_live hS hc)
      (C_ids_nodup hwf)
      hinv.primaryNoLink hinv.secondaryLink hinv.primaryOldest
      (fun x hx y hy _ _ hk => hinv.keyCoherent x hx y hy hk)
      (fun x hx y hy hk => C_key_closed hwf hinv hS hx hy hk)
      hC_pid_prims
      hC_pid_closed
      (fun y hy hm => S_subset_C hwf hinv hS
        (mem_findMatchingContacts.mpr ⟨hy, hm⟩))
      (by
        obtain ⟨q, hqC, hqp⟩ := hCprim
        apply List.ne_nil_of_mem (a := q)
        exact List.mem_filter.mpr ⟨hqC, by simp [hqp]⟩)
    obtain ⟨O, r, D, hcore, hwf₂, hinv₂, hOl, hOp, hm₂, hk₂, hfin, hbr,
      hlen₂, hlog₂, hDp, hDl⟩ := hmaster
    refine ⟨O, r, _, D, ?_, hwf₂, hinv₂, hOl, hOp, hm₂, hk₂, hbr, ?_, ?_,
      ?_, hDp, ?_⟩
    · rw [identify_eq_match_noNew hS hnn', hcore]
    · rw [identifyFinalContacts_eq_match_noNew (valid_of_match_ne hS) hS
        hnn']
      exact hfin
    · rw [hlen₂, if_neg hnn]
      simp
    · exact ⟨[], by rw [hlog₂]; simp, by simp, by simp⟩
    · rw [identifyMergeInput_eq_match_noNew hS hnn']
      exact hDl

/-! ### The no-match path preserves the invariants -/

theorem createPrimary_fst (s : Store) (e p : Option String) :
    (createPrimaryContact s e p).1 =
      ⟨s.nextId, if truthy p then p else none, if truthy e then e else none,
        none, LinkPrecedence.primary, s.now, none⟩ := rfl

theorem noMatch_inv {s : Store} {e p : Option String}
    (hwf : StoreWf s) (hinv : DataInv s)
    (hS : findMatchingContacts s e p = []) :
    StoreWf (createPrimaryContact s e p).2 ∧
      DataInv (createPrimaryContact s e p).2 := by
  have hnomatch : ∀ y ∈ s.live, matchesRequest e p y = false := by
    intro y hy
    by_cases h : matchesRequest e p y = true
    · have : y ∈ findMatchingContacts s e p :=
        mem_findMatchingContacts.mpr ⟨hy, h⟩
      rw [hS] at this
      exact absurd this (List.not_mem_nil y)
    · exact Bool.not_eq_true _ ▸ h
  constructor
  · exact storeWf_insert hwf _ _ _ _
  have hl := live_insert s (if truthy e then e else none)
    (if truthy p then p else none) none LinkPrecedence.primary
  have hnew_no_share : ∀ y ∈ s.live,
      ¬sharesKey (createPrimaryContact s e p).1 y := by
    intro y hy hk
    rw [createPrimary_fst] at hk
    have : matchesRequest e p y = true := by
      apply matchesRequest_iff.mpr
      rcases hk with ⟨hne', hee⟩ | ⟨hne', hpp⟩
      · by_cases ht : truthy e = true
        · rw [if_pos ht] at hee
          exact Or.inl ⟨ht, hee.symm⟩
        · rw [if_neg ht] at hne'
          exact absurd rfl hne'
      · by_cases ht : truthy p = true
        · rw [if_pos ht] at hpp
          exact Or.inr ⟨ht, hpp.symm⟩
        · rw [if_neg ht] at hne'
          exact absurd rfl hne'
    rw [hnomatch y hy] at this
    exact Bool.noConfusion this
  have hold_or_new : ∀ y ∈ (createPrimaryContact s e p).2.live,
      y ∈ s.live ∨ y = (createPrimaryContact s e p).1 := by
    intro y hy
    unfold createPrimaryContact at hy ⊢
    rw [hl] at hy
    rcases List.mem_append.mp hy with h | h
    · exact Or.inl h
    · exact Or.inr (List.mem_singleton.mp h)
  have hin_live : ∀ y ∈ s.live, y ∈ (createPrimaryContact s e p).2.live := by
    intro y hy
    unfold createPrimaryContact
    rw [hl]
    exact List.mem_append_left _ hy
  constructor
  · intro c hc hcp
    rcases hold_or_new c hc with h | h
    · exact hinv.primaryNoLink c h hcp
    · rw [h, createPrimary_fst]
  · intro c hc hcs
    rcases hold_or_new c hc with h | h
    · obtain ⟨q, hql, hqp, hqe⟩ := hinv.secondaryLink c h hcs
      exact ⟨q, hin_live q hql, hqp, hqe⟩
    · rw [h, createPrimary_fst] at hcs
      exact absurd hcs (by intro hh; exact LinkPrecedence.noConfusion hh)
  · intro c hc d hd hk
    rcases hold_or_new c hc with h | h <;> rcases hold_or_new d hd with h' | h'
    · exact hinv.keyCoherent c h d h' hk
    · rw [h'] at hk
      exact absurd (sharesKey_symm hk) (hnew_no_share c h)
    · rw [h] at hk
      exact absurd hk (hnew_no_share d h')
    · rw [h, h']
  · intro c hc q hq hqp hce
    rcases hold_or_new c hc with h | h
    · rcases hold_or_new q hq with h' | h'
      · exact hinv.primaryOldest c h q h' hqp hce
      · exfalso
        rcases precedence_cases c with hcp | hcp
        · rw [hinv.primaryNoLink c h hcp] at hce
          exact Option.noConfusion hce
        · obtain ⟨q', hql', hqp', hqe'⟩ := hinv.secondaryLink c h hcp
          rw [hqe'] at hce
          have : q'.id = q.id := Option.some.inj hce
          rw [h', createPrimary_fst] at this
          exact absurd (this ▸ hwf.idLt q' (live_subset hql')) (lt_irrefl _)
    · rw [h, createPrimary_fst] at hce
      exact absurd hce (by simp)

/-! ### Claim C1 -/

/-- C1: every successful `Identify` call preserves the data-model
invariants — every secondary's `linkedId` points at a primary (never at
another secondary), and within each connected group exactly one contact has
primary precedence, namely one with the earliest `createdAt` (together with
the store contract on ids and timestamps). -/
theorem identify_preserves_invariants {s : Store} {e p : Option String}
    {r : IdentifyResponse} {s' : Store}
    (hwf : StoreWf s) (hinv : ClaimInv s)
    (hok : identify s e p = (Except.ok r, s')) :
    StoreWf s' ∧ ClaimInv s' := by
  have hdata : DataInv s := claimInv_to_dataInv hwf hinv
  by_cases hv : truthy e = false ∧ truthy p = false
  · rw [identify_eq_validation hv.1 hv.2] at hok
    exact absurd (congrArg Prod.fst hok) (by simp)
  · have hv' : truthy e = true ∨ truthy p = true := by
      by_cases h1 : truthy e = true
      · exact Or.inl h1
      · by_cases h2 : truthy p = true
        · exact Or.inr h2
        · exact absurd ⟨Bool.not_eq_true _ ▸ h1, Bool.not_eq_true _ ▸ h2⟩ hv
    by_cases hS : findMatchingContacts s e p = []
    · rw [identify_eq_noMatch hv' hS] at hok
      have hs' : s' = (createPrimaryContact s e p).2 :=
        (congrArg Prod.snd hok).symm
      obtain ⟨hwf', hinv'⟩ := noMatch_inv hwf hdata hS
      rw [hs']
      exact ⟨hwf', dataInv_to_claimInv hwf' hinv'⟩
    · obtain ⟨O, r', s₂, D, heq, hwf₂, hinv₂, _⟩ :=
        identify_match_master hwf hdata hS
      rw [heq] at hok
      have hs' : s' = s₂ := (congrArg Prod.snd hok).symm
      rw [hs']
      exact ⟨hwf₂, dataInv_to_claimInv hwf₂ hinv₂⟩

/-- Witness for C1 at a concrete input: the empty store satisfies the
invariants, the call succeeds, and the resulting one-contact store
satisfies them as well. -/
theorem identify_preserves_invariants_witness :
    StoreWf (identify ⟨[], 1, 0, []⟩ (some "doc@x.com") (some "555")).2 ∧
      ClaimInv (identify ⟨[], 1, 0, []⟩ (some "doc@x.com") (some "555")).2 := by
  have hwf : StoreWf ⟨[], 1, 0, []⟩ :=
    ⟨by decide, by decide, by decide, by decide, by decide⟩
  have hinv : ClaimInv ⟨[], 1, 0, []⟩ := by
    constructor <;> (intro c hc; simp [Store.live] at hc)
  have hok : identify ⟨[], 1, 0, []⟩ (some "doc@x.com") (some "555") =
      (Except.ok ⟨⟨1, ["doc@x.com"], ["555"], []⟩⟩,
        ⟨[⟨1, some "555", some "doc@x.com", none, LinkPrecedence.primary, 0,
          none⟩], 2, 1,
         [StoreOp.insert ⟨1, some "555", some "doc@x.com", none,
           LinkPrecedence.primary, 0, none⟩]⟩) := by decide
  have h := identify_preserves_invariants hwf hinv hok
  rw [hok]
  exact h

/-! ### Claim C7 -/

/-- C7: when no live contact matches either field, `identify` creates exactly
one new contact — primary, unlinked, carrying exactly the given email and
phone — and returns its id with singleton email/phone lists and no
secondaries. -/
theorem identify_no_match_creates_primary {s : Store} {es ps : String}
    (hes : es ≠ "") (hps : ps ≠ "")
    (hno : ∀ c ∈ s.live, c.email ≠ some es ∧ c.phoneNumber ≠ some ps) :
    identify s (some es) (some ps) =
      (Except.ok ⟨⟨s.nextId, [es], [ps], []⟩⟩,
        ⟨s.contacts ++ [⟨s.nextId, some ps, some es, none,
            LinkPrecedence.primary, s.now, none⟩],
          s.nextId + 1, s.now + 1,
          s.log ++ [StoreOp.insert ⟨s.nextId, some ps, some es, none,
            LinkPrecedence.primary, s.now, none⟩]⟩) := by
  have hte : truthy (some es) = true := by simp [truthy, hes]
  have htp : truthy (some ps) = true := by simp [truthy, hps]
  have hS : findMatchingContacts s (some es) (some ps) = [] := by
    unfold findMatchingContacts
    apply List.filter_eq_nil_iff.mpr
    intro c hc
    intro hm
    rcases matchesRequest_iff.mp hm with ⟨_, hh⟩ | ⟨_, hh⟩
    · exact (hno c hc).1 hh
    · exact (hno c hc).2 hh
  rw [identify_eq_noMatch (Or.inl hte) hS]
  have h1 : (createPrimaryContact s (some es) (some ps)).1 =
      ⟨s.nextId, some ps, some es, none, LinkPrecedence.primary, s.now,
        none⟩ := by
    rw [createPrimary_fst, if_pos hte, if_pos htp]
  have h2 : (createPrimaryContact s (some es) (some ps)).2 =
      ⟨s.contacts ++ [⟨s.nextId, some ps, some es, none,
          LinkPrecedence.primary, s.now, none⟩],
        s.nextId + 1, s.now + 1,
        s.log ++ [StoreOp.insert ⟨s.nextId, some ps, some es, none,
          LinkPrecedence.primary, s.now, none⟩]⟩ := by
    unfold createPrimaryContact Store.insert
    rw [if_pos hte, if_pos htp]
  rw [h1, h2]
  simp [truthyVals, hes, hps]

/-- Witness for C7: the empty store, a fresh email and phone. -/
theorem identify_no_match_creates_primary_witness :
    ("doc@x.com" : String) ≠ "" ∧ ("555" : String) ≠ "" ∧
      (∀ c ∈ (Store.live ⟨[], 1, 0, []⟩),
        c.email ≠ some "doc@x.com" ∧ c.phoneNumber ≠ some "555") ∧
      identify ⟨[], 1, 0, []⟩ (some "doc@x.com") (some "555") =
        (Except.ok ⟨⟨1, ["doc@x.com"], ["555"], []⟩⟩,
          ⟨[⟨1, some "555", some "doc@x.com", none, LinkPrecedence.primary,
            0, none⟩], 2, 1,
           [StoreOp.insert ⟨1, some "555", some "doc@x.com", none,
             LinkPrecedence.primary, 0, none⟩]⟩) := by
  refine ⟨by decide, by decide, by decide, ?_⟩
  exact identify_no_match_creates_primary (by decide) (by decide) (by decide)

/-! ### Claim C6 -/

theorem buildResponse_eq_none_iff {l : List Contact} :
    buildResponse l = none ↔
      ∀ c ∈ l, c.linkPrecedence ≠ LinkPrecedence.primary := by
  unfold buildResponse
  cases hf : l.find? (fun c =>
      c.linkPrecedence = LinkPrecedence.primary) with
  | none =>
    constructor
    · intro _ c hc hcp
      have := List.find?_eq_none.mp hf c hc
      simp [hcp] at this
    · intro _
      rfl
  | some pr =>
    simp only []
    constructor
    · intro hh
      exact absurd hh (by simp)
    · intro hall
      have hmem := List.find?_some hf
      have hpr := List.mem_of_find?_eq_some hf
      simp only [decide_eq_true_eq] at hmem
      exact absurd hmem (hall pr hpr)

theorem shouldCreate_true_ne_nil {l : List Contact} {e p : Option String}
    (h : shouldCreateNewContact l e p = true) : l ≠ [] := by
  intro hl
  subst hl
  unfold shouldCreateNewContact at h
  by_cases ht : (truthy e && truthy p) = true
  · rw [if_pos ht] at h
    simp at h
  · rw [if_neg ht] at h
    exact Bool.noConfusion h

/-- C6: assuming every store operation succeeds, `identify` fails exactly
when both inputs are absent or empty (validation error, raised before any
store mutation) or the final closure contains no primary-precedence contact;
the validation failure leaves the store untouched, and no other failure mode
exists. -/
theorem identify_error_characterisation (s : Store) (e p : Option String) :
    ((truthy e = false ∧ truthy p = false) →
      identify s e p = (Except.error IdentifyError.validationError, s)) ∧
    ((∃ err, (identify s e p).1 = Except.error err) ↔
      ((truthy e = false ∧ truthy p = false) ∨
        ((truthy e = true ∨ truthy p = true) ∧
          ∀ c ∈ identifyFinalContacts s e p,
            c.linkPrecedence ≠ LinkPrecedence.primary))) ∧
    (∀ err s', identify s e p = (Except.error err, s') →
      (err = IdentifyError.validationError ∧ s' = s ∧
        truthy e = false ∧ truthy p = false) ∨
      (err = IdentifyError.noPrimaryFound ∧
        ∀ c ∈ identifyFinalContacts s e p,
          c.linkPrecedence ≠ LinkPrecedence.primary)) := by
  by_cases hv : truthy e = false ∧ truthy p = false
  · rw [identify_eq_validation hv.1 hv.2]
    refine ⟨fun _ => rfl, ?_, ?_⟩
    · simp only []
      constructor
      · intro _
        exact Or.inl hv
      · intro _
        exact ⟨IdentifyError.validationError, rfl⟩
    · intro err s' hh
      have h1 : Except.error IdentifyError.validationError =
          (Except.error err : Except IdentifyError IdentifyResponse) :=
        congrArg Prod.fst hh
      have h2 : s = s' := congrArg Prod.snd hh
      exact Or.inl ⟨(Except.error.inj h1).symm, h2.symm, hv⟩
  · have hv' : truthy e = true ∨ truthy p = true := by
      by_cases h1 : truthy e = true
      · exact Or.inl h1
      · by_cases h2 : truthy p = true
        · exact Or.inr h2
        · exact absurd ⟨Bool.not_eq_true _ ▸ h1, Bool.not_eq_true _ ▸ h2⟩ hv
    refine ⟨fun hh => absurd hh hv, ?_, ?_⟩
    all_goals by_cases hS : findMatchingContacts s e p = []
    · -- iff, no-match path: always succeeds
      rw [identify_eq_noMatch hv' hS,
        identifyFinalContacts_eq_noMatch hv' hS]
      simp only []
      constructor
      · rintro ⟨err, herr⟩
        exact absurd herr (by simp)
      · rintro (hh | ⟨_, hall⟩)
        · exact absurd hh hv
        · exfalso
          exact hall (createPrimaryContact s e p).1
            (List.mem_singleton_self _) (by rw [createPrimary_fst])
    · -- iff, matched path
      have hfin : ∀ s₁ mem1,
          identify s e p = identifyCore s₁ mem1 →
          identifyFinalContacts s e p =
            getAllLinkedContacts (mergePrimaryContacts s₁ mem1).1
              (mergePrimaryContacts s₁ mem1).2 →
          ((∃ err, (identify s e p).1 = Except.error err) ↔
            ((truthy e = false ∧ truthy p = false) ∨
              ((truthy e = true ∨ truthy p = true) ∧
                ∀ c ∈ identifyFinalContacts s e p,
                  c.linkPrecedence ≠ LinkPrecedence.primary))) := by
        intro s₁ mem1 hid hfc
        rw [hid, identifyCore_eq, hfc]
        cases hb : buildResponse
            (getAllLinkedContacts (mergePrimaryContacts s₁ mem1).1
              (mergePrimaryContacts s₁ mem1).2) with
        | none =>
          simp only []
          constructor
          · intro _
            exact Or.inr ⟨hv', buildResponse_eq_none_iff.mp hb⟩
          · intro _
            exact ⟨IdentifyError.noPrimaryFound, rfl⟩
        | some r =>
          simp only []
          constructor
          · rintro ⟨err, herr⟩
            exact absurd herr (by simp)
          · rintro (hh | ⟨_, hall⟩)
            · exact absurd hh hv
            · exfalso
              rw [buildResponse_eq_none_iff.mpr hall] at hb
              exact Option.noConfusion hb
      by_cases hnn : shouldCreateNewContact
          (getAllLinkedContacts s (findMatchingContacts s e p)) e p = true
      · obtain ⟨c0, t, hct⟩ := List.exists_cons_of_ne_nil
          (shouldCreate_true_ne_nil hnn)
        have hfp : findPrimaryContact
            (getAllLinkedContacts s (findMatchingContacts s e p)) =
            some (t.foldl findPrimaryStep c0) := by
          rw [hct]
          rfl
        exact hfin _ _ (identify_eq_match_new hS hnn hfp)
          (identifyFinalContacts_eq_match_new hv' hS hnn hfp)
      · have hnn' : shouldCreateNewContact
            (getAllLinkedContacts s (findMatchingContacts s e p)) e p =
            false := by
          rw [← Bool.not_eq_true]
          exact hnn
        exact hfin _ _ (identify_eq_match_noNew hS hnn')
          (identifyFinalContacts_eq_match_noNew hv' hS hnn')
    · -- classification, no-match path
      intro err s' hh
      rw [identify_eq_noMatch hv' hS] at hh
      exact absurd (congrArg Prod.fst hh) (by simp)
    · -- classification, matched path
      have hcls : ∀ s₁ mem1,
          identify s e p = identifyCore s₁ mem1 →
          identifyFinalContacts s e p =
            getAllLinkedContacts (mergePrimaryContacts s₁ mem1).1
              (mergePrimaryContacts s₁ mem1).2 →
          ∀ err s', identify s e p = (Except.error err, s') →
            (err = IdentifyError.validationError ∧ s' = s ∧
              truthy e = false ∧ truthy p = false) ∨
            (err = IdentifyError.noPrimaryFound ∧
              ∀ c ∈ identifyFinalContacts s e p,
                c.linkPrecedence ≠ LinkPrecedence.primary) := by
        intro s₁ mem1 hid hfc err s' hh
        rw [hid, identifyCore_eq] at hh
        rw [hfc]
        cases hb : buildResponse
            (getAllLinkedContacts (mergePrimaryContacts s₁ mem1).1
              (mergePrimaryContacts s₁ mem1).2) with
        | none =>
          rw [hb] at hh
          have herr : Except.error IdentifyError.noPrimaryFound =
              (Except.error err : Except IdentifyError IdentifyResponse) :=
            congrArg Prod.fst hh
          exact Or.inr ⟨(Except.error.inj herr).symm,
            buildResponse_eq_none_iff.mp hb⟩
        | some r =>
          rw [hb] at hh
          exact absurd (congrArg Prod.fst hh) (by simp)
      by_cases hnn : shouldCreateNewContact
          (getAllLinkedContacts s (findMatchingContacts s e p)) e p = true
      · obtain ⟨c0, t, hct⟩ := List.exists_cons_of_ne_nil
          (shouldCreate_true_ne_nil hnn)
        have hfp : findPrimaryContact
            (getAllLinkedContacts s (findMatchingContacts s e p)) =
            some (t.foldl findPrimaryStep c0) := by
          rw [hct]
          rfl
        exact hcls _ _ (identify_eq_match_new hS hnn hfp)
          (identifyFinalContacts_eq_match_new hv' hS hnn hfp)
      · have hnn' : shouldCreateNewContact
            (getAllLinkedContacts s (findMatchingContacts s e p)) e p =
            false := by
          rw [← Bool.not_eq_true]
          exact hnn
        exact hcls _ _ (identify_eq_match_noNew hS hnn')
          (identifyFinalContacts_eq_match_noNew hv' hS hnn')

/-! ### Claim C3 -/

/-- Refinement: the code's new-secondary decision agrees with the
specification's wording — both fields supplied, no exact pair in the
closure, and at least one single-field match in the closure. -/
theorem shouldCreate_iff {l : List Contact} {e p : Option String} :
    shouldCreateNewContact l e p = true ↔
      (truthy e = true ∧ truthy p = true ∧
        (∀ c ∈ l, ¬(c.email = e ∧ c.phoneNumber = p)) ∧
        (∃ c ∈ l, c.email = e ∨ c.phoneNumber = p)) := by
  unfold shouldCreateNewContact
  by_cases ht : (truthy e && truthy p) = true
  · rw [if_pos ht]
    obtain ⟨h1, h2⟩ : truthy e = true ∧ truthy p = true := by simpa using ht
    by_cases hex : l.any (fun c =>
        decide (c.email = e) && decide (c.phoneNumber = p)) = true
    · rw [if_pos hex]
      constructor
      · intro hh
        exact absurd hh (by simp)
      · rintro ⟨_, _, hall, _⟩
        obtain ⟨c, hc, hcc⟩ := List.any_eq_true.mp hex
        simp only [Bool.and_eq_true, decide_eq_true_eq] at hcc
        exact absurd hcc (hall c hc)
    · rw [if_neg hex]
      constructor
      · intro hh
        refine ⟨h1, h2, ?_, ?_⟩
        · intro c hc hcc
          apply hex
          apply List.any_eq_true.mpr
          exact ⟨c, hc, by simp [hcc.1, hcc.2]⟩
        · rcases Bool.or_eq_true _ _ ▸ hh with h | h
          · obtain ⟨c, hc, hcc⟩ := List.any_eq_true.mp h
            exact ⟨c, hc, Or.inl (by simpa using hcc)⟩
          · obtain ⟨c, hc, hcc⟩ := List.any_eq_true.mp h
            exact ⟨c, hc, Or.inr (by simpa using hcc)⟩
      · rintro ⟨_, _, _, c, hc, hcc⟩
        rw [Bool.or_eq_true]
        rcases hcc with h | h
        · exact Or.inl (List.any_eq_true.mpr ⟨c, hc, by simp [h]⟩)
        · exact Or.inr (List.any_eq_true.mpr ⟨c, hc, by simp [h]⟩)
  · rw [if_neg ht]
    constructor
    · intro hh
      exact absurd hh (by simp)
    · rintro ⟨h1, h2, _, _⟩
      exact absurd (by rw [h1, h2]; rfl) ht

theorem demoteOne_length (o : Nat) (t : Store) (q : Contact) :
    (demoteOne o t q).contacts.length = t.contacts.length := by
  unfold demoteOne Store.updateLinks Store.bulkUpdateLinkedId
  simp

theorem foldl_demoteOne_length (o : Nat) (D : List Contact) :
    ∀ t : Store, (D.foldl (demoteOne o) t).contacts.length =
      t.contacts.length := by
  induction D with
  | nil => intro t; rfl
  | cons q D' ih =>
    intro t
    rw [List.foldl_cons, ih, demoteOne_length]

theorem mergePrimaryContacts_length (s : Store) (l : List Contact) :
    (mergePrimaryContacts s l).1.contacts.length = s.contacts.length := by
  unfold mergePrimaryContacts
  by_cases h : (l.filter (fun c =>
      c.linkPrecedence = LinkPrecedence.primary)).length ≤ 1
  · rw [if_pos h]
  · rw [if_neg h]
    cases hs : sortByCreatedAt (l.filter (fun c =>
        c.linkPrecedence = LinkPrecedence.primary)) with
    | nil => rfl
    | cons o rest =>
      simp only []
      exact foldl_demoteOne_length o.id rest s

/-- C3: on the matched path a new record is created exactly when both fields
are supplied, the exact pair is absent from the closure, and some closure
member matches one of the fields; with a single supplied field nothing is
ever created. -/
theorem identify_new_record_iff {s : Store} {e p : Option String}
    (hS : findMatchingContacts s e p ≠ []) :
    (identify s e p).2.contacts.length = s.contacts.length +
      (if truthy e = true ∧ truthy p = true ∧
          (∀ c ∈ getAllLinkedContacts s (findMatchingContacts s e p),
            ¬(c.email = e ∧ c.phoneNumber = p)) ∧
          (∃ c ∈ getAllLinkedContacts s (findMatchingContacts s e p),
            c.email = e ∨ c.phoneNumber = p)
        then 1 else 0) := by
  by_cases hnn : shouldCreateNewContact
      (getAllLinkedContacts s (findMatchingContacts s e p)) e p = true
  · obtain ⟨c0, t, hct⟩ := List.exists_cons_of_ne_nil
      (shouldCreate_true_ne_nil hnn)
    have hfp : findPrimaryContact
        (getAllLinkedContacts s (findMatchingContacts s e p)) =
        some (t.foldl findPrimaryStep c0) := by
      rw [hct]
      rfl
    rw [identify_eq_match_new hS hnn hfp]
    unfold identifyCore
    simp only []
    cases hb : buildResponse (getAllLinkedContacts _ _) <;>
      [skip; skip] <;>
      · rw [if_pos (shouldCreate_iff.mp hnn)]
        rw [mergePrimaryContacts_length]
        unfold Store.insert
        simp
  · have hnn' : shouldCreateNewContact
        (getAllLinkedContacts s (findMatchingContacts s e p)) e p =
        false := by
      rw [← Bool.not_eq_true]
      exact hnn
    rw [identify_eq_match_noNew hS hnn']
    unfold identifyCore
    simp only []
    have hiff : ¬(truthy e = true ∧ truthy p = true ∧
        (∀ c ∈ getAllLinkedContacts s (findMatchingContacts s e p),
          ¬(c.email = e ∧ c.phoneNumber = p)) ∧
        (∃ c ∈ getAllLinkedContacts s (findMatchingContacts s e p),
          c.email = e ∨ c.phoneNumber = p)) :=
      fun hc => hnn (shouldCreate_iff.mpr hc)
    cases hb : buildResponse (getAllLinkedContacts _ _) <;>
      · rw [if_neg hiff]
        rw [mergePrimaryContacts_length]
        simp

/-- Witness for C3: a store holding one primary, queried with a new email
and the stored phone, creating one secondary. -/
theorem identify_new_record_iff_witness :
    findMatchingContacts
        ⟨[⟨1, some "111", some "a@x", none, LinkPrecedence.primary, 0,
          none⟩], 2, 1, []⟩ (some "b@x") (some "111") ≠ [] ∧
      (identify ⟨[⟨1, some "111", some "a@x", none, LinkPrecedence.primary,
          0, none⟩], 2, 1, []⟩ (some "b@x")
          (some "111")).2.contacts.length = 1 +
        (if truthy (some "b@x") = true ∧ truthy (some "111") = true ∧
            (∀ c ∈ getAllLinkedContacts
              ⟨[⟨1, some "111", some "a@x", none, LinkPrecedence.primary, 0,
                none⟩], 2, 1, []⟩
              (findMatchingContacts
                ⟨[⟨1, some "111", some "a@x", none, LinkPrecedence.primary,
                  0, none⟩], 2, 1, []⟩ (some "b@x") (some "111")),
              ¬(c.email = some "b@x" ∧ c.phoneNumber = some "111")) ∧
            (∃ c ∈ getAllLinkedContacts
              ⟨[⟨1, some "111", some "a@x", none, LinkPrecedence.primary, 0,
                none⟩], 2, 1, []⟩
              (findMatchingContacts
                ⟨[⟨1, some "111", some "a@x", none, LinkPrecedence.primary,
                  0, none⟩], 2, 1, []⟩ (some "b@x") (some "111")),
              c.email = some "b@x" ∨ c.phoneNumber = some "111")
          then 1 else 0) := by
  refine ⟨by decide, ?_⟩
  exact identify_new_record_iff (by decide)

/-! ### Claim C9 -/

theorem foldl_demoteOne_log (o : Nat) (D : List Contact) :
    ∀ t : Store, (D.foldl (demoteOne o) t).log = t.log ++ demoteOps o D := by
  induction D with
  | nil => intro t; simp [demoteOps]
  | cons q D' ih =>
    intro t
    rw [List.foldl_cons, ih]
    unfold demoteOne Store.updateLinks Store.bulkUpdateLinkedId
    simp [demoteOps]

theorem mergePrimaryContacts_log (s : Store) (l : List Contact) :
    ∃ oid D, (mergePrimaryContacts s l).1.log = s.log ++ demoteOps oid D ∧
      D.length = (l.filter (fun c =>
        c.linkPrecedence = LinkPrecedence.primary)).length - 1 := by
  unfold mergePrimaryContacts
  by_cases h : (l.filter (fun c =>
      c.linkPrecedence = LinkPrecedence.primary)).length ≤ 1
  · rw [if_pos h]
    refine ⟨0, [], by simp [demoteOps], ?_⟩
    simp only [List.length_nil]
    omega
  · rw [if_neg h]
    cases hs : sortByCreatedAt (l.filter (fun c =>
        c.linkPrecedence = LinkPrecedence.primary)) with
    | nil =>
      exfalso
      have hlen := (sortByCreatedAt_perm (l.filter (fun c =>
        c.linkPrecedence = LinkPrecedence.primary))).length_eq
      rw [hs] at hlen
      simp only [List.length_nil] at hlen
      omega
    | cons o rest =>
      have hlen := (sortByCreatedAt_perm (l.filter (fun c =>
        c.linkPrecedence = LinkPrecedence.primary))).length_eq
      rw [hs] at hlen
      simp only [List.length_cons] at hlen
      refine ⟨o.id, rest, ?_, by omega⟩
      simp only []
      exact foldl_demoteOne_log o.id rest s

theorem identifyMergeInput_eq_validation {s : Store} {e p : Option String}
    (h1 : truthy e = false) (h2 : truthy p = false) :
    identifyMergeInput s e p = [] := by
  unfold identifyMergeInput
  rw [if_pos (by rw [h1, h2]; rfl)]

theorem identifyMergeInput_eq_noMatch {s : Store} {e p : Option String}
    (hv : truthy e = true ∨ truthy p = true)
    (hS : findMatchingContacts s e p = []) :
    identifyMergeInput s e p = [] := by
  simp only [identifyMergeInput, validCond_of hv, Bool.false_eq_true,
    if_false, hS, List.length_nil, if_pos]

/-- C9: one `identify` call performs at most one insert, and beyond that
exactly one demotion update with its dependent bulk re-point per extra
primary of the in-memory closure (`n − 1` of them when the closure holds
`n` primaries); the operation log records nothing else. -/
theorem identify_side_effects (s : Store) (e p : Option String) :
    ∃ ins oid D,
      (identify s e p).2.log = s.log ++ ins ++ demoteOps oid D ∧
      ins.length ≤ 1 ∧
      (∀ op ∈ ins, ∃ c, op = StoreOp.insert c) ∧
      D.length = ((identifyMergeInput s e p).filter (fun c =>
        c.linkPrecedence = LinkPrecedence.primary)).length - 1 := by
  by_cases hv : truthy e = false ∧ truthy p = false
  · rw [identify_eq_validation hv.1 hv.2,
      identifyMergeInput_eq_validation hv.1 hv.2]
    exact ⟨[], 0, [], by simp [demoteOps], by simp, by simp, by simp⟩
  · have hv' : truthy e = true ∨ truthy p = true := by
      by_cases h1 : truthy e = true
      · exact Or.inl h1
      · by_cases h2 : truthy p = true
        · exact Or.inr h2
        · exact absurd ⟨Bool.not_eq_true _ ▸ h1, Bool.not_eq_true _ ▸ h2⟩ hv
    by_cases hS : findMatchingContacts s e p = []
    · rw [identify_eq_noMatch hv' hS, identifyMergeInput_eq_noMatch hv' hS]
      refine ⟨[StoreOp.insert (createPrimaryContact s e p).1], 0, [],
        ?_, by simp, ?_, by simp⟩
      · unfold createPrimaryContact Store.insert
        simp [demoteOps]
      · intro op hop
        rw [List.mem_singleton.mp hop]
        exact ⟨_, rfl⟩
    · by_cases hnn : shouldCreateNewContact
          (getAllLinkedContacts s (findMatchingContacts s e p)) e p = true
      · obtain ⟨c0, t, hct⟩ := List.exists_cons_of_ne_nil
          (shouldCreate_true_ne_nil hnn)
        have hfp : findPrimaryContact
            (getAllLinkedContacts s (findMatchingContacts s e p)) =
            some (t.foldl findPrimaryStep c0) := by
          rw [hct]
          rfl
        rw [identify_eq_match_new hS hnn hfp,
          identifyMergeInput_eq_match_new hS hnn hfp]
        obtain ⟨oid, D, hlog, hDlen⟩ := mergePrimaryContacts_log
          (s.insert e p (some (t.foldl findPrimaryStep c0).id)
            LinkPrecedence.secondary).2
          (getAllLinkedContacts s (findMatchingContacts s e p) ++
            [(s.insert e p (some (t.foldl findPrimaryStep c0).id)
              LinkPrecedence.secondary).1])
        refine ⟨[StoreOp.insert
          (s.insert e p (some (t.foldl findPrimaryStep c0).id)
            LinkPrecedence.secondary).1], oid, D, ?_, by simp, ?_, hDlen⟩
        · unfold identifyCore
          simp only []
          cases hb : buildResponse (getAllLinkedContacts _ _) <;>
            · simp only []
              rw [hlog]
              unfold Store.insert
              simp
        · intro op hop
          rw [List.mem_singleton.mp hop]
          exact ⟨_, rfl⟩
      · have hnn' : shouldCreateNewContact
            (getAllLinkedContacts s (findMatchingContacts s e p)) e p =
            false := by
          rw [← Bool.not_eq_true]
          exact hnn
        rw [identify_eq_match_noNew hS hnn',
          identifyMergeInput_eq_match_noNew hS hnn']
        obtain ⟨oid, D, hlog, hDlen⟩ := mergePrimaryContacts_log s
          (getAllLinkedContacts s (findMatchingContacts s e p))
        refine ⟨[], oid, D, ?_, by simp, by simp, hDlen⟩
        unfold identifyCore
        simp only []
        cases hb : buildResponse (getAllLinkedContacts _ _) <;>
          · simp only []
            rw [hlog]
            simp

/-! ### Claim C10 -/

theorem foldl_buildStep_no_empty (secs : List Contact) :
    ∀ (acc : List String × List String × List Nat),
      ("" : String) ∉ acc.1 → ("" : String) ∉ acc.2.1 →
      ("" : String) ∉ (secs.foldl buildStep acc).1 ∧
        ("" : String) ∉ (secs.foldl buildStep acc).2.1 := by
  induction secs with
  | nil => exact fun _ h1 h2 => ⟨h1, h2⟩
  | cons c cs ih =>
    intro acc h1 h2
    rw [List.foldl_cons]
    apply ih
    · unfold buildStep
      cases c.email with
      | none => exact h1
      | some v =>
        by_cases hv : (!(v = "") && !(v ∈ acc.1)) = true
        · simp only [hv, if_true]
          intro hmem
          rcases List.mem_append.mp hmem with h | h
          · exact h1 h
          · have hv' : v ≠ "" := by
              intro hveq
              rw [hveq] at hv
              simp at hv
            exact hv' (List.mem_singleton.mp h).symm
        · simp only [hv]
          exact h1
    · unfold buildStep
      cases c.phoneNumber with
      | none => exact h2
      | some v =>
        by_cases hv : (!(v = "") && !(v ∈ acc.2.1)) = true
        · simp only [hv, if_true]
          intro hmem
          rcases List.mem_append.mp hmem with h | h
          · exact h2 h
          · have hv' : v ≠ "" := by
              intro hveq
              rw [hveq] at hv
              simp at hv
            exact hv' (List.mem_singleton.mp h).symm
        · simp only [hv]
          exact h2

theorem truthyVals_no_empty (v : Option String) :
    ("" : String) ∉ truthyVals v := by
  cases v with
  | none => simp [truthyVals]
  | some x =>
    by_cases hx : x = ""
    · subst hx
      simp [truthyVals]
    · have hone : truthyVals (some x) = [x] := by
        simp [truthyVals, hx]
      rw [hone, List.mem_singleton]
      intro hh
      exact hx hh.symm

theorem buildResponse_no_empty {l : List Contact} {r : IdentifyResponse}
    (h : buildResponse l = some r) :
    ("" : String) ∉ r.contact.emails ∧
      ("" : String) ∉ r.contact.phoneNumbers := by
  unfold buildResponse at h
  cases hf : l.find? (fun c =>
      c.linkPrecedence = LinkPrecedence.primary) with
  | none =>
    rw [hf] at h
    exact absurd h (by simp)
  | some pr =>
    rw [hf] at h
    have hr := Option.some.inj h
    have hfold := foldl_buildStep_no_empty
      (l.filter (fun c =>
        c.linkPrecedence = LinkPrecedence.secondary))
      (truthyVals pr.email, truthyVals pr.phoneNumber, [])
      (truthyVals_no_empty _) (truthyVals_no_empty _)
    rw [← hr]
    exact hfold

theorem identify_ok_response {s : Store} {e p : Option String}
    {r : IdentifyResponse} {s' : Store}
    (h : identify s e p = (Except.ok r, s')) :
    ∃ l, buildResponse l = some r := by
  by_cases hv : truthy e = false ∧ truthy p = false
  · rw [identify_eq_validation hv.1 hv.2] at h
    exact absurd (congrArg Prod.fst h) (by simp)
  · have hv' : truthy e = true ∨ truthy p = true := by
      by_cases h1 : truthy e = true
      · exact Or.inl h1
      · by_cases h2 : truthy p = true
        · exact Or.inr h2
        · exact absurd ⟨Bool.not_eq_true _ ▸ h1, Bool.not_eq_true _ ▸ h2⟩ hv
    by_cases hS : findMatchingContacts s e p = []
    · rw [identify_eq_noMatch hv' hS] at h
      have hr := Except.ok.inj (congrArg Prod.fst h)
      refine ⟨[(createPrimaryContact s e p).1], ?_⟩
      rw [buildResponse_singleton_primary (by rw [createPrimary_fst]), hr]
    · have hcore : ∀ s₁ mem1, identify s e p = identifyCore s₁ mem1 →
          ∃ l, buildResponse l = some r := by
        intro s₁ mem1 hid
        rw [hid] at h
        rw [identifyCore_eq] at h
        cases hb : buildResponse
            (getAllLinkedContacts (mergePrimaryContacts s₁ mem1).1
              (mergePrimaryContacts s₁ mem1).2) with
        | none =>
          rw [hb] at h
          exact absurd (congrArg Prod.fst h) (by simp)
        | some r' =>
          rw [hb] at h
          have : r' = r := Except.ok.inj (congrArg Prod.fst h)
          exact ⟨_, this ▸ hb⟩
      by_cases hnn : shouldCreateNewContact
          (getAllLinkedContacts s (findMatchingContacts s e p)) e p = true
      · obtain ⟨c0, t, hct⟩ := List.exists_cons_of_ne_nil
          (shouldCreate_true_ne_nil hnn)
        exact hcore _ _ (identify_eq_match_new hS hnn (by rw [hct]; rfl))
      · exact hcore _ _ (identify_eq_match_noNew hS
          (by rw [← Bool.not_eq_true]; exact hnn))

theorem matchesRequest_empty_phone (e : Option String) (c : Contact) :
    matchesRequest e (some "") c = matchesRequest e none c := by
  unfold matchesRequest truthy
  simp

theorem matchesRequest_empty_email (p : Option String) (c : Contact) :
    matchesRequest (some "") p c = matchesRequest none p c := by
  unfold matchesRequest truthy
  simp

theorem shouldCreate_empty_phone (l : List Contact) (e : Option String) :
    shouldCreateNewContact l e (some "") = false := by
  unfold shouldCreateNewContact
  rw [if_neg]
  simp [truthy]

theorem shouldCreate_empty_email (l : List Contact) (p : Option String) :
    shouldCreateNewContact l (some "") p = false := by
  unfold shouldCreateNewContact
  rw [if_neg]
  simp [truthy]

/-- C10: an empty-string field behaves exactly like an absent field — the
call is indistinguishable from the call with `none`, and the empty string
never appears in a successful response's email or phone lists. -/
theorem identify_empty_string_as_null :
    (∀ (s : Store) (es : String), es ≠ "" →
      identify s (some es) (some "") = identify s (some es) none) ∧
    (∀ (s : Store) (ps : String), ps ≠ "" →
      identify s (some "") (some ps) = identify s none (some ps)) ∧
    (∀ (s : Store) (e p : Option String) (r : IdentifyResponse) (s' : Store),
      identify s e p = (Except.ok r, s') →
      ("" : String) ∉ r.contact.emails ∧
        ("" : String) ∉ r.contact.phoneNumbers) := by
  refine ⟨?_, ?_, ?_⟩
  · intro s es hes
    have hte : truthy (some es) = true := by simp [truthy, hes]
    have hfm : findMatchingContacts s (some es) (some "") =
        findMatchingContacts s (some es) none := by
      unfold findMatchingContacts
      exact List.filter_congr
        (fun c _ => matchesRequest_empty_phone (some es) c)
    by_cases hS : findMatchingContacts s (some es) (some "") = []
    · have hS' : findMatchingContacts s (some es) none = [] := hfm ▸ hS
      rw [identify_eq_noMatch (Or.inl hte) hS,
        identify_eq_noMatch (Or.inl hte) hS']
      have hcp : createPrimaryContact s (some es) (some "") =
          createPrimaryContact s (some es) none := by
        unfold createPrimaryContact
        simp [truthy]
      rw [hcp]
    · have hS' : findMatchingContacts s (some es) none ≠ [] := hfm ▸ hS
      rw [identify_eq_match_noNew hS (shouldCreate_empty_phone _ _),
        identify_eq_match_noNew hS' (by
          unfold shouldCreateNewContact
          rw [if_neg]
          simp [truthy]),
        hfm]
  · intro s ps hps
    have htp : truthy (some ps) = true := by simp [truthy, hps]
    have hfm : findMatchingContacts s (some "") (some ps) =
        findMatchingContacts s none (some ps) := by
      unfold findMatchingContacts
      exact List.filter_congr
        (fun c _ => matchesRequest_empty_email (some ps) c)
    by_cases hS : findMatchingContacts s (some "") (some ps) = []
    · have hS' : findMatchingContacts s none (some ps) = [] := hfm ▸ hS
      rw [identify_eq_noMatch (Or.inr htp) hS,
        identify_eq_noMatch (Or.inr htp) hS']
      have hcp : createPrimaryContact s (some "") (some ps) =
          createPrimaryContact s none (some ps) := by
        unfold createPrimaryContact
        simp [truthy]
      rw [hcp]
    · have hS' : findMatchingContacts s none (some ps) ≠ [] := hfm ▸ hS
      rw [identify_eq_match_noNew hS (shouldCreate_empty_email _ _),
        identify_eq_match_noNew hS' (by
          unfold shouldCreateNewContact
          rw [if_neg]
          simp [truthy]),
        hfm]
  · intro s e p r s' h
    obtain ⟨l, hl⟩ := identify_ok_response h
    exact buildResponse_no_empty hl

/-! ### Claim C4 -/

/-- Push a value onto a first-appearance-deduplicated list: the
`!list.includes(v) && list.push(v)` idiom of `buildResponse`. -/
def pushNew (acc : List String) (v : String) : List String :=
  if v ∈ acc then acc else acc ++ [v]

/-- The truthy email values of a contact list, in list order. -/
def truthyEmails : List Contact → List String
  | [] => []
  | c :: cs => truthyVals c.email ++ truthyEmails cs

/-- The truthy phone values of a contact list, in list order. -/
def truthyPhones : List Contact → List String
  | [] => []
  | c :: cs => truthyVals c.phoneNumber ++ truthyPhones cs

theorem buildStep_eq (acc : List String × List String × List Nat)
    (c : Contact) :
    buildStep acc c =
      ((truthyVals c.email).foldl pushNew acc.1,
        (truthyVals c.phoneNumber).foldl pushNew acc.2.1,
        acc.2.2 ++ [c.id]) := by
  unfold buildStep truthyVals pushNew
  cases c.email with
  | none =>
    cases c.phoneNumber with
    | none => rfl
    | some p =>
      by_cases hp : p = ""
      · simp [hp]
      · by_cases hmem : p ∈ acc.2.1
        · simp [hp, hmem]
        · simp [hp, hmem]
  | some e =>
    cases c.phoneNumber with
    | none =>
      by_cases he : e = ""
      · simp [he]
      · by_cases hmem : e ∈ acc.1
        · simp [he, hmem]
        · simp [he, hmem]
    | some p =>
      by_cases he : e = ""
      · by_cases hp : p = ""
        · simp [he, hp]
        · by_cases hpm : p ∈ acc.2.1
          · simp [he, hp, hpm]
          · simp [he, hp, hpm]
      · by_cases hem : e ∈ acc.1
        · by_cases hp : p = ""
          · simp [he, hem, hp]
          · by_cases hpm : p ∈ acc.2.1
            · simp [he, hem, hp, hpm]
            · simp [he, hem, hp, hpm]
        · by_cases hp : p = ""
          · simp [he, hem, hp]
          · by_cases hpm : p ∈ acc.2.1
            · simp [he, hem, hp, hpm]
            · simp [he, hem, hp, hpm]

theorem foldl_buildStep_eq (secs : List Contact) :
    ∀ acc : List String × List String × List Nat,
      secs.foldl buildStep acc =
        ((truthyEmails secs).foldl pushNew acc.1,
          (truthyPhones secs).foldl pushNew acc.2.1,
          acc.2.2 ++ secs.map (fun c => c.id)) := by
  induction secs with
  | nil => intro acc; simp [truthyEmails, truthyPhones]
  | cons c cs ih =>
    intro acc
    rw [List.foldl_cons, ih (buildStep acc c), buildStep_eq]
    simp only [truthyEmails, truthyPhones, List.foldl_append, List.map_cons]
    rw [List.append_assoc]
    rfl

theorem truthyVals_foldl_pushNew_nil (v : Option String) :
    (truthyVals v).foldl pushNew [] = truthyVals v := by
  cases v with
  | none => rfl
  | some x =>
    by_cases hx : x = ""
    · subst hx
      simp [truthyVals]
    · have hone : truthyVals (some x) = [x] := by simp [truthyVals, hx]
      rw [hone]
      simp [pushNew]

theorem mem_pushNew {l : List String} {x v : String} :
    v ∈ pushNew l x ↔ v ∈ l ∨ v = x := by
  unfold pushNew
  by_cases hx : x ∈ l
  · rw [if_pos hx]
    constructor
    · exact Or.inl
    · rintro (h | h)
      · exact h
      · exact h ▸ hx
  · rw [if_neg hx]
    simp

theorem mem_foldl_pushNew (xs : List String) :
    ∀ (l : List String) (v : String),
      v ∈ xs.foldl pushNew l ↔ v ∈ l ∨ v ∈ xs := by
  induction xs with
  | nil => intro l v; simp
  | cons x xs ih =>
    intro l v
    rw [List.foldl_cons, ih]
    rw [mem_pushNew]
    simp [or_assoc]

theorem nodup_pushNew {l : List String} {x : String} (hl : l.Nodup) :
    (pushNew l x).Nodup := by
  unfold pushNew
  by_cases hx : x ∈ l
  · rw [if_pos hx]
    exact hl
  · rw [if_neg hx]
    refine List.nodup_append.mpr ⟨hl, List.nodup_singleton x, ?_⟩
    intro a ha hax
    rw [List.mem_singleton] at hax
    exact hx (hax ▸ ha)

theorem nodup_foldl_pushNew (xs : List String) :
    ∀ l : List String, l.Nodup → (xs.foldl pushNew l).Nodup := by
  induction xs with
  | nil => intro l hl; exact hl
  | cons x xs ih =>
    intro l hl
    rw [List.foldl_cons]
    exact ih _ (nodup_pushNew hl)

/-- `getAllLinkedContacts` always returns a `createdAt`-sorted list. -/
theorem getAllLinkedContacts_sorted (s : Store) (l : List Contact) :
    List.Sorted createdLE (getAllLinkedContacts s l) := by
  unfold getAllLinkedContacts
  by_cases h : l.length = 0
  · rw [if_pos h]
    exact List.sorted_nil
  · rw [if_neg h]
    exact sortByCreatedAt_sorted _

/-- What `buildResponse` returns on success, stated through `pushNew`
deduplication of the primary-first occurrence sequence. -/
theorem buildResponse_eq_some {l : List Contact} {r : IdentifyResponse}
    (h : buildResponse l = some r) :
    ∃ pr, l.find? (fun c =>
        c.linkPrecedence = LinkPrecedence.primary) = some pr ∧
      r.contact.primaryContatctId = pr.id ∧
      r.contact.emails =
        (truthyVals pr.email ++ truthyEmails (l.filter (fun c =>
          c.linkPrecedence = LinkPrecedence.secondary))).foldl pushNew [] ∧
      r.contact.phoneNumbers =
        (truthyVals pr.phoneNumber ++ truthyPhones (l.filter (fun c =>
          c.linkPrecedence = LinkPrecedence.secondary))).foldl pushNew [] ∧
      r.contact.secondaryContactIds =
        (l.filter (fun c =>
          c.linkPrecedence = LinkPrecedence.secondary)).map
          (fun c => c.id) := by
  unfold buildResponse at h
  cases hf : l.find? (fun c =>
      c.linkPrecedence = LinkPrecedence.primary) with
  | none =>
    rw [hf] at h
    exact absurd h (by simp)
  | some pr =>
    rw [hf] at h
    have hr := (Option.some.inj h).symm
    refine ⟨pr, rfl, ?_, ?_, ?_, ?_⟩ <;>
      rw [hr] <;>
      simp only [foldl_buildStep_eq, List.foldl_append,
        truthyVals_foldl_pushNew_nil, List.nil_append]

/-- On every successful path, the response is `buildResponse` of the final
closure, and that closure is `createdAt`-sorted. -/
theorem identify_ok_buildResponse {s : Store} {e p : Option String}
    {r : IdentifyResponse}
    (h : (identify s e p).1 = Except.ok r) :
    buildResponse (identifyFinalContacts s e p) = some r ∧
      List.Sorted createdLE (identifyFinalContacts s e p) := by
  by_cases hv : truthy e = false ∧ truthy p = false
  · rw [identify_eq_validation hv.1 hv.2] at h
    exact absurd h (by simp)
  · have hv' : truthy e = true ∨ truthy p = true := by
      by_cases h1 : truthy e = true
      · exact Or.inl h1
      · by_cases h2 : truthy p = true
        · exact Or.inr h2
        · exact absurd ⟨Bool.not_eq_true _ ▸ h1, Bool.not_eq_true _ ▸ h2⟩ hv
    by_cases hS : findMatchingContacts s e p = []
    · rw [identify_eq_noMatch hv' hS] at h
      have hr := Except.ok.inj h
      rw [identifyFinalContacts_eq_noMatch hv' hS]
      refine ⟨?_, List.sorted_singleton _⟩
      rw [buildResponse_singleton_primary (by rw [createPrimary_fst]), hr]
    · have hcore : ∀ s₁ mem1,
          identify s e p = identifyCore s₁ mem1 →
          identifyFinalContacts s e p =
            getAllLinkedContacts (mergePrimaryContacts s₁ mem1).1
              (mergePrimaryContacts s₁ mem1).2 →
          buildResponse (identifyFinalContacts s e p) = some r ∧
            List.Sorted createdLE (identifyFinalContacts s e p) := by
        intro s₁ mem1 hid hfc
        rw [hid] at h
        rw [identifyCore_eq] at h
        rw [hfc]
        refine ⟨?_, getAllLinkedContacts_sorted _ _⟩
        cases hb : buildResponse
            (getAllLinkedContacts (mergePrimaryContacts s₁ mem1).1
              (mergePrimaryContacts s₁ mem1).2) with
        | none =>
          rw [hb] at h
          exact absurd h (by simp)
        | some r' =>
          rw [hb] at h
          have h' : (Except.ok r' : Except IdentifyError IdentifyResponse) =
              Except.ok r := h
          rw [Except.ok.inj h']
      by_cases hnn : shouldCreateNewContact
          (getAllLinkedContacts s (findMatchingContacts s e p)) e p = true
      · obtain ⟨c0, t, hct⟩ := List.exists_cons_of_ne_nil
          (shouldCreate_true_ne_nil hnn)
        have hfp : findPrimaryContact
            (getAllLinkedContacts s (findMatchingContacts s e p)) =
            some (t.foldl findPrimaryStep c0) := by
          rw [hct]; rfl
        exact hcore _ _ (identify_eq_match_new hS hnn hfp)
          (identifyFinalContacts_eq_match_new hv' hS hnn hfp)
      · have hnn' : shouldCreateNewContact
            (getAllLinkedContacts s (findMatchingContacts s e p)) e p =
            false := by
          rw [← Bool.not_eq_true]; exact hnn
        exact hcore _ _ (identify_eq_match_noNew hS hnn')
          (identifyFinalContacts_eq_match_noNew hv' hS hnn')

/-- C4 (amended): for every successful `identify` call the response projects
the final closure as follows — `primaryContatctId` is the id of the first
primary of the (createdAt-sorted) closure; `emails`/`phoneNumbers` are the
first-appearance deduplication of the primary's truthy value followed by the
secondaries' truthy values in closure order (so truthiness, not mere
non-nullness, decides inclusion: `""` and `null` are both dropped), hence
duplicate-free with the primary's values first; `secondaryContactIds` lists
exactly the ids of the secondary-precedence contacts of the closure, in
closure order. -/
theorem identify_response_projection {s : Store} {e p : Option String}
    {r : IdentifyResponse}
    (h : (identify s e p).1 = Except.ok r) :
    ∃ pr, (identifyFinalContacts s e p).find? (fun c =>
        c.linkPrecedence = LinkPrecedence.primary) = some pr ∧
      r.contact.primaryContatctId = pr.id ∧
      r.contact.emails =
        (truthyVals pr.email ++
          truthyEmails ((identifyFinalContacts s e p).filter (fun c =>
            c.linkPrecedence = LinkPrecedence.secondary))).foldl pushNew [] ∧
      r.contact.phoneNumbers =
        (truthyVals pr.phoneNumber ++
          truthyPhones ((identifyFinalContacts s e p).filter (fun c =>
            c.linkPrecedence = LinkPrecedence.secondary))).foldl pushNew [] ∧
      r.contact.secondaryContactIds =
        ((identifyFinalContacts s e p).filter (fun c =>
          c.linkPrecedence = LinkPrecedence.secondary)).map (fun c => c.id) ∧
      r.contact.emails.Nodup ∧
      r.contact.phoneNumbers.Nodup ∧
      (∀ v, v ∈ r.contact.emails ↔
        v ∈ truthyVals pr.email ∨
          v ∈ truthyEmails ((identifyFinalContacts s e p).filter (fun c =>
            c.linkPrecedence = LinkPrecedence.secondary))) ∧
      (∀ v, v ∈ r.contact.phoneNumbers ↔
        v ∈ truthyVals pr.phoneNumber ∨
          v ∈ truthyPhones ((identifyFinalContacts s e p).filter (fun c =>
            c.linkPrecedence = LinkPrecedence.secondary))) ∧
      List.Sorted createdLE (identifyFinalContacts s e p) := by
  obtain ⟨hb, hsorted⟩ := identify_ok_buildResponse h
  obtain ⟨pr, hfind, hid, hem, hph, hsec⟩ := buildResponse_eq_some hb
  refine ⟨pr, hfind, hid, hem, hph, hsec, ?_, ?_, ?_, ?_, hsorted⟩
  · rw [hem]
    exact nodup_foldl_pushNew _ _ List.nodup_nil
  · rw [hph]
    exact nodup_foldl_pushNew _ _ List.nodup_nil
  · intro v
    rw [hem, mem_foldl_pushNew]
    simp [List.mem_append]
  · intro v
    rw [hph, mem_foldl_pushNew]
    simp [List.mem_append]

/-- Store with a single primary whose email is the non-null empty string. -/
def cxC4 : Store :=
  ⟨[⟨1, some "77", some "", none, LinkPrecedence.primary, 0, none⟩], 2, 1, []⟩

/-- C4 counterexample to the original claim: the surviving primary's email
is `some ""` — non-null — yet the response's `emails` list is empty, because
`buildResponse` tests truthiness (`if (primary.email)`), not null-ness. -/
theorem identify_response_projection_counterexample :
    (identify cxC4 none (some "77")).1 =
      Except.ok ⟨⟨1, [], ["77"], []⟩⟩ ∧
    (identifyFinalContacts cxC4 none (some "77")).map (fun c => c.email) =
      [some ""] ∧
    (identifyFinalContacts cxC4 none (some "77")).map
      (fun c => c.linkPrecedence) = [LinkPrecedence.primary] := by
  decide

/-- Fresh empty store for the C4 witness. -/
def w4Store : Store := ⟨[], 1, 5, []⟩

theorem identify_response_projection_witness :
    ∃ pr, (identifyFinalContacts w4Store (some "w@x") (some "123")).find?
        (fun c => c.linkPrecedence = LinkPrecedence.primary) = some pr ∧
      (⟨⟨1, ["w@x"], ["123"], []⟩⟩ : IdentifyResponse).contact.primaryContatctId =
        pr.id ∧
      (⟨⟨1, ["w@x"], ["123"], []⟩⟩ : IdentifyResponse).contact.emails =
        (truthyVals pr.email ++
          truthyEmails ((identifyFinalContacts w4Store (some "w@x")
            (some "123")).filter (fun c =>
            c.linkPrecedence = LinkPrecedence.secondary))).foldl pushNew [] ∧
      (⟨⟨1, ["w@x"], ["123"], []⟩⟩ : IdentifyResponse).contact.phoneNumbers =
        (truthyVals pr.phoneNumber ++
          truthyPhones ((identifyFinalContacts w4Store (some "w@x")
            (some "123")).filter (fun c =>
            c.linkPrecedence = LinkPrecedence.secondary))).foldl pushNew [] ∧
      (⟨⟨1, ["w@x"], ["123"], []⟩⟩ :
          IdentifyResponse).contact.secondaryContactIds =
        ((identifyFinalContacts w4Store (some "w@x") (some "123")).filter
          (fun c => c.linkPrecedence = LinkPrecedence.secondary)).map
          (fun c => c.id) ∧
      (⟨⟨1, ["w@x"], ["123"], []⟩⟩ : IdentifyResponse).contact.emails.Nodup ∧
      (⟨⟨1, ["w@x"], ["123"], []⟩⟩ :
          IdentifyResponse).contact.phoneNumbers.Nodup ∧
      (∀ v, v ∈ (⟨⟨1, ["w@x"], ["123"], []⟩⟩ :
          IdentifyResponse).contact.emails ↔
        v ∈ truthyVals pr.email ∨
          v ∈ truthyEmails ((identifyFinalContacts w4Store (some "w@x")
            (some "123")).filter (fun c =>
            c.linkPrecedence = LinkPrecedence.secondary))) ∧
      (∀ v, v ∈ (⟨⟨1, ["w@x"], ["123"], []⟩⟩ :
          IdentifyResponse).contact.phoneNumbers ↔
        v ∈ truthyVals pr.phoneNumber ∨
          v ∈ truthyPhones ((identifyFinalContacts w4Store (some "w@x")
            (some "123")).filter (fun c =>
            c.linkPrecedence = LinkPrecedence.secondary))) ∧
      List.Sorted createdLE
        (identifyFinalContacts w4Store (some "w@x") (some "123")) :=
  identify_response_projection (by decide)

/-! ### Claim C2 -/

/-- The store `identifyCore` commits is the merged store, whatever
`buildResponse` then returns. -/
theorem identifyCore_snd (t : Store) (l : List Contact) :
    (identifyCore t l).2 = (mergePrimaryContacts t l).1 := by
  rw [identifyCore_eq]
  cases buildResponse (getAllLinkedContacts (mergePrimaryContacts t l).1
      (mergePrimaryContacts t l).2) with
  | none => rfl
  | some r => rfl

/-- C2: when the merge input holds more than one primary, the earliest-created
primary survives untouched, every other primary's row is demoted to secondary
with `linkedId` re-pointed to the survivor, every non-deleted dependent of a
demoted primary is re-pointed to the survivor, and the whole store is mapped
through exactly this row transformation; moreover `identify` commits the
merged store on the matched path whether or not it created a new secondary in
the same invocation. -/
theorem merge_step_semantics :
    (∀ (s : Store) (contacts : List Contact),
      (idsOf s.contacts).Nodup →
      (∀ c ∈ contacts, c ∈ s.contacts) →
      (idsOf contacts).Nodup →
      (∀ c ∈ contacts, c.linkPrecedence = LinkPrecedence.primary →
        c.linkedId = none) →
      1 < (contacts.filter (fun c =>
        c.linkPrecedence = LinkPrecedence.primary)).length →
      ∃ oldest rest,
        sortByCreatedAt (contacts.filter (fun c =>
          c.linkPrecedence = LinkPrecedence.primary)) = oldest :: rest ∧
        oldest ∈ contacts ∧
        oldest.linkPrecedence = LinkPrecedence.primary ∧
        (∀ q ∈ contacts, q.linkPrecedence = LinkPrecedence.primary →
          oldest.createdAt ≤ q.createdAt) ∧
        (mergePrimaryContacts s contacts).1.contacts =
          s.contacts.map (mergeRow oldest.id (idsOf rest)) ∧
        mergeRow oldest.id (idsOf rest) oldest = oldest ∧
        (∀ q ∈ contacts, q.linkPrecedence = LinkPrecedence.primary →
          q ≠ oldest →
          mergeRow oldest.id (idsOf rest) q =
            { q with
              linkedId := some oldest.id,
              linkPrecedence := LinkPrecedence.secondary }) ∧
        (∀ c : Contact, c.id ∉ idsOf (oldest :: rest) → c.deletedAt = none →
          (∃ d ∈ rest, c.linkedId = some d.id) →
          mergeRow oldest.id (idsOf rest) c =
            { c with linkedId := some oldest.id })) ∧
    (∀ (s : Store) (e p : Option String) (pr : Contact),
      findMatchingContacts s e p ≠ [] →
      ((shouldCreateNewContact
          (getAllLinkedContacts s (findMatchingContacts s e p)) e p = true →
        findPrimaryContact
          (getAllLinkedContacts s (findMatchingContacts s e p)) = some pr →
        (identify s e p).2 =
          (mergePrimaryContacts
            (s.insert e p (some pr.id) LinkPrecedence.secondary).2
            (identifyMergeInput s e p)).1) ∧
       (shouldCreateNewContact
          (getAllLinkedContacts s (findMatchingContacts s e p)) e p = false →
        (identify s e p).2 =
          (mergePrimaryContacts s (identifyMergeInput s e p)).1))) := by
  constructor
  · intro s contacts hstore hcsub hcnodup hprimnone hlen
    cases hsorted : sortByCreatedAt (contacts.filter (fun c =>
        c.linkPrecedence = LinkPrecedence.primary)) with
    | nil =>
      exfalso
      have := (sortByCreatedAt_perm (contacts.filter (fun c =>
        c.linkPrecedence = LinkPrecedence.primary))).length_eq
      rw [hsorted] at this
      simp only [List.length_nil] at this
      omega
    | cons oldest rest =>
      have hperm : (oldest :: rest).Perm (contacts.filter (fun c =>
          c.linkPrecedence = LinkPrecedence.primary)) :=
        hsorted ▸ sortByCreatedAt_perm _
      have holdest_filter : oldest ∈ contacts.filter (fun c =>
          c.linkPrecedence = LinkPrecedence.primary) :=
        hperm.mem_iff.mp (List.mem_cons_self _ _)
      have holdest_mem : oldest ∈ contacts := List.mem_of_mem_filter holdest_filter
      have holdest_prim : oldest.linkPrecedence = LinkPrecedence.primary :=
        of_decide_eq_true (List.mem_filter.mp holdest_filter).2
      have hprims_nodup : (idsOf (contacts.filter (fun c =>
          c.linkPrecedence = LinkPrecedence.primary))).Nodup :=
        List.Nodup.sublist (List.Sublist.map _ (List.filter_sublist _)) hcnodup
      have hnodup_sorted : (idsOf (oldest :: rest)).Nodup :=
        (List.Perm.nodup_iff (List.Perm.map _ hperm)).mpr hprims_nodup
      have hono : oldest.id ∉ idsOf rest := (List.nodup_cons.mp hnodup_sorted).1
      have hsortedS : List.Sorted createdLE (oldest :: rest) :=
        hsorted ▸ sortByCreatedAt_sorted _
      refine ⟨oldest, rest, rfl, holdest_mem, holdest_prim, ?_, ?_, ?_, ?_, ?_⟩
      · intro q hq hqp
        have hq_filter : q ∈ contacts.filter (fun c =>
            c.linkPrecedence = LinkPrecedence.primary) :=
          List.mem_filter.mpr ⟨hq, by simp [hqp]⟩
        exact sorted_head_min hsortedS q (hperm.mem_iff.mpr hq_filter)
      · rw [mergePrimaryContacts_eq hsorted hstore hcnodup hcsub hprimnone hlen]
      · exact mergeRow_skip hono (by
          rintro ⟨_, d, _, hd⟩
          rw [hprimnone oldest holdest_mem holdest_prim] at hd
          exact Option.noConfusion hd)
      · intro q hq hqp hqo
        have hq_filter : q ∈ contacts.filter (fun c =>
            c.linkPrecedence = LinkPrecedence.primary) :=
          List.mem_filter.mpr ⟨hq, by simp [hqp]⟩
        have hq_cons : q ∈ oldest :: rest := hperm.mem_iff.mpr hq_filter
        have hq_rest : q ∈ rest := by
          rcases List.mem_cons.mp hq_cons with h | h
          · exact absurd h hqo
          · exact h
        exact mergeRow_demoted (List.mem_map.mpr ⟨q, hq_rest, rfl⟩)
      · intro c hcid hcdel ⟨d, hd, hld⟩
        have hnotin : c.id ∉ idsOf rest := by
          intro h
          exact hcid (by
            unfold idsOf at h ⊢
            rw [List.map_cons]
            exact List.mem_cons_of_mem _ h)
        exact mergeRow_repoint hnotin
          ⟨hcdel, d.id, List.mem_map.mpr ⟨d, hd, rfl⟩, hld⟩
  · intro s e p pr hS
    constructor
    · intro hnn hfp
      rw [identify_eq_match_new hS hnn hfp, identifyCore_snd,
        identifyMergeInput_eq_match_new hS hnn hfp]
    · intro hnn
      rw [identify_eq_match_noNew hS hnn, identifyCore_snd,
        identifyMergeInput_eq_match_noNew hS hnn]

/-! ### Claim C8 -/

theorem getLast?_cons_eq {α : Type} (a : α) (l : List α) :
    (a :: l).getLast? = some (l.getLastD a) := by
  induction l generalizing a with
  | nil => rfl
  | cons b l ih =>
    rw [List.getLast?_cons_cons, ih, List.getLastD_cons]

/-- Two live primaries tying on `createdAt`; the tie-break picks the later
one in closure order (id 2), not the lowest id. -/
def s8C8 : Store :=
  ⟨[⟨1, none, some "a", none, LinkPrecedence.primary, 10, none⟩,
    ⟨2, some "5", none, none, LinkPrecedence.primary, 10, none⟩], 3, 11, []⟩

/-- C8 counterexample to the original claim: the closure holds two primaries
with equal `createdAt` 10 and ids 1 and 2; the inserted secondary's
`linkedId` is 2 — the reduce keeps the last tied primary, not the lowest
id. -/
theorem identify_new_secondary_anchor_counterexample :
    (identify s8C8 (some "a") (some "5")).2.log =
      [StoreOp.insert ⟨3, some "5", some "a", some 2,
          LinkPrecedence.secondary, 11, none⟩,
       StoreOp.update 2 (some 1) LinkPrecedence.secondary,
       StoreOp.bulkUpdateLinkedId 2 1] ∧
    (getAllLinkedContacts s8C8 (findMatchingContacts s8C8 (some "a")
        (some "5"))).map (fun c => (c.id, c.createdAt, c.linkPrecedence)) =
      [(1, 10, LinkPrecedence.primary), (2, 10, LinkPrecedence.primary)] := by
  decide

/-- C8 (amended): whenever `identify` inserts a new secondary, its `linkedId`
is the id of a primary of the pre-merge closure with the earliest `createdAt`
among the closure's primaries; with ties on `createdAt`, it is the LAST such
minimal primary in closure (createdAt-sorted, stable) order — not the lowest
id. -/
theorem identify_new_secondary_anchor {s : Store} {e p : Option String}
    (hwf : StoreWf s) (hinv : DataInv s)
    (hS : findMatchingContacts s e p ≠ [])
    (hnn : shouldCreateNewContact
      (getAllLinkedContacts s (findMatchingContacts s e p)) e p = true) :
    ∃ pr ops,
      findPrimaryContact
        (getAllLinkedContacts s (findMatchingContacts s e p)) = some pr ∧
      (identify s e p).2.log = s.log ++
        StoreOp.insert ⟨s.nextId, p, e, some pr.id, LinkPrecedence.secondary,
          s.now, none⟩ :: ops ∧
      pr ∈ getAllLinkedContacts s (findMatchingContacts s e p) ∧
      pr.linkPrecedence = LinkPrecedence.primary ∧
      (∀ q ∈ getAllLinkedContacts s (findMatchingContacts s e p),
        q.linkPrecedence = LinkPrecedence.primary →
          pr.createdAt ≤ q.createdAt) ∧
      ((getAllLinkedContacts s (findMatchingContacts s e p)).filter (fun c =>
        c.linkPrecedence = LinkPrecedence.primary ∧
        c.createdAt = pr.createdAt)).getLast? = some pr := by
  have hC : getAllLinkedContacts s (findMatchingContacts s e p) ≠ [] :=
    shouldCreate_true_ne_nil hnn
  obtain ⟨pr, hfp, hmem, hprim, hmin⟩ := findPrimaryContact_spec hwf hinv hS hC
  obtain ⟨oid, D, hmlog, _⟩ := mergePrimaryContacts_log
    (s.insert e p (some pr.id) LinkPrecedence.secondary).2
    (getAllLinkedContacts s (findMatchingContacts s e p) ++
      [(s.insert e p (some pr.id) LinkPrecedence.secondary).1])
  have hops : (identify s e p).2.log = s.log ++
      StoreOp.insert ⟨s.nextId, p, e, some pr.id, LinkPrecedence.secondary,
        s.now, none⟩ :: demoteOps oid D := by
    rw [identify_eq_match_new hS hnn hfp, identifyCore_snd, hmlog]
    rw [show (s.insert e p (some pr.id) LinkPrecedence.secondary).2.log =
        s.log ++ [StoreOp.insert ⟨s.nextId, p, e, some pr.id,
          LinkPrecedence.secondary, s.now, none⟩] from rfl]
    rw [List.append_assoc, List.singleton_append]
  obtain ⟨c0, t, hct⟩ := List.exists_cons_of_ne_nil hC
  have hsorted : List.Sorted createdLE (c0 :: t) := hct ▸ C_sorted
  have hmint : ∀ x ∈ t, c0.createdAt ≤ x.createdAt :=
    fun x hx => sorted_head_min hsorted x (List.mem_cons_of_mem _ hx)
  have hfold := foldl_findPrimaryStep hmint
  have hpr_eq : pr = t.foldl findPrimaryStep c0 := by
    have hfp' : findPrimaryContact
        (getAllLinkedContacts s (findMatchingContacts s e p)) =
        some (t.foldl findPrimaryStep c0) := by
      rw [hct]
      rfl
    exact Option.some.inj (hfp.symm.trans hfp')
  have hpr2 : pr = (t.filter (fun c =>
      c.linkPrecedence = LinkPrecedence.primary ∧
      c.createdAt = c0.createdAt)).getLastD c0 := hpr_eq.trans hfold
  have hpr_mem2 : pr ∈ c0 :: t.filter (fun c =>
      c.linkPrecedence = LinkPrecedence.primary ∧
      c.createdAt = c0.createdAt) := hpr2 ▸ getLastD_mem_cons _ _
  have hpc : pr.createdAt = c0.createdAt := by
    rcases List.mem_cons.mp hpr_mem2 with h | h
    · rw [h]
    · exact (of_decide_eq_true (List.mem_filter.mp h).2).2
  have hlast : ((getAllLinkedContacts s
      (findMatchingContacts s e p)).filter (fun c =>
        c.linkPrecedence = LinkPrecedence.primary ∧
        c.createdAt = pr.createdAt)).getLast? = some pr := by
    rw [hpc, hct]
    by_cases hc0p : c0.linkPrecedence = LinkPrecedence.primary
    · rw [List.filter_cons_of_pos (by simp [hc0p]), getLast?_cons_eq]
      exact congrArg some hpr2.symm
    · rw [List.filter_cons_of_neg (by simp [hc0p])]
      cases htf : t.filter (fun c =>
          c.linkPrecedence = LinkPrecedence.primary ∧
          c.createdAt = c0.createdAt) with
      | nil =>
        exfalso
        have hpc0 : pr = c0 := by
          rw [hpr2, htf]
          rfl
        exact hc0p (hpc0 ▸ hprim)
      | cons x xs =>
        rw [getLast?_cons_eq]
        have hx : (t.filter (fun c =>
            c.linkPrecedence = LinkPrecedence.primary ∧
            c.createdAt = c0.createdAt)).getLastD c0 = xs.getLastD x := by
          rw [htf, List.getLastD_cons]
        exact congrArg some (hx ▸ hpr2).symm
  exact ⟨pr, demoteOps oid D, hfp, hops, hmem, hprim, hmin, hlast⟩

/-- Single-primary store for the C8 witness. -/
def wit8Store : Store :=
  ⟨[⟨1, some "222", some "q@y", none, LinkPrecedence.primary, 3, none⟩],
    2, 4, []⟩

theorem identify_new_secondary_anchor_witness :
    ∃ pr ops,
      findPrimaryContact
        (getAllLinkedContacts wit8Store
          (findMatchingContacts wit8Store (some "r@y") (some "222"))) =
        some pr ∧
      (identify wit8Store (some "r@y") (some "222")).2.log =
        wit8Store.log ++
        StoreOp.insert ⟨wit8Store.nextId, some "222", some "r@y",
          some pr.id, LinkPrecedence.secondary, wit8Store.now, none⟩ :: ops ∧
      pr ∈ getAllLinkedContacts wit8Store
        (findMatchingContacts wit8Store (some "r@y") (some "222")) ∧
      pr.linkPrecedence = LinkPrecedence.primary ∧
      (∀ q ∈ getAllLinkedContacts wit8Store
          (findMatchingContacts wit8Store (some "r@y") (some "222")),
        q.linkPrecedence = LinkPrecedence.primary →
          pr.createdAt ≤ q.createdAt) ∧
      ((getAllLinkedContacts wit8Store
        (findMatchingContacts wit8Store (some "r@y")
          (some "222"))).filter (fun c =>
        c.linkPrecedence = LinkPrecedence.primary ∧
        c.createdAt = pr.createdAt)).getLast? = some pr := by
  have hwf : StoreWf wit8Store :=
    ⟨by decide, by decide, by decide, by decide, by decide⟩
  have hinv : DataInv wit8Store := by
    constructor
    · intro c hc _
      simp [Store.live, wit8Store] at hc
      subst hc
      rfl
    · intro c hc hsec
      simp [Store.live, wit8Store] at hc
      subst hc
      exact absurd hsec (by decide)
    · intro c hc d hd _
      simp [Store.live, wit8Store] at hc
      simp [Store.live, wit8Store] at hd
      subst hc
      subst hd
      rfl
    · intro c hc q hq _ hlink
      simp [Store.live, wit8Store] at hc
      subst hc
      exact Option.noConfusion hlink
  exact identify_new_secondary_anchor hwf hinv (by decide) (by decide)

/-! ### Claim C5 -/

theorem groupList_mem {t : Store} {oid : Nat} {c : Contact} :
    c ∈ groupList t oid ↔
      c ∈ t.live ∧ (c.id = oid ∨ c.linkedId = some oid) := by
  unfold groupList
  rw [mem_sortByCreatedAt, List.mem_filter]
  simp [groupFilter]

theorem filter_closure_eq_group {t : Store} {O : Contact} (A : List Nat)
    (hA : ∀ a, a ∈ A ↔ a = O.id) :
    t.live.filter (closureFilter A) = t.live.filter (groupFilter O.id) := by
  apply List.filter_congr
  intro c _
  apply bool_eq_of_iff
  rw [closureFilter_iff]
  simp only [groupFilter, Bool.or_eq_true, decide_eq_true_eq]
  constructor
  · rintro (h | ⟨l, hl, hlA⟩)
    · exact Or.inl ((hA _).mp h)
    · right
      rw [hl, (hA _).mp hlA]
  · rintro (h | h)
    · exact Or.inl ((hA _).mpr h)
    · exact Or.inr ⟨O.id, h, (hA _).mpr rfl⟩

/-- A call on a store whose matching group is already consolidated around the
primary `O` succeeds, returns the projection of `O`'s group, and leaves the
store bit-for-bit unchanged. -/
theorem settled_call {t : Store} {e p : Option String} {O : Contact}
    (hwf : StoreWf t) (hinv : DataInv t)
    (hte : truthy e = true) (htp : truthy p = true)
    (hO : O ∈ t.live) (hOp : O.linkPrecedence = LinkPrecedence.primary)
    (hall : ∀ y ∈ t.live, matchesRequest e p y = true → pidOf y = some O.id)
    (hex : ∃ x ∈ t.live, x.email = e ∧ x.phoneNumber = p) :
    ∃ r, identify t e p = (Except.ok r, t) ∧
      buildResponse (groupList t O.id) = some r := by
  obtain ⟨x, hx, hxe, hxp⟩ := hex
  have hxm : matchesRequest e p x = true :=
    matchesRequest_iff.mpr (Or.inl ⟨hte, hxe⟩)
  have hxS : x ∈ findMatchingContacts t e p :=
    mem_findMatchingContacts.mpr ⟨hx, hxm⟩
  have hS : findMatchingContacts t e p ≠ [] := List.ne_nil_of_mem hxS
  have hOC : O ∈ groupList t O.id :=
    groupList_mem.mpr ⟨hO, Or.inl rfl⟩
  have hSanchor : ∀ a, a ∈ anchorIds (findMatchingContacts t e p) ↔
      a = O.id := by
    intro a
    rw [mem_anchorIds]
    constructor
    · rintro ⟨c, hcS, hca⟩
      have hcl := S_live hcS
      rw [anchorOf_eq_pidOf hwf hinv hcl,
        hall c hcl (mem_findMatchingContacts.mp hcS).2] at hca
      exact (Option.some.inj hca).symm
    · rintro rfl
      refine ⟨x, hxS, ?_⟩
      rw [anchorOf_eq_pidOf hwf hinv (S_live hxS)]
      exact hall x (S_live hxS) hxm
  have hCgroup : getAllLinkedContacts t (findMatchingContacts t e p) =
      groupList t O.id := by
    unfold getAllLinkedContacts
    rw [if_neg (by simpa [List.length_eq_zero] using hS),
      filter_closure_eq_group _ hSanchor]
    rfl
  have hxCg : x ∈ groupList t O.id := by
    refine groupList_mem.mpr ⟨hx, ?_⟩
    rcases precedence_cases x with hp | hp
    · left
      have hpid := hall x hx hxm
      rw [pidOf_primary hp] at hpid
      exact Option.some.inj hpid
    · right
      have hpid := hall x hx hxm
      rw [pidOf_secondary hp] at hpid
      exact hpid
  have hnn : shouldCreateNewContact
      (getAllLinkedContacts t (findMatchingContacts t e p)) e p = false := by
    rw [hCgroup]
    unfold shouldCreateNewContact
    rw [if_pos (show (truthy e && truthy p) = true by rw [hte, htp]; rfl)]
    rw [if_pos (List.any_eq_true.mpr ⟨x, hxCg, by rw [hxe, hxp]; simp⟩)]
  have hprims : ∀ c ∈ groupList t O.id,
      c.linkPrecedence = LinkPrecedence.primary → c = O := by
    intro c hc hcp
    obtain ⟨hcl, hgf⟩ := groupList_mem.mp hc
    rcases hgf with h | h
    · exact id_inj hwf (live_subset hcl) (live_subset hO) h
    · rw [hinv.primaryNoLink c hcl hcp] at h
      exact Option.noConfusion h
  have hnd : (idsOf (groupList t O.id)).Nodup := by
    unfold groupList idsOf
    refine (List.Perm.nodup_iff (List.Perm.map Contact.id
      (sortByCreatedAt_perm _))).mpr ?_
    exact List.Nodup.sublist (List.Sublist.map _ (List.filter_sublist _))
      (live_ids_nodup hwf)
  have hfil_le : ((groupList t O.id).filter (fun c =>
      c.linkPrecedence = LinkPrecedence.primary)).length ≤ 1 := by
    cases hf : (groupList t O.id).filter (fun c =>
        c.linkPrecedence = LinkPrecedence.primary) with
    | nil => simp
    | cons a tl =>
      cases tl with
      | nil => simp
      | cons b tl2 =>
        exfalso
        have hndf : (idsOf ((groupList t O.id).filter (fun c =>
            c.linkPrecedence = LinkPrecedence.primary))).Nodup :=
          List.Nodup.sublist (List.Sublist.map _ (List.filter_sublist _)) hnd
        rw [hf] at hndf
        unfold idsOf at hndf
        rw [List.map_cons] at hndf
        have ha : a ∈ (groupList t O.id).filter (fun c =>
            c.linkPrecedence = LinkPrecedence.primary) := by
          rw [hf]
          exact List.mem_cons_self _ _
        have hb : b ∈ (groupList t O.id).filter (fun c =>
            c.linkPrecedence = LinkPrecedence.primary) := by
          rw [hf]
          exact List.mem_cons_of_mem _ (List.mem_cons_self _ _)
        have haO : a = O := hprims a (List.mem_of_mem_filter ha)
          (of_decide_eq_true (List.mem_filter.mp ha).2)
        have hbO : b = O := hprims b (List.mem_of_mem_filter hb)
          (of_decide_eq_true (List.mem_filter.mp hb).2)
        have hanot := (List.nodup_cons.mp hndf).1
        exact hanot (by
          rw [List.map_cons]
          exact (show a.id = b.id by rw [haO, hbO]) ▸
            List.mem_cons_self _ _)
  have hmerge : mergePrimaryContacts t (groupList t O.id) =
      (t, groupList t O.id) := mergePrimaryContacts_le_one hfil_le
  have hpid_group : ∀ c ∈ groupList t O.id, pidOf c = some O.id := by
    intro c hc
    obtain ⟨hcl, hgf⟩ := groupList_mem.mp hc
    rcases precedence_cases c with hp | hp
    · rcases hgf with h | h
      · rw [pidOf_primary hp, h]
      · rw [hinv.primaryNoLink c hcl hp] at h
        exact Option.noConfusion h
    · rcases hgf with h | h
      · exfalso
        have hcO : c = O := id_inj hwf (live_subset hcl) (live_subset hO) h
        rw [hcO, hOp] at hp
        exact LinkPrecedence.noConfusion hp
      · rw [pidOf_secondary hp, h]
  have hGanchor : ∀ a, a ∈ anchorIds (groupList t O.id) ↔ a = O.id := by
    intro a
    rw [mem_anchorIds]
    constructor
    · rintro ⟨c, hcG, hca⟩
      have hcl := (groupList_mem.mp hcG).1
      rw [anchorOf_eq_pidOf hwf hinv hcl, hpid_group c hcG] at hca
      exact (Option.some.inj hca).symm
    · rintro rfl
      refine ⟨O, hOC, ?_⟩
      rw [anchorOf_eq_pidOf hwf hinv hO]
      exact pidOf_primary hOp
  have hrefetch : getAllLinkedContacts t (groupList t O.id) =
      groupList t O.id := by
    unfold getAllLinkedContacts
    rw [if_neg (by simpa [List.length_eq_zero] using
        List.ne_nil_of_mem hOC),
      filter_closure_eq_group _ hGanchor]
    rfl
  obtain ⟨r, hr⟩ := buildResponse_isSome hOC hOp
  refine ⟨r, ?_, hr⟩
  rw [identify_eq_match_noNew hS hnn, hCgroup, identifyCore_eq, hmerge]
  show (match buildResponse (getAllLinkedContacts t (groupList t O.id)) with
    | none => (Except.error IdentifyError.noPrimaryFound, t)
    | some r0 => (Except.ok r0, t)) = (Except.ok r, t)
  rw [hrefetch, hr]

/-- C5: calling `identify` with a pair that already exists verbatim in the
store creates no record, and a second identical call returns the very same
response and leaves the store bit-for-bit unchanged. -/
theorem identify_exact_pair_idempotent {s : Store} {e p : Option String}
    (hwf : StoreWf s) (hinv : ClaimInv s)
    (hte : truthy e = true) (htp : truthy p = true)
    (hex : ∃ x ∈ s.live, x.email = e ∧ x.phoneNumber = p) :
    ∃ r s₁, identify s e p = (Except.ok r, s₁) ∧
      identify s₁ e p = (Except.ok r, s₁) ∧
      s₁.contacts.length = s.contacts.length := by
  have hdinv : DataInv s := claimInv_to_dataInv hwf hinv
  obtain ⟨x, hx, hxe, hxp⟩ := hex
  have hxm : matchesRequest e p x = true :=
    matchesRequest_iff.mpr (Or.inl ⟨hte, hxe⟩)
  have hxS : x ∈ findMatchingContacts s e p :=
    mem_findMatchingContacts.mpr ⟨hx, hxm⟩
  have hS : findMatchingContacts s e p ≠ [] := List.ne_nil_of_mem hxS
  obtain ⟨O, r₁, s₂, D, heq, hwf₂, hinv₂, hO₂, hOp₂, hall₂, hpres, hbuild,
    hfin, hlen, hins, hDprim, hDlen⟩ := identify_match_master hwf hdinv hS
  have hxC : x ∈ getAllLinkedContacts s (findMatchingContacts s e p) :=
    S_subset_C hwf hdinv hS hxS
  have hnn : shouldCreateNewContact
      (getAllLinkedContacts s (findMatchingContacts s e p)) e p = false := by
    unfold shouldCreateNewContact
    rw [if_pos (show (truthy e && truthy p) = true by rw [hte, htp]; rfl)]
    rw [if_pos (List.any_eq_true.mpr ⟨x, hxC, by rw [hxe, hxp]; simp⟩)]
  have hlen' : s₂.contacts.length = s.contacts.length := by
    rw [hlen, hnn]
    simp
  obtain ⟨y, hy₂, hye, hyp⟩ := hpres x hx
  obtain ⟨r₂, hcall2, hbuild₂⟩ := settled_call hwf₂ hinv₂ hte htp hO₂ hOp₂
    hall₂ ⟨y, hy₂, hye.trans hxe, hyp.trans hxp⟩
  have hr21 : r₂ = r₁ := Option.some.inj (hbuild₂.symm.trans hbuild)
  rw [hr21] at hcall2
  exact ⟨r₁, s₂, heq, hcall2, hlen'⟩

/-- Store holding the exact pair used in the C5 witness. -/
def w5Store : Store :=
  ⟨[⟨1, some "333", some "m@z", none, LinkPrecedence.primary, 0, none⟩],
    2, 1, []⟩

theorem identify_exact_pair_idempotent_witness :
    ∃ r s₁, identify w5Store (some "m@z") (some "333") = (Except.ok r, s₁) ∧
      identify s₁ (some "m@z") (some "333") = (Except.ok r, s₁) ∧
      s₁.contacts.length = w5Store.contacts.length := by
  have hwf : StoreWf w5Store :=
    ⟨by decide, by decide, by decide, by decide, by decide⟩
  have hdinv : DataInv w5Store := by
    constructor
    · intro c hc _
      simp [Store.live, w5Store] at hc
      subst hc
      rfl
    · intro c hc hsec
      simp [Store.live, w5Store] at hc
      subst hc
      exact absurd hsec (by decide)
    · intro c hc d hd _
      simp [Store.live, w5Store] at hc
      simp [Store.live, w5Store] at hd
      subst hc
      subst hd
      rfl
    · intro c hc q hq _ hlink
      simp [Store.live, w5Store] at hc
      subst hc
      exact Option.noConfusion hlink
  exact identify_exact_pair_idempotent hwf (dataInv_to_claimInv hwf hdinv)
    (by decide) (by decide)
    ⟨⟨1, some "333", some "m@z", none, LinkPrecedence.primary, 0, none⟩,
      by decide, rfl, rfl⟩

end Reconciliation
